import Mathlib

/-!
reflectx: serialisable type descriptors

A shallow embedding of `type.go` (the descriptor `Type`, `TypeOf`, `FromGoType`,
`Type.GoType`, `Type.String`, `init`) and of the dispatch helpers `rpc` / `doRpc`
of `type_test.go`, followed by theorems about them.

Conventions of the embedding

* A `reflect.Type` is the finite tree `GoTy`.  Only the structure that
  `FromGoType` can observe is kept (kind, length, direction, element types, field
  names in declared order, parameter and result lists, the variadic flag);
  type names, struct tags, package paths and embedding flags are not part of it.
* A Go `map[string]V` is `Option (List (String × V))`: `none` is the nil map and
  `some l` a non-nil map whose entries are listed in insertion order.  A real Go
  map never holds one key twice, which is the predicate `wfType`.
* A Go panic is `Except.error` carrying the panic message.
* The standard library (`reflect`, `encoding/json`, `encoding/gob`, `strconv`) is
  not part of the repository; the functions used from it are modelled from their
  documentation, each in a definition of its own.  Where a panic text of the
  standard library prints a type, the text is given without the type.
-/

namespace Reflectx

/-! ## reflect: kinds and types -/

/-- The enumeration `reflect.Kind`, in the order of its numeric values 0..26. -/
inductive Kind
  | Invalid | Bool | Int | Int8 | Int16 | Int32 | Int64
  | Uint | Uint8 | Uint16 | Uint32 | Uint64 | Uintptr
  | Float32 | Float64 | Complex64 | Complex128
  | Array | Chan | Func | Interface | Map | Pointer | Slice | String | Struct
  | UnsafePointer
  deriving DecidableEq, Repr

/-- The kinds whose types carry no further structure (the `default:` branch of
`FromGoType`). -/
inductive Scalar
  | Bool | Int | Int8 | Int16 | Int32 | Int64
  | Uint | Uint8 | Uint16 | Uint32 | Uint64 | Uintptr
  | Float32 | Float64 | Complex64 | Complex128
  | String | UnsafePointer
  deriving DecidableEq, Repr

/-- The enumeration `reflect.ChanDir`: `RecvDir = 1`, `SendDir = 2`, `BothDir = 3`. -/
inductive reflect.ChanDir
  | RecvDir | SendDir | BothDir
  deriving DecidableEq, Repr

/-- A native type as seen through `reflect.Type`. -/
inductive GoTy
  | scalar (s : Scalar)
  | array (len : Nat) (elem : GoTy)
  | chan (dir : reflect.ChanDir) (elem : GoTy)
  | func (ins : List GoTy) (outs : List GoTy) (variadic : Bool)
  | iface (methods : List String)
  | map (key : GoTy) (elem : GoTy)
  | ptr (elem : GoTy)
  | slice (elem : GoTy)
  | struct (fields : List (String × GoTy))
  deriving Repr

/-! ## The descriptor -/

/-- The values `FromGoType` stores in `Extra map[string]any`: Go `int`, `bool`
and `string`. -/
inductive Any
  | int (n : Int)
  | bool (b : Bool)
  | str (s : String)
  deriving DecidableEq, Repr

/-- The descriptor `Type` of type.go:15-19. -/
inductive XType
  | mk (Kind : String) (Struct : Option (List (String × XType)))
      (Extra : Option (List (String × Any)))
  deriving Repr

/-- Field `Kind` of the descriptor. -/
def XType.Kind : XType → String
  | .mk k _ _ => k

/-- Field `Struct` of the descriptor. -/
def XType.Struct : XType → Option (List (String × XType))
  | .mk _ s _ => s

/-- Field `Extra` of the descriptor. -/
def XType.Extra : XType → Option (List (String × Any))
  | .mk _ _ e => e

def ElementType : String := "element_type"
def ArrayLength : String := "array_length"
def KeyType : String := "key_type"
def ValueType : String := "value_type"
def NumIn : String := "in_number"
def NumOut : String := "out_number"
def In : String := "in_"
def Out : String := "out_"
def NumField : String := "fields_number"
def Field : String := "field_"
def ChanDir : String := "chan_dir"
def Variadic : String := "variadic"

/-! ## Standard-library helpers -/

/-- The method `reflect.Kind.String`. -/
def kindString : Kind → String
  | .Invalid => "invalid" | .Bool => "bool" | .Int => "int" | .Int8 => "int8"
  | .Int16 => "int16" | .Int32 => "int32" | .Int64 => "int64"
  | .Uint => "uint" | .Uint8 => "uint8" | .Uint16 => "uint16" | .Uint32 => "uint32"
  | .Uint64 => "uint64" | .Uintptr => "uintptr"
  | .Float32 => "float32" | .Float64 => "float64"
  | .Complex64 => "complex64" | .Complex128 => "complex128"
  | .Array => "array" | .Chan => "chan" | .Func => "func" | .Interface => "interface"
  | .Map => "map" | .Pointer => "ptr" | .Slice => "slice" | .String => "string"
  | .Struct => "struct" | .UnsafePointer => "unsafe.Pointer"

/-- The kind of a scalar type. -/
def Scalar.kind : Scalar → Kind
  | .Bool => .Bool | .Int => .Int | .Int8 => .Int8 | .Int16 => .Int16 | .Int32 => .Int32
  | .Int64 => .Int64 | .Uint => .Uint | .Uint8 => .Uint8 | .Uint16 => .Uint16
  | .Uint32 => .Uint32 | .Uint64 => .Uint64 | .Uintptr => .Uintptr
  | .Float32 => .Float32 | .Float64 => .Float64 | .Complex64 => .Complex64
  | .Complex128 => .Complex128 | .String => .String | .UnsafePointer => .UnsafePointer

/-- The method `reflect.Type.Kind`. -/
def GoTy.Kind : GoTy → Kind
  | .scalar s => s.kind
  | .array _ _ => .Array
  | .chan _ _ => .Chan
  | .func _ _ _ => .Func
  | .iface _ => .Interface
  | .map _ _ => .Map
  | .ptr _ => .Pointer
  | .slice _ => .Slice
  | .struct _ => .Struct

/-- The conversion `int(goType.ChanDir())`. -/
def reflect.ChanDir.toInt : reflect.ChanDir → Int
  | .RecvDir => 1
  | .SendDir => 2
  | .BothDir => 3

/-- The function `strconv.Itoa` on the non-negative loop indices it is applied to. -/
def Itoa (i : Nat) : String := toString i

/-- Reading `m[key]` from a non-nil Go map. -/
def entriesGet {α : Type} : List (String × α) → String → Option α
  | [], _ => none
  | (k, v) :: rest, key => if k = key then some v else entriesGet rest key

/-- Reading `m[key]` from a Go map; reading a nil map finds nothing. -/
def mapGet {α : Type} (m : Option (List (String × α))) (key : String) : Option α :=
  match m with
  | none => none
  | some l => entriesGet l key

/-- The assignment `m[key] = v` on a non-nil Go map: an existing binding is
replaced, a new one is added. -/
def mapSet {α : Type} : List (String × α) → String → α → List (String × α)
  | [], key, v => [(key, v)]
  | (k, w) :: rest, key, v =>
    if k = key then (key, v) :: rest else (k, w) :: mapSet rest key v

/-! ## FromGoType and TypeOf (type.go:39-91) -/

mutual
/-- The function `FromGoType` of type.go:48-91.  The `switch kind` is the match on
the shape of the type; `reflect.Invalid` is the kind of no `reflect.Type`, so
that branch has no input.  The pair returned by the loop helpers is the state
of `xType.Struct` and `xType.Extra`. -/
def FromGoType : GoTy → Except String XType
  | .array len elem => do
    let e ← FromGoType elem
    pure (.mk (kindString .Array) (some (mapSet [] ElementType e))
      (some (mapSet [] ArrayLength (.int len))))
  | .chan dir elem => do
    let e ← FromGoType elem
    pure (.mk (kindString .Chan) (some (mapSet [] ElementType e))
      (some (mapSet [] ChanDir (.int dir.toInt))))
  | .func ins outs variadic => do
    let extra := mapSet (mapSet [] NumIn (.int ins.length)) NumOut (.int outs.length)
    let s ← FromGoTypeParams In ins 0 []
    let s ← FromGoTypeParams Out outs 0 s
    pure (.mk (kindString .Func) (some s) (some (mapSet extra Variadic (.bool variadic))))
  | .iface _ => throw "Interface type are not impl"
  | .map key elem => do
    let k ← FromGoType key
    let v ← FromGoType elem
    pure (.mk (kindString .Map) (some (mapSet (mapSet [] KeyType k) ValueType v)) (some []))
  | .ptr elem => do
    let e ← FromGoType elem
    pure (.mk (kindString .Pointer) (some (mapSet [] ElementType e)) (some []))
  | .slice elem => do
    let e ← FromGoType elem
    pure (.mk (kindString .Slice) (some (mapSet [] ElementType e)) (some []))
  | .struct fields => do
    let extra := mapSet [] NumField (.int fields.length)
    let (s, extra) ← FromGoTypeFields fields 0 [] extra
    pure (.mk (kindString .Struct) (some s) (some extra))
  | .scalar s => pure (.mk (kindString s.kind) none none)
/-- The loops of type.go:63-68: `xType.Struct[pre+strconv.Itoa(i)] = FromGoType(...)`
for the parameters (or results) from index `i` on. -/
def FromGoTypeParams (pre : String) : List GoTy → Nat → List (String × XType) →
    Except String (List (String × XType))
  | [], _, s => pure s
  | t :: rest, i, s => do
    let d ← FromGoType t
    FromGoTypeParams pre rest (i + 1) (mapSet s (pre ++ Itoa i) d)
/-- The loop of type.go:81-85 over the fields from index `i` on. -/
def FromGoTypeFields : List (String × GoTy) → Nat → List (String × XType) →
    List (String × Any) → Except String (List (String × XType) × List (String × Any))
  | [], _, s, extra => pure (s, extra)
  | (name, t) :: rest, i, s, extra => do
    let extra := mapSet extra (Field ++ Itoa i) (.str name)
    let d ← FromGoType t
    FromGoTypeFields rest (i + 1) (mapSet s name d) extra
end

/-- The function `TypeOf` of type.go:39-45.  The argument is the dynamic type of
the interface value `i`, `none` for the nil interface (`reflect.TypeOf(nil)`
is nil). -/
def TypeOf (i : Option GoTy) : Except String XType :=
  match i with
  | none => throw "can not get type of nil"
  | some goType => FromGoType goType

/-! ## The kind table built by init (type.go:174-180) -/

/-- The kinds `reflect.Kind(i)` for `i = 0 .. int(reflect.UnsafePointer)`. -/
def allKinds : List Kind :=
  [.Invalid, .Bool, .Int, .Int8, .Int16, .Int32, .Int64, .Uint, .Uint8, .Uint16, .Uint32,
   .Uint64, .Uintptr, .Float32, .Float64, .Complex64, .Complex128, .Array, .Chan, .Func,
   .Interface, .Map, .Pointer, .Slice, .String, .Struct, .UnsafePointer]

/-- The map `kindMap` after `init` ran: `kindMap[kind.String()] = kind` for each kind. -/
def kindMapEntries : List (String × Kind) :=
  allKinds.foldl (fun m kind => mapSet m (kindString kind) kind) []

/-- The read `kindMap[name]`; a missing key reads as the zero value `reflect.Invalid`. -/
def kindMap (name : String) : Kind :=
  (entriesGet kindMapEntries name).getD .Invalid

/-! ## reflect: type constructors -/

/-- The table lookups `unicode.IsLetter` and `unicode.IsDigit`, which
`reflect.StructOf` consults for the non-ASCII characters of a field name.  The
tables are data of the standard library and stay a parameter. -/
structure Unicode where
  IsLetter : Char → Bool
  IsDigit : Char → Bool

/-- The helper `isLetter` of package reflect. -/
def isLetter (u : Unicode) (ch : Char) : Bool :=
  ('a' ≤ ch && ch ≤ 'z') || ('A' ≤ ch && ch ≤ 'Z') || ch == '_' ||
    (decide (0x80 ≤ ch.toNat) && u.IsLetter ch)

/-- The function `unicode.IsDigit`: decided directly up to U+00FF, by table above. -/
def isDigit (u : Unicode) (ch : Char) : Bool :=
  if ch.toNat ≤ 0xFF then ('0' ≤ ch && ch ≤ '9') else u.IsDigit ch

/-- The loop body of `isValidFieldName` from position `i` on. -/
def validNameFrom (u : Unicode) : Nat → List Char → Bool
  | _, [] => true
  | i, c :: rest =>
    if i = 0 && !isLetter u c then false
    else if !(isLetter u c || isDigit u c) then false
    else validNameFrom u (i + 1) rest

/-- The helper `isValidFieldName` of package reflect. -/
def isValidFieldName (u : Unicode) (fieldName : String) : Bool :=
  validNameFrom u 0 fieldName.data && decide (0 < fieldName.length)

/-- The test `reflect.StructOf` makes on a field that carries no package path:
a name starting with a lower-case ASCII letter or an underscore is rejected as
unexported. -/
def startsUnexported (name : String) : Bool :=
  match name.data with
  | [] => false
  | c :: _ => ('a' ≤ c && c ≤ 'z') || c == '_'

mutual
/-- Structural equality of types, as a boolean. -/
def GoTy.beq : GoTy → GoTy → Bool
  | .scalar a, .scalar b => a == b
  | .array n a, .array m b => n == m && GoTy.beq a b
  | .chan d a, .chan e b => d == e && GoTy.beq a b
  | .func i o v, .func i2 o2 v2 => GoTy.beqList i i2 && GoTy.beqList o o2 && v == v2
  | .iface ms, .iface ms2 => ms == ms2
  | .map k a, .map k2 b => GoTy.beq k k2 && GoTy.beq a b
  | .ptr a, .ptr b => GoTy.beq a b
  | .slice a, .slice b => GoTy.beq a b
  | .struct fs, .struct fs2 => GoTy.beqFields fs fs2
  | _, _ => false
/-- Structural equality of type lists. -/
def GoTy.beqList : List GoTy → List GoTy → Bool
  | [], [] => true
  | a :: as, b :: bs => GoTy.beq a b && GoTy.beqList as bs
  | _, _ => false
/-- Structural equality of field lists. -/
def GoTy.beqFields : List (String × GoTy) → List (String × GoTy) → Bool
  | [], [] => true
  | (n, a) :: as, (m, b) :: bs => n == m && GoTy.beq a b && GoTy.beqFields as bs
  | _, _ => false
end

mutual
/-- Whether values of the type can be compared with `==` (the runtime type has
an equality function): every type except slices, maps, functions and the arrays
and structs that contain one. -/
def GoTy.comparable : GoTy → Bool
  | .scalar _ => true
  | .array _ elem => GoTy.comparable elem
  | .chan _ _ => true
  | .func _ _ _ => false
  | .iface _ => true
  | .map _ _ => false
  | .ptr _ => true
  | .slice _ => false
  | .struct fields => GoTy.comparableFields fields
/-- Whether every field type is comparable. -/
def GoTy.comparableFields : List (String × GoTy) → Bool
  | [] => true
  | (_, t) :: rest => GoTy.comparable t && GoTy.comparableFields rest
end

/-- The function `reflect.ArrayOf`: panics on a negative length.  (Its second
panic, on an array larger than the address space, is not modelled: sizes are
not part of `GoTy`.) -/
def ArrayOf (length : Int) (elem : GoTy) : Except String GoTy :=
  if length < 0 then throw "reflect: negative length passed to ArrayOf"
  else pure (.array length.toNat elem)

/-- The function `reflect.ChanOf` applied to `reflect.ChanDir(dir)`: panics on a
direction other than `RecvDir`, `SendDir`, `BothDir`.  (Its panic on an element
of 64 KiB or more is not modelled: sizes are not part of `GoTy`.) -/
def ChanOf (dir : Int) (elem : GoTy) : Except String GoTy :=
  if dir = 1 then pure (.chan .RecvDir elem)
  else if dir = 2 then pure (.chan .SendDir elem)
  else if dir = 3 then pure (.chan .BothDir elem)
  else throw "reflect.ChanOf: invalid dir"

/-- Whether the type is a slice type. -/
def GoTy.isSlice : GoTy → Bool
  | .slice _ => true
  | _ => false

/-- The function `reflect.FuncOf`: panics when the variadic flag is set and the
last parameter is not a slice, and on more than 128 parameters and results. -/
def FuncOf (ins outs : List GoTy) (variadic : Bool) : Except String GoTy :=
  if variadic && (ins.length == 0 || !(ins.getLast?.map GoTy.isSlice).getD false) then
    throw "reflect.FuncOf: last arg of variadic func must be slice"
  else if 128 < ins.length + outs.length then throw "reflect.FuncOf: too many arguments"
  else pure (.func ins outs variadic)

/-- The function `reflect.MapOf`: panics on a key type that is not comparable. -/
def MapOf (key elem : GoTy) : Except String GoTy :=
  if key.comparable then pure (.map key elem)
  else throw "reflect.MapOf: invalid key type"

/-- The loop of `reflect.StructOf` over fields given as `StructField{Name, Type}`
(no package path, not embedded); `seen` is the set of names met so far. -/
def structOfCheck (u : Unicode) : Nat → List String → List (String × GoTy) → Except String Unit
  | _, _, [] => pure ()
  | i, seen, (name, _) :: rest =>
    if name = "" then throw ("reflect.StructOf: field " ++ Itoa i ++ " has no name")
    else if !isValidFieldName u name then
      throw ("reflect.StructOf: field " ++ Itoa i ++ " has invalid name")
    else if startsUnexported name then
      throw ("reflect.StructOf: field \"" ++ name ++ "\" is unexported but missing PkgPath")
    else if seen.contains name && name != "_" then
      throw ("reflect.StructOf: duplicate field " ++ name)
    else structOfCheck u (i + 1) (name :: seen) rest

/-- The function `reflect.StructOf`. -/
def StructOf (u : Unicode) (fields : List (String × GoTy)) : Except String GoTy := do
  structOfCheck u 0 [] fields
  pure (.struct fields)

/-! ## GoType (type.go:94-166) -/

/-- The type assertion `x.(int)` on a value read from `Extra`. -/
def assertInt : Option Any → Except String Int
  | some (.int n) => pure n
  | some (.bool _) => throw "interface conversion: interface {} is bool, not int"
  | some (.str _) => throw "interface conversion: interface {} is string, not int"
  | none => throw "interface conversion: interface {} is nil, not int"

/-- The type assertion `x.(bool)` on a value read from `Extra`. -/
def assertBool : Option Any → Except String Bool
  | some (.bool b) => pure b
  | some (.int _) => throw "interface conversion: interface {} is int, not bool"
  | some (.str _) => throw "interface conversion: interface {} is string, not bool"
  | none => throw "interface conversion: interface {} is nil, not bool"

/-- The type assertion `x.(string)` on a value read from `Extra`. -/
def assertString : Option Any → Except String String
  | some (.str s) => pure s
  | some (.int _) => throw "interface conversion: interface {} is int, not string"
  | some (.bool _) => throw "interface conversion: interface {} is bool, not string"
  | none => throw "interface conversion: interface {} is nil, not string"

/-- A loop `for i := start; i < start + n; i++ { xs = append(xs, body(i)) }`. -/
def collectFrom {α : Type} (body : Nat → Except String α) : Nat → Nat → Except String (List α)
  | _, 0 => pure []
  | i, n + 1 => do
    let x ← body i
    let xs ← collectFrom body (i + 1) n
    pure (x :: xs)

mutual
/-- The method `GoType` of type.go:94-166.  A read `t.Struct[key]` of a missing
key yields the zero `Type`, on which `GoType` panics with "invalid kind of type"
(`kindMap[""]` is `reflect.Invalid`); `structGoType` is `t.Struct[key].GoType()`. -/
def XType.GoType (u : Unicode) : XType → Except String GoTy
  | .mk kind struct extra =>
    match kindMap kind with
    | .Invalid => throw "invalid kind of type"
    | .Bool => pure (.scalar .Bool)
    | .Int => pure (.scalar .Int)
    | .Int8 => pure (.scalar .Int8)
    | .Int16 => pure (.scalar .Int16)
    | .Int32 => pure (.scalar .Int32)
    | .Int64 => pure (.scalar .Int64)
    | .Uint => pure (.scalar .Uint)
    | .Uint8 => pure (.scalar .Uint8)
    | .Uint16 => pure (.scalar .Uint16)
    | .Uint32 => pure (.scalar .Uint32)
    | .Uint64 => pure (.scalar .Uint64)
    | .Uintptr => pure (.scalar .Uintptr)
    | .Float32 => pure (.scalar .Float32)
    | .Float64 => pure (.scalar .Float64)
    | .Complex64 => pure (.scalar .Complex64)
    | .Complex128 => pure (.scalar .Complex128)
    | .Array => do
      let n ← assertInt (mapGet extra ArrayLength)
      let e ← structGoType u struct ElementType
      ArrayOf n e
    | .Chan => do
      let d ← assertInt (mapGet extra ChanDir)
      let e ← structGoType u struct ElementType
      ChanOf d e
    | .Func => do
      let variadic ← assertBool (mapGet extra ValueType)
      let numIn ← assertInt (mapGet extra NumIn)
      let ins ← collectFrom (fun i => structGoType u struct (In ++ Itoa i)) 0 numIn.toNat
      let numOut ← assertInt (mapGet extra NumOut)
      let more ← collectFrom (fun i => structGoType u struct (Out ++ Itoa i)) 0 numOut.toNat
      FuncOf (ins ++ more) [] variadic
    | .Interface => throw "Interface type are not impl"
    | .Map => do
      let k ← structGoType u struct KeyType
      let v ← structGoType u struct ValueType
      MapOf k v
    | .Pointer => do
      let e ← structGoType u struct ElementType
      pure (.ptr e)
    | .Slice => do
      let e ← structGoType u struct ElementType
      pure (.slice e)
    | .String => pure (.scalar .String)
    | .Struct => do
      let numField ← assertInt (mapGet extra NumField)
      let fields ← collectFrom (fun i => do
        let fieldName ← assertString (mapGet extra (Field ++ Itoa i))
        let fieldType ← structGoType u struct fieldName
        pure (fieldName, fieldType)) 0 numField.toNat
      StructOf u fields
    | .UnsafePointer => throw ("Unknown type " ++ kind)
/-- The call `t.Struct[key].GoType()` on the map `t.Struct`. -/
def structGoType (u : Unicode) : Option (List (String × XType)) → String → Except String GoTy
  | none, _ => throw "invalid kind of type"
  | some entries, key => entriesGoType u entries key
/-- The call `m[key].GoType()` on the entries of a non-nil map. -/
def entriesGoType (u : Unicode) : List (String × XType) → String → Except String GoTy
  | [], _ => throw "invalid kind of type"
  | (k, v) :: rest, key => if k = key then XType.GoType u v else entriesGoType u rest key
end

/-! ## encoding/json: the textual form (type.go:168-172) -/

/-- The JSON values the encoder produces for a descriptor. -/
inductive Json
  | str (s : String)
  | num (n : Int)
  | bool (b : Bool)
  | obj (members : List (String × Json))
  deriving Repr

/-- Byte-wise comparison of UTF-8 strings, which is the comparison of their code
points from left to right. -/
def ltChars : List Char → List Char → Bool
  | _, [] => false
  | [], _ :: _ => true
  | a :: as, b :: bs =>
    if a.toNat < b.toNat then true
    else if b.toNat < a.toNat then false
    else ltChars as bs

/-- The order in which the encoder emits two map keys. -/
def keyLe (a b : String) : Bool := !ltChars b.data a.data

/-- The entries of a map in ascending key order, as `encoding/json` emits them. -/
def sortEntries {α : Type} (l : List (String × α)) : List (String × α) :=
  l.insertionSort (fun a b => keyLe a.1 b.1 = true)

/-- The JSON value of an `Extra` entry: a Go `int`, `bool` or `string`. -/
def Any.toJson : Any → Json
  | .int n => .num n
  | .bool b => .bool b
  | .str s => .str s

/-- The member a map field with the tag `omitempty` contributes to the object of
its struct: none for a nil map and for a map without entries, otherwise the
object of its entries in ascending key order. -/
def mapMember (name : String) (entries : List (String × Json)) : List (String × Json) :=
  match entries with
  | [] => []
  | _ :: _ => [(name, Json.obj (sortEntries entries))]

mutual
/-- The JSON object of a descriptor under the struct tags of type.go:16-18: the
members `kind`, `struct`, `extra` in field order, each left out when empty
(`omitempty`). -/
def XType.toJson : XType → Json
  | .mk kind struct extra =>
    .obj ((if kind = "" then [] else [("kind", Json.str kind)]) ++
      mapMember "struct" (structToJson struct) ++
      mapMember "extra" ((extra.getD []).map (fun p => (p.1, p.2.toJson))))
/-- The JSON values of the entries of the map `Struct`; a nil map has none. -/
def structToJson : Option (List (String × XType)) → List (String × Json)
  | none => []
  | some l => entriesToJson l
/-- The JSON values of the entries of a non-nil `Struct`. -/
def entriesToJson : List (String × XType) → List (String × Json)
  | [] => []
  | (k, v) :: rest => (k, XType.toJson v) :: entriesToJson rest
end

/-- A hexadecimal digit of the table `"0123456789abcdef"`. -/
def hexDigit (n : Nat) : Char :=
  if n < 10 then Char.ofNat (48 + n) else Char.ofNat (87 + n)

/-- The encoding of one character inside a JSON string, with the HTML escaping
that `json.Encoder` has switched on: the quote and the backslash get a
backslash, line feed, carriage return and tab their letter, the other control
characters and `<`, `>`, `&` the form `\u00xx`, U+2028 and U+2029 the form
`\u202x`, and every other character stands for itself.  (This is the encoder of
Go 1.18 to 1.21; from Go 1.22 on backspace and form feed are written `\b` and
`\f`.  The strings of Lean are valid Unicode, so the replacement of invalid
UTF-8 by `\ufffd` has no input here.) -/
def escapeChar (c : Char) : List Char :=
  if c = '"' then ['\\', '"']
  else if c = '\\' then ['\\', '\\']
  else if c = '\n' then ['\\', 'n']
  else if c = '\r' then ['\\', 'r']
  else if c = '\t' then ['\\', 't']
  else if c.toNat < 0x20 ∨ c = '<' ∨ c = '>' ∨ c = '&' then
    ['\\', 'u', '0', '0', hexDigit (c.toNat / 16), hexDigit (c.toNat % 16)]
  else if c.toNat = 0x2028 ∨ c.toNat = 0x2029 then
    ['\\', 'u', '2', '0', '2', hexDigit (c.toNat % 16)]
  else [c]

/-- The characters of a JSON string between its quotes. -/
def escapeChars : List Char → List Char
  | [] => []
  | c :: rest => escapeChar c ++ escapeChars rest

/-- A JSON string literal. -/
def quote (s : String) : List Char :=
  '"' :: (escapeChars s.data ++ ['"'])

/-- A Go `int` in decimal, as `strconv.AppendInt(_, n, 10)` writes it. -/
def decimal : Int → List Char
  | .ofNat n => Nat.toDigits 10 n
  | .negSucc n => '-' :: Nat.toDigits 10 (n + 1)

mutual
/-- The text of a JSON value, without insignificant white space. -/
def Json.render : Json → List Char
  | .str s => quote s
  | .num n => decimal n
  | .bool true => "true".data
  | .bool false => "false".data
  | .obj [] => "{}".data
  | .obj ((k, v) :: rest) => '{' :: (quote k ++ ':' :: (Json.render v ++ Json.renderRest rest))
/-- The members after the first one, each behind a comma, and the closing brace. -/
def Json.renderRest : List (String × Json) → List Char
  | [] => ['}']
  | (k, v) :: rest => ',' :: (quote k ++ ':' :: (Json.render v ++ Json.renderRest rest))
end

/-- The method `String` of type.go:168-172: `json.NewEncoder(&buf).Encode(t)`
writes the JSON text followed by a line feed. -/
def XType.String (t : XType) : String :=
  String.mk (t.toJson.render ++ ['\n'])

/-- Whether a JSON object has a member of the given name. -/
def Json.hasMember : Json → String → Bool
  | .obj members, name => members.any (fun m => m.1 == name)
  | _, _ => false

/-! ## Dispatch through the registry (type_test.go:217-261)

The values that travel (`V`) and the byte payload one `Encode` call writes (`P`)
are left abstract: the dispatch code is modelled against the interface `Env`,
and what a theorem needs from the encoding of the arguments is a hypothesis of
that theorem.  The encoding of the descriptor in `encoding/gob` is modelled
further down (`gobEncodeType`, `gobDecodeType`, and the instance `gobEnv`). -/

/-- A Go func value: its parameter types, result types and variadic flag, and
its body, which returns its results or panics.  The two proof fields are what
the Go type system guarantees of every func value. -/
structure Callable (V : Type) where
  ins : List GoTy
  outs : List GoTy
  variadic : Bool
  body : List V → Except String (List V)
  body_length : ∀ args res, body args = .ok res → res.length = outs.length
  variadic_slice : variadic = true → ∃ e, ins.getLast? = some (GoTy.slice e)

/-- The type `reflect.TypeOf(fun)` of a func value. -/
def Callable.goType {V : Type} (c : Callable V) : GoTy :=
  .func c.ins c.outs c.variadic

/-- What the dispatch code uses of the runtime and of `encoding/gob`.
`decType`, `decInt` and `decVal` give the content of a fresh target after
`Decode` returned, whether or not it reported an error (the callers discard the
error); `encVal` is `none` when `Encode` fails and writes nothing. -/
structure Env (V P : Type) where
  zero : GoTy → V
  makeSlice : GoTy → List V → V
  encType : XType → P
  decType : P → XType
  encAny : Any → P
  decInt : P → Int
  encVal : V → Option P
  decVal : GoTy → P → V

/-- The zero value `Type{}`. -/
def zeroType : XType := .mk "" none none

/-- The call `dc.Decode(&funType)` on the rest of the stream: at the end of the
stream the target keeps its zero value. -/
def readType {V P : Type} (env : Env V P) : List P → XType × List P
  | [] => (zeroType, [])
  | p :: rest => (env.decType p, rest)

/-- The call `dc.Decode(&numberIn)` on the rest of the stream. -/
def readInt {V P : Type} (env : Env V P) : List P → Int × List P
  | [] => (0, [])
  | p :: rest => (env.decInt p, rest)

/-- The calls `obj := reflect.New(argType).Interface(); dc.Decode(obj)` on the
rest of the stream. -/
def readVal {V P : Type} (env : Env V P) (argType : GoTy) : List P → V × List P
  | [] => (env.zero argType, [])
  | p :: rest => (env.decVal argType p, rest)

/-- The call `funGoType.In(i)`; `funGoType` is nil when nothing was found in the
registry. -/
def typeIn : Option GoTy → Nat → Except String GoTy
  | none, _ => throw "runtime error: invalid memory address or nil pointer dereference"
  | some (.func ins _ _), i =>
    match ins.get? i with
    | some t => pure t
    | none => throw "reflect: Func index out of bounds"
  | some _, _ => throw "reflect: In of non-func type"

/-- The loop of type_test.go:249-255 from index `i` on, `n` iterations. -/
def decodeArgs {V P : Type} (env : Env V P) (funGoType : Option GoTy) :
    Nat → Nat → List P → Except String (List (GoTy × V))
  | _, 0, _ => pure []
  | i, n + 1, buf => do
    let argType ← typeIn funGoType i
    let (obj, buf) := readVal env argType buf
    let rest ← decodeArgs env funGoType (i + 1) n buf
    pure ((argType, obj) :: rest)

/-- The method set of a type of the structural view: only interface types have one. -/
def GoTy.methods : GoTy → List String
  | .iface ms => ms
  | _ => []

/-- The method `reflect.Type.AssignableTo` on the structural view: identical
types, a bidirectional channel to a directed one of the same element type, and
any type to an interface whose methods it has. -/
def AssignableTo (x target : GoTy) : Bool :=
  GoTy.beq x target ||
  (match x, target with
    | .chan .BothDir e, .chan _ e2 => GoTy.beq e e2
    | _, .iface ms => ms.all (fun m => x.methods.contains m)
    | _, _ => false)

/-- The method `reflect.Type.Elem` on a slice type. -/
def sliceElem : GoTy → Except String GoTy
  | .slice e => pure e
  | _ => throw "reflect: Elem of invalid type"

/-- The method `reflect.Value.Call`: `none` is the zero `Value` that
`reflect.ValueOf(nil)` returns.  The arguments are checked against the
parameter count and the parameter types; for a variadic function the arguments
from the last parameter on are collected into the variadic slice and must each
be assignable to its element type. -/
def Call {V P : Type} (env : Env V P) (f : Option (Callable V)) (args : List (GoTy × V)) :
    Except String (List V) :=
  match f with
  | none => throw "reflect: call of reflect.Value.Call on zero Value"
  | some c =>
    let n := if c.variadic then c.ins.length - 1 else c.ins.length
    if args.length < n then throw "reflect: Call with too few input arguments"
    else if !c.variadic && n < args.length then
      throw "reflect: Call with too many input arguments"
    else if !((args.take n).zip c.ins).all (fun a => AssignableTo a.1.1 a.2) then
      throw "reflect: Call using argument of the wrong type"
    else if c.variadic then do
      let last := (c.ins.getLast?).getD (.slice (.scalar .Int))
      let elem ← sliceElem last
      if !(args.drop n).all (fun a => AssignableTo a.1 elem) then
        throw "reflect: cannot use argument as element type in Call"
      else c.body ((args.take n).map Prod.snd ++ [env.makeSlice last ((args.drop n).map Prod.snd)])
    else c.body (args.map Prod.snd)

/-- The function `doRpc` of type_test.go:236-261, reading `funcRegister`. -/
def doRpcRun {V P : Type} (env : Env V P) (funcRegister : String → Option (Callable V))
    (b : List P) : Except String (List P) := do
  let (funType, buf) := readType env b
  let fn := funcRegister funType.String
  let funGoType := fn.map Callable.goType
  let (numberIn, buf) := readInt env buf
  let args ← decodeArgs env funGoType 0 numberIn.toNat buf
  let r ← Call env fn args
  match r with
  | [] => throw "runtime error: index out of range [0] with length 0"
  | r0 :: _ =>
    match env.encVal r0 with
    | some p => pure [p]
    | none => pure []

/-- The function `doRpc` with the global `funcRegister` as explicit state: the
outcome of the call and the registry it leaves behind. -/
def doRpc {V P : Type} (env : Env V P) (funcRegister : String → Option (Callable V))
    (b : List P) : Except String (List P) × (String → Option (Callable V)) :=
  (doRpcRun env funcRegister b, funcRegister)

/-- The assignment `funcRegister[key] = fun`. -/
def register {V : Type} (funcRegister : String → Option (Callable V)) (key : String)
    (fn : Callable V) : String → Option (Callable V) :=
  fun k => if k = key then some fn else funcRegister k

/-- The bytes `rpc` hands to `doRpc` (type_test.go:220-228): the descriptor of
the function's type, the value `funType.Extra[NumIn]` (nothing is written when
it is nil) and the arguments in order (an argument gob cannot encode writes
nothing). -/
def rpcEnvelope {V P : Type} (env : Env V P) (funType : XType) (args : List V) : List P :=
  [env.encType funType] ++
    (match mapGet funType.Extra NumIn with
      | some a => [env.encAny a]
      | none => []) ++
    args.filterMap env.encVal

/-- The function `rpc[R]` of type_test.go:219-234 for a func value `fn`; `R` is
given as the type `resultType`. -/
def rpc {V P : Type} (env : Env V P) (funcRegister : String → Option (Callable V))
    (resultType : GoTy) (fn : Callable V) (args : List V) : Except String V := do
  let funType ← TypeOf (some fn.goType)
  let ret ← (doRpc env funcRegister (rpcEnvelope env funType args)).1
  match ret with
  | [] => pure (env.zero resultType)
  | p :: _ => pure (env.decVal resultType p)

/-! ### A small instance of the wire format -/

/-- Values of a few Go types: `int`, `string`, `bool` and slices. -/
inductive Val
  | int (n : Int)
  | str (s : String)
  | bool (b : Bool)
  | list (vs : List Val)
  deriving Repr

/-- A payload that describes itself, as a gob message does: a descriptor, a
value of `Extra`, or an argument value. -/
inductive Msg
  | desc (t : XType)
  | any (a : Any)
  | val (v : Val)
  deriving Repr

/-- The zero value of a type, for the types of `Val`; the instance has no values
of other types and reads their zero value as 0. -/
def Val.zero : GoTy → Val
  | .scalar .String => .str ""
  | .scalar .Bool => .bool false
  | .slice _ => .list []
  | _ => .int 0

/-- Decoding into a fresh target of the given type: a payload of another shape
is a decode error and leaves the target at its zero value. -/
def Val.decode : GoTy → Msg → Val
  | .scalar .Int, .val (.int n) => .int n
  | .scalar .Int, .any (.int n) => .int n
  | .scalar .String, .val (.str s) => .str s
  | .scalar .String, .any (.str s) => .str s
  | .scalar .Bool, .val (.bool b) => .bool b
  | .scalar .Bool, .any (.bool b) => .bool b
  | .slice _, .val (.list vs) => .list vs
  | t, _ => Val.zero t

/-- The instance of `Env` on `Val` and `Msg`. -/
def valEnv : Env Val Msg where
  zero := Val.zero
  makeSlice := fun _ vs => .list vs
  encType := .desc
  decType := fun p => match p with
    | .desc t => t
    | _ => zeroType
  encAny := .any
  decInt := fun p => match p with
    | .any (.int n) => n
    | .val (.int n) => n
    | _ => 0
  encVal := fun v => some (.val v)
  decVal := Val.decode

/-- The body of `func(a, b int) int { return a + b }`; the second case has no
input in Go, where the arguments are two ints. -/
def addBody : List Val → Except String (List Val)
  | [.int a, .int b] => .ok [.int (a + b)]
  | _ => .error "reflect: Call using argument of the wrong type"

/-- The function `func(a, b int) int { return a + b }` of `TestRPC`. -/
def addFun : Callable Val where
  ins := [.scalar .Int, .scalar .Int]
  outs := [.scalar .Int]
  variadic := false
  body := addBody
  body_length := by
    intro args res h
    unfold addBody at h
    split at h
    · cases h
      rfl
    · cases h
  variadic_slice := by simp

/-! ## Predicates of the statements -/

mutual
/-- Whether `p` holds of the type and of every type inside it (element, key,
value, parameter, result and field types, at any depth). -/
def GoTy.all (p : GoTy → Bool) : GoTy → Bool
  | .scalar s => p (.scalar s)
  | .array n e => p (.array n e) && GoTy.all p e
  | .chan d e => p (.chan d e) && GoTy.all p e
  | .func ins outs v => p (.func ins outs v) && GoTy.allList p ins && GoTy.allList p outs
  | .iface ms => p (.iface ms)
  | .map k e => p (.map k e) && GoTy.all p k && GoTy.all p e
  | .ptr e => p (.ptr e) && GoTy.all p e
  | .slice e => p (.slice e) && GoTy.all p e
  | .struct fs => p (.struct fs) && GoTy.allFields p fs
/-- The predicate `GoTy.all` on every type of a list. -/
def GoTy.allList (p : GoTy → Bool) : List GoTy → Bool
  | [] => true
  | t :: rest => GoTy.all p t && GoTy.allList p rest
/-- The predicate `GoTy.all` on every field type. -/
def GoTy.allFields (p : GoTy → Bool) : List (String × GoTy) → Bool
  | [] => true
  | (_, t) :: rest => GoTy.all p t && GoTy.allFields p rest
end

/-- Whether the type is an interface type. -/
def GoTy.isInterface : GoTy → Bool
  | .iface _ => true
  | _ => false

/-- Whether the type is an interface type or has one inside. -/
def GoTy.hasInterface (t : GoTy) : Bool :=
  !t.all (fun x => !x.isInterface)

/-- The head of a type built only from bool, the integer, float and complex
kinds, string, arrays, slices, maps, pointers, channels and structs. -/
def supportedHead : GoTy → Bool
  | .scalar .UnsafePointer => false
  | .func _ _ _ => false
  | .iface _ => false
  | _ => true

/-- Whether the type is built only from the kinds of `supportedHead`. -/
def GoTy.supported (t : GoTy) : Bool := t.all supportedHead

/-- Whether no name of the list occurs twice, the blank name `_` apart. -/
def distinctNames : List String → Bool
  | [] => true
  | n :: rest => (n == "_" || !rest.contains n) && distinctNames rest

/-- What the Go language demands of a type at its head: the field names of a
struct are identifiers, distinct unless blank; the key type of a map is
comparable; the last parameter of a variadic function is a slice. -/
def nativeHead (u : Unicode) : GoTy → Bool
  | .struct fs => fs.all (fun f => isValidFieldName u f.1) && distinctNames (fs.map Prod.fst)
  | .map k _ => k.comparable
  | .func ins _ true => (ins.getLast?.map GoTy.isSlice).getD false
  | _ => true

/-- Whether the tree is a type of the Go language. -/
def GoTy.native (u : Unicode) (t : GoTy) : Bool := t.all (nativeHead u)

/-- Whether no field name of a struct head begins with a lower-case ASCII
letter or an underscore. -/
def exportedHead : GoTy → Bool
  | .struct fs => fs.all (fun f => !startsUnexported f.1)
  | _ => true

/-- Whether every struct inside the type has only field names that
`reflect.StructOf` accepts without a package path. -/
def GoTy.exportedFields (t : GoTy) : Bool := t.all exportedHead

/-- Whether no key occurs twice in the list. -/
def distinctKeys : List String → Bool
  | [] => true
  | k :: rest => !rest.contains k && distinctKeys rest

mutual
/-- Whether no map of the descriptor tree binds a key twice, as is the case for
every Go map. -/
def wfType : XType → Bool
  | .mk _ s e => wfStruct s && distinctKeys ((e.getD []).map Prod.fst)
/-- The condition `wfType` on the map `Struct`. -/
def wfStruct : Option (List (String × XType)) → Bool
  | none => true
  | some l => wfEntries l
/-- The condition `wfType` on the entries of `Struct`. -/
def wfEntries : List (String × XType) → Bool
  | [] => true
  | (k, v) :: rest => !(rest.map Prod.fst).contains k && wfType v && wfEntries rest
end

mutual
/-- Two descriptors with the same content: the same `Kind`, the same keys bound
to the same values in `Extra`, the same keys bound in `Struct`, and under each
key descriptors with the same content again.  The order of the entries plays
no part, and a nil map and a map without entries have the same content. -/
def Same : XType → XType → Prop
  | .mk k s e, d =>
    k = d.Kind ∧ (∀ key, mapGet e key = mapGet d.Extra key) ∧
      (∀ key, sameAt s key (mapGet d.Struct key))
/-- The entry of the map under `key` has the same content as `o`. -/
def sameAt : Option (List (String × XType)) → String → Option XType → Prop
  | none, _, o => o = none
  | some l, key, o => sameIn l key o
/-- The entry of the list under `key` has the same content as `o`. -/
def sameIn : List (String × XType) → String → Option XType → Prop
  | [], _, o => o = none
  | (k, v) :: rest, key, o =>
    if k = key then ∃ v2, o = some v2 ∧ Same v v2 else sameIn rest key o
end

/-- The body of `func(xs ...int) int { return len(xs) }`; the second case has no
input in Go, where the argument is one slice. -/
def countBody : List Val → Except String (List Val)
  | [.list vs] => .ok [.int vs.length]
  | _ => .error "reflect: Call using argument of the wrong type"

/-- A variadic function, `func(xs ...int) int { return len(xs) }`. -/
def countFun : Callable Val where
  ins := [.slice (.scalar .Int)]
  outs := [.scalar .Int]
  variadic := true
  body := countBody
  body_length := by
    intro args res h
    unfold countBody at h
    split at h
    · cases h
      rfl
    · cases h
  variadic_slice := by simp

/-- A table that knows no letter and no digit beyond U+00FF. -/
def asciiTable : Unicode where
  IsLetter := fun _ => false
  IsDigit := fun _ => false

/-! ## Notions used in the proofs about the textual form -/

/-- The shapes the encoding of one character takes. -/
inductive EscShape : Char → List Char → Prop
  | plain (c : Char) : c ≠ '"' → c ≠ '\\' → EscShape c [c]
  | short (c x : Char) : (c = '"' ∧ x = '"') ∨ (c = '\\' ∧ x = '\\') ∨ (c = '\n' ∧ x = 'n') ∨
      (c = '\r' ∧ x = 'r') ∨ (c = '\t' ∧ x = 't') → EscShape c ['\\', x]
  | low (c : Char) : c.toNat < 256 →
      EscShape c ['\\', 'u', '0', '0', hexDigit (c.toNat / 16), hexDigit (c.toNat % 16)]
  | sep (c : Char) : c.toNat = 0x2028 ∨ c.toNat = 0x2029 →
      EscShape c ['\\', 'u', '2', '0', '2', hexDigit (c.toNat % 16)]

/-- A rest of the text that does not go on with a digit. -/
def NoDigitHead (r : List Char) : Prop := ∀ c ∈ r.head?, c.isDigit = false

/-- The sort of JSON value a first character announces. -/
def charSort (c : Char) : Nat :=
  if c = '"' then 0
  else if c.isDigit = true ∨ c = '-' then 1
  else if c = 't' ∨ c = 'f' then 2
  else if c = '{' then 3
  else 4

/-- The sort of a JSON value: string, number, boolean or object. -/
def Json.sort : Json → Nat
  | .str _ => 0
  | .num _ => 1
  | .bool _ => 2
  | .obj _ => 3

/-! ## Inputs of the tests, used as concrete instances -/

/-- The type `struct { Name string; Age int64 }` of `TestStruct`. -/
def nameAgeType : GoTy :=
  .struct [("Name", .scalar .String), ("Age", .scalar .Int64)]

/-- The descriptor `FromGoType` builds for `nameAgeType`, entries in the order of
the assignments. -/
def nameAgeDesc : XType :=
  .mk "struct"
    (some [("Name", .mk "string" none none), ("Age", .mk "int64" none none)])
    (some [("fields_number", .int 2), ("field_0", .str "Name"), ("field_1", .str "Age")])

/-- The same descriptor with the entries of both maps in another order. -/
def nameAgeDescShuffled : XType :=
  .mk "struct"
    (some [("Age", .mk "int64" none none), ("Name", .mk "string" none none)])
    (some [("field_1", .str "Age"), ("fields_number", .int 2), ("field_0", .str "Name")])

/-- The type `struct { name string }`, with an unexported field. -/
def lowerNameType : GoTy :=
  .struct [("name", .scalar .String)]

/-- The descriptor `FromGoType` builds for `func() {}` (`TestFunc`): `Struct` is
a map without entries. -/
def funcDesc : XType :=
  .mk "func" (some [])
    (some [("in_number", .int 0), ("out_number", .int 0), ("variadic", .bool false)])

/-- The descriptor `funcDesc` with a nil map in place of the empty `Struct`. -/
def funcDescNil : XType :=
  .mk "func" none
    (some [("in_number", .int 0), ("out_number", .int 0), ("variadic", .bool false)])

/-- The descriptor of `func(a, b int) int`, the type of `addFun`. -/
def addDesc : XType :=
  .mk "func"
    (some [("in_0", .mk "int" none none), ("in_1", .mk "int" none none),
      ("out_0", .mk "int" none none)])
    (some [("in_number", .int 2), ("out_number", .int 1), ("variadic", .bool false)])

/-- The descriptor of `func(xs ...int) int`, the type of `countFun`. -/
def countDesc : XType :=
  .mk "func"
    (some [("in_0", .mk "slice" (some [("element_type", .mk "int" none none)]) (some [])),
      ("out_0", .mk "int" none none)])
    (some [("in_number", .int 1), ("out_number", .int 1), ("variadic", .bool true)])

/-- The registry after `funcRegister[TypeOf(fun).String()] = fun` for `addFun`. -/
def addRegistry : String → Option (Callable Val) :=
  register (fun _ => none) addDesc.String addFun

/-- The registry after `funcRegister[TypeOf(fun).String()] = fun` for `countFun`. -/
def countRegistry : String → Option (Callable Val) :=
  register (fun _ => none) countDesc.String countFun

/-! ## Further predicates, the wire form of a descriptor, further inputs -/

/-- Whether the type is `unsafe.Pointer`. -/
def GoTy.isUnsafePointer : GoTy → Bool
  | .scalar .UnsafePointer => true
  | _ => false

/-- Whether the type is `unsafe.Pointer` or has it inside. -/
def GoTy.hasUnsafePointer (t : GoTy) : Bool :=
  !t.all (fun x => !x.isUnsafePointer)

/-- The kinds `FromGoType` treats in a branch of their own (type.go:54-85). -/
def compositeKinds : List Kind :=
  [.Array, .Chan, .Func, .Interface, .Map, .Pointer, .Slice, .Struct]

mutual
/-- The descriptor with every map without entries replaced by the nil map, at
every depth: what a receiver would hold behind a wire format that leaves empty
maps out of the transmission. -/
def emptyToNil : XType → XType
  | .mk kind struct extra =>
    .mk kind (emptyToNilStruct struct)
      (match extra with
        | none => none
        | some l => if l.isEmpty then none else some l)
/-- The map `Struct` with `emptyToNil` applied. -/
def emptyToNilStruct : Option (List (String × XType)) → Option (List (String × XType))
  | none => none
  | some l => if l.isEmpty then none else some (emptyToNilEntries l)
/-- The entries of `Struct` with `emptyToNil` applied. -/
def emptyToNilEntries : List (String × XType) → List (String × XType)
  | [] => []
  | (k, v) :: rest => (k, emptyToNil v) :: emptyToNilEntries rest
end

/-! ## encoding/gob: the value encoding of a descriptor (type_test.go:219-243)

The encoding of a value of the Go type `Type`, after the grammar in the
documentation of `encoding/gob`:

    StructValue:    (uint(fieldDelta) FieldValue)* uint(0)
    MapValue:       uint(n) (FieldValue FieldValue)*n
    string:         uint(length) bytes
    InterfaceValue: uint(lengthOfName) name int(concreteTypeId) uint(length) Value
    SingletonValue: uint(0) FieldValue

A field that holds the zero value of its type (the empty string, a nil map) is
left out of a struct; a map without entries that is not nil is sent, with the
count 0.  An unsigned integer is kept as one item of the stream (its
variable-length bytes are not spelled out) and the bytes of a string as the
string.  The frame of a message (its length and type id) and the messages that
define the type `Type` to the receiver are the same for every descriptor and
are left out. -/

/-- An item of a gob stream: an unsigned integer, or the bytes of a string. -/
inductive Gob
  | uint (n : Nat)
  | bytes (s : String)
  deriving DecidableEq, Repr

/-- The number of bytes of a positive number in base 256 (at most `fuel`). -/
def byteLength : Nat → Nat → Nat
  | 0, _ => 0
  | fuel + 1, n => if n = 0 then 0 else 1 + byteLength fuel (n / 256)

/-- The number of bytes gob writes for an unsigned integer: one byte below 128,
else the byte count and the bytes. -/
def uintSize (n : Nat) : Nat :=
  if n < 128 then 1 else 1 + byteLength 8 n

/-- The number of bytes of an item. -/
def Gob.size : Gob → Nat
  | .uint n => uintSize n
  | .bytes s => s.utf8ByteSize

/-- The number of bytes of a run of items. -/
def gobSize (items : List Gob) : Nat :=
  (items.map Gob.size).sum

/-- The encoding of a signed integer: the bits are shifted up by one, and
complemented for a negative number, with the sign in bit 0. -/
def gobInt (i : Int) : Gob :=
  .uint (if i < 0 then 2 * (-i - 1).toNat + 1 else 2 * i.toNat)

/-- The signed integer an unsigned integer of the stream stands for. -/
def gobToInt (n : Nat) : Int :=
  if n % 2 = 1 then -((n / 2 : Nat) : Int) - 1 else ((n / 2 : Nat) : Int)

/-- The encoding of a boolean. -/
def gobBool (b : Bool) : Gob :=
  .uint (if b then 1 else 0)

/-- The encoding of a string: its length in bytes, then the bytes. -/
def gobString (s : String) : List Gob :=
  [.uint s.utf8ByteSize, .bytes s]

/-- A value with its length in bytes in front (`DelimitedValue`). -/
def gobDelimited (value : List Gob) : List Gob :=
  .uint (gobSize value) :: value

/-- The encoding of an interface value that holds an `int`, a `bool` or a
`string`: the registered name of the concrete type, its type id (bool 1, int 2,
string 6), and the delimited singleton value. -/
def gobAny : Any → List Gob
  | .int n => gobString "int" ++ gobInt 2 :: gobDelimited [.uint 0, gobInt n]
  | .bool b => gobString "bool" ++ gobInt 1 :: gobDelimited [.uint 0, gobBool b]
  | .str s => gobString "string" ++ gobInt 6 :: gobDelimited (.uint 0 :: gobString s)

/-- The key-value pairs of a `map[string]any`, in the order of the entries. -/
def gobExtraEntries : List (String × Any) → List Gob
  | [] => []
  | (k, a) :: rest => gobString k ++ gobAny a ++ gobExtraEntries rest

mutual
/-- The struct value of a descriptor: field 0 is `Kind`, field 1 `Struct`, field
2 `Extra`; each field that is sent is preceded by the distance of its number to
the number of the field sent before it (-1 at the start), and the value ends
with the delta 0. -/
def gobEncodeType : XType → List Gob
  | .mk kind struct extra =>
    (if kind = "" then [] else .uint 1 :: gobString kind) ++
    (match struct with
      | none => []
      | some l =>
        .uint (if kind = "" then 2 else 1) :: .uint l.length :: gobEncodeEntries l) ++
    (match extra with
      | none => []
      | some l =>
        .uint (match struct with
          | some _ => 1
          | none => if kind = "" then 3 else 2) :: .uint l.length :: gobExtraEntries l) ++
    [.uint 0]
/-- The key-value pairs of a `map[string]Type`, in the order of the entries. -/
def gobEncodeEntries : List (String × XType) → List Gob
  | [] => []
  | (k, v) :: rest => gobString k ++ gobEncodeType v ++ gobEncodeEntries rest
end

/-- Reading a string: the length must be the length of the bytes that follow. -/
def readString : List Gob → Option (String × List Gob)
  | .uint n :: .bytes s :: rest => if n = s.utf8ByteSize then some (s, rest) else none
  | _ => none

/-- Reading an interface value into an `any`: the name selects the registered
concrete type and the type id must be the one of that type; the length is read
and not used; a singleton value starts with the delta 0. -/
def readAny (items : List Gob) : Option (Any × List Gob) :=
  match readString items with
  | none => none
  | some (name, rest) =>
    match rest with
    | .uint id :: .uint _ :: .uint 0 :: rest =>
      if name = "int" ∧ gobToInt id = 2 then
        match rest with
        | .uint n :: rest => some (.int (gobToInt n), rest)
        | _ => none
      else if name = "bool" ∧ gobToInt id = 1 then
        match rest with
        | .uint n :: rest => some (.bool (n != 0), rest)
        | _ => none
      else if name = "string" ∧ gobToInt id = 6 then
        match readString rest with
        | some (s, rest) => some (.str s, rest)
        | none => none
      else none
    | _ => none

/-- Reading `n` key-value pairs into a `map[string]any`: each pair is stored
with `m[key] = value`. -/
def readExtraEntries : Nat → List (String × Any) → List Gob →
    Option (List (String × Any) × List Gob)
  | 0, m, items => some (m, items)
  | n + 1, m, items =>
    match readString items with
    | none => none
    | some (k, rest) =>
      match readAny rest with
      | none => none
      | some (a, rest) => readExtraEntries n (mapSet m k a) rest

mutual
/-- Reading the fields of a struct value into the descriptor `t`, where `next`
is the number of the last field read plus one.  The loop ends at the delta 0 or
at the end of the data; a map field is read into the map the target holds (a
new one when that is nil).  `fuel` bounds the number of steps; each step reads
an item. -/
def readFields : Nat → Nat → XType → List Gob → Option (XType × List Gob)
  | 0, _, _, _ => none
  | _ + 1, _, t, [] => some (t, [])
  | _ + 1, _, t, .uint 0 :: rest => some (t, rest)
  | fuel + 1, next, .mk kind struct extra, .uint (delta + 1) :: rest =>
    match next + delta with
    | 0 =>
      match readString rest with
      | none => none
      | some (s, rest) => readFields fuel 1 (.mk s struct extra) rest
    | 1 =>
      match rest with
      | .uint n :: rest =>
        match readStructEntries fuel n (struct.getD []) rest with
        | none => none
        | some (m, rest) => readFields fuel 2 (.mk kind (some m) extra) rest
      | _ => none
    | 2 =>
      match rest with
      | .uint n :: rest =>
        match readExtraEntries n (extra.getD []) rest with
        | none => none
        | some (m, rest) => readFields fuel 3 (.mk kind struct (some m)) rest
      | _ => none
    | _ => none
  | _ + 1, _, _, .bytes _ :: _ => none
/-- Reading `n` key-value pairs into a `map[string]Type`: each value is read
into a fresh `Type` and stored with `m[key] = value`. -/
def readStructEntries : Nat → Nat → List (String × XType) → List Gob →
    Option (List (String × XType) × List Gob)
  | _, 0, m, items => some (m, items)
  | 0, _ + 1, _, _ => none
  | fuel + 1, n + 1, m, items =>
    match readString items with
    | none => none
    | some (k, rest) =>
      match readFields fuel 0 (.mk "" none none) rest with
      | none => none
      | some (v, rest) => readStructEntries fuel n (mapSet m k v) rest
end

/-- The call `dc.Decode(&funType)` on the struct value of a message, for a fresh
`funType`: the descriptor read; when the data is not a value of `Type`, `Decode`
returns an error, which `doRpc` discards, and the model leaves the target at
its zero value. -/
def gobDecodeType (items : List Gob) : XType :=
  match readFields (items.length + 1) 0 (.mk "" none none) items with
  | some (t, _) => t
  | none => .mk "" none none

/-- A message on the wire: the descriptor as gob encodes it, and, for the
parameter count and the arguments, the self-describing payloads of `Msg`. -/
inductive Wire
  | desc (items : List Gob)
  | any (a : Any)
  | val (v : Val)
  deriving Repr

/-- The instance of `Env` in which the descriptor travels in the value encoding
of `encoding/gob`; the other messages are those of `valEnv`. -/
def gobEnv : Env Val Wire where
  zero := Val.zero
  makeSlice := fun _ vs => .list vs
  encType := fun t => .desc (gobEncodeType t)
  decType := fun p => match p with
    | .desc items => gobDecodeType items
    | _ => zeroType
  encAny := .any
  decInt := fun p => match p with
    | .any (.int n) => n
    | .val (.int n) => n
    | _ => 0
  encVal := fun v => some (.val v)
  decVal := fun t p => match p with
    | .desc _ => Val.zero t
    | .any a => Val.decode t (.any a)
    | .val v => Val.decode t (.val v)

/-- The type `struct { _ int; _ string }`, with two blank fields. -/
def blankPairType : GoTy :=
  .struct [("_", .scalar .Int), ("_", .scalar .String)]

/-- The descriptor `FromGoType` builds for `blankPairType`. -/
def blankPairDesc : XType :=
  .mk "struct" (some [("_", .mk "string" none none)])
    (some [("fields_number", .int 2), ("field_0", .str "_"), ("field_1", .str "_")])

/-- A struct descriptor whose second field name is lower-case. -/
def lowerAgeDesc : XType :=
  .mk "struct"
    (some [("Name", .mk "string" none none), ("age", .mk "int" none none)])
    (some [("fields_number", .int 2), ("field_0", .str "Name"), ("field_1", .str "age")])

/-- The descriptor `nameAgeDesc` with one more entry in `Struct`, named by no
`field_i`. -/
def nameAgeDescMore : XType :=
  .mk "struct"
    (some [("Zip", .mk "" none none), ("Age", .mk "int64" none none),
      ("Name", .mk "string" none none)])
    (some [("field_1", .str "Age"), ("fields_number", .int 2), ("field_0", .str "Name")])

/-- The type `func(string, int) (bool, struct{})` of `TestFunc2`. -/
def func2Type : GoTy :=
  .func [.scalar .String, .scalar .Int] [.scalar .Bool, .struct []] false

/-- The type `[16]int` of `TestArray`. -/
def intArray16 : GoTy := .array 16 (.scalar .Int)

/-- The type `[2]struct { name string }`. -/
def lowerNameArray : GoTy := .array 2 lowerNameType

/-- The type `map[string]int` of `TestMap`. -/
def mapStringInt : GoTy := .map (.scalar .String) (.scalar .Int)

/-- The type `[2]unsafe.Pointer`. -/
def pointerArray : GoTy := .array 2 (.scalar .UnsafePointer)

/-- The body of a function without results that does nothing. -/
def noBody : List Val → Except String (List Val) :=
  fun _ => .ok []

/-- The function `func(a int) {}`, without results. -/
def noResultFun : Callable Val where
  ins := [.scalar .Int]
  outs := []
  variadic := false
  body := noBody
  body_length := by
    intro args res h
    cases h
    rfl
  variadic_slice := by simp

/-- The descriptor of `func(a int)`, the type of `noResultFun`. -/
def noResultDesc : XType :=
  .mk "func" (some [("in_0", .mk "int" none none)])
    (some [("in_number", .int 1), ("out_number", .int 0), ("variadic", .bool false)])

/-- The registry after `funcRegister[TypeOf(fun).String()] = fun` for `noResultFun`. -/
def noResultRegistry : String → Option (Callable Val) :=
  register (fun _ => none) noResultDesc.String noResultFun

/-- The function `func(xs ...int) {}`, variadic and without results. -/
def logFun : Callable Val where
  ins := [.slice (.scalar .Int)]
  outs := []
  variadic := true
  body := noBody
  body_length := by
    intro args res h
    cases h
    rfl
  variadic_slice := by simp

/-- The descriptor of `func(xs ...int)`, the type of `logFun`. -/
def logDesc : XType :=
  .mk "func"
    (some [("in_0", .mk "slice" (some [("element_type", .mk "int" none none)]) (some []))])
    (some [("in_number", .int 1), ("out_number", .int 0), ("variadic", .bool true)])

/-- The registry after `funcRegister[TypeOf(fun).String()] = fun` for `logFun`. -/
def logRegistry : String → Option (Callable Val) :=
  register (fun _ => none) logDesc.String logFun

/-! # Theorems -/

/-! ## Go maps -/

theorem entriesGet_none {α : Type} (l : List (String × α)) (k : String)
    (h : k ∉ l.map Prod.fst) : entriesGet l k = none := by
  induction l with
  | nil => rfl
  | cons p rest ih =>
    obtain ⟨k', v⟩ := p
    simp only [List.map_cons, List.mem_cons, not_or] at h
    simp only [entriesGet]
    rw [if_neg (fun e => h.1 e.symm)]
    exact ih h.2

theorem entriesGet_mapSet {α : Type} (m : List (String × α)) (k k' : String) (v : α) :
    entriesGet (mapSet m k v) k' = if k = k' then some v else entriesGet m k' := by
  induction m with
  | nil => simp [mapSet, entriesGet]
  | cons p rest ih =>
    obtain ⟨a, w⟩ := p
    by_cases h : a = k
    · subst h
      by_cases h2 : a = k' <;> simp [mapSet, entriesGet, h2]
    · by_cases h2 : a = k'
      · subst h2
        simp [mapSet, entriesGet, h, Ne.symm h]
      · simp [mapSet, entriesGet, h, h2, ih]

theorem mem_iff_entriesGet {α : Type} : ∀ (l : List (String × α)), (l.map Prod.fst).Nodup →
    ∀ k v, (k, v) ∈ l ↔ entriesGet l k = some v
  | [], _, k, v => by simp [entriesGet]
  | (a, w) :: rest, hn, k, v => by
    simp only [List.map_cons, List.nodup_cons] at hn
    have ih := mem_iff_entriesGet rest hn.2 k v
    by_cases h : a = k
    · subst h
      simp only [List.mem_cons, Prod.mk.injEq, true_and, entriesGet, ↓reduceIte, Option.some.injEq]
      constructor
      · rintro (h | h)
        · exact h.symm
        · exact absurd (List.mem_map_of_mem Prod.fst h) hn.1
      · intro h
        exact Or.inl h.symm
    · simp only [List.mem_cons, Prod.mk.injEq, entriesGet, h, ↓reduceIte, ← ih]
      constructor
      · rintro (⟨h1, _⟩ | h1)
        · exact absurd h1.symm h
        · exact h1
      · exact Or.inr

theorem perm_of_entriesGet {α : Type} (l1 l2 : List (String × α))
    (h1 : (l1.map Prod.fst).Nodup) (h2 : (l2.map Prod.fst).Nodup)
    (h : ∀ k, entriesGet l1 k = entriesGet l2 k) : l1.Perm l2 := by
  classical
  refine (List.perm_ext_iff_of_nodup (List.Nodup.of_map _ h1) (List.Nodup.of_map _ h2)).mpr ?_
  rintro ⟨k, v⟩
  rw [mem_iff_entriesGet l1 h1, mem_iff_entriesGet l2 h2, h]

theorem entriesGet_of_perm {α : Type} (l1 l2 : List (String × α)) (hp : l1.Perm l2)
    (h1 : (l1.map Prod.fst).Nodup) (k : String) : entriesGet l1 k = entriesGet l2 k := by
  have h2 : (l2.map Prod.fst).Nodup := (hp.map _).nodup_iff.mp h1
  cases h : entriesGet l2 k with
  | some v =>
    rw [← mem_iff_entriesGet l1 h1]
    exact hp.symm.subset ((mem_iff_entriesGet l2 h2 k v).mpr h)
  | none =>
    cases h' : entriesGet l1 k with
    | none => rfl
    | some v =>
      have := hp.subset ((mem_iff_entriesGet l1 h1 k v).mpr h')
      rw [mem_iff_entriesGet l2 h2, h] at this
      cases this

/-! ## The kind table -/

theorem kindMapEntries_keys : kindMapEntries.map Prod.fst = allKinds.map kindString := by
  decide

theorem kindMap_unknown (name : String) (h : name ∉ allKinds.map kindString) :
    kindMap name = .Invalid := by
  unfold kindMap
  rw [entriesGet_none _ _ (by rw [kindMapEntries_keys]; exact h)]
  rfl

/-- C7.  Reconstruction fails on unsupported kinds: when `Kind` is the name of
no native kind (the empty string included), or is "invalid", or is "interface",
`GoType` panics, whatever the maps `Struct` and `Extra` hold. -/
theorem C7_GoType_fails_on_unsupported_kind (u : Unicode) (t : XType)
    (h : t.Kind ∉ allKinds.map kindString ∨ t.Kind = "invalid" ∨ t.Kind = "interface") :
    ∃ msg, t.GoType u = .error msg := by
  obtain ⟨k, s, e⟩ := t
  simp only [XType.Kind] at h
  have hk : kindMap k = .Invalid ∨ kindMap k = .Interface := by
    rcases h with h | h | h
    · exact Or.inl (kindMap_unknown k h)
    · subst h; exact Or.inl (by decide)
    · subst h; exact Or.inr (by decide)
  rcases hk with hk | hk
  · exact ⟨_, by rw [XType.GoType, hk]; rfl⟩
  · exact ⟨_, by rw [XType.GoType, hk]; rfl⟩

/-- C7 at a descriptor with the empty kind name and a populated `Struct`. -/
theorem C7_GoType_fails_on_unsupported_kind_witness :
    (XType.mk "" (some [("element_type", .mk "int" none none)]) none).Kind ∉
        allKinds.map kindString ∧
      ∃ msg, (XType.mk "" (some [("element_type", .mk "int" none none)]) none).GoType
        asciiTable = .error msg :=
  ⟨by decide, C7_GoType_fails_on_unsupported_kind asciiTable _ (Or.inl (by decide))⟩

/-! ## Function types -/

theorem FromGoType_func_extra (ins outs : List GoTy) (variadic : Bool) (d : XType)
    (h : FromGoType (.func ins outs variadic) = .ok d) :
    d.Kind = "func" ∧ d.Extra = some [(NumIn, .int ins.length), (NumOut, .int outs.length),
      (Variadic, .bool variadic)] := by
  rw [FromGoType] at h
  simp only [bind, Except.bind, pure, Except.pure] at h
  split at h
  · cases h
  · split at h
    · cases h
    · cases h
      exact ⟨rfl, rfl⟩

/-- C2 on the code.  `GoType` panics on the descriptor of every function type:
type.go:137 reads the variadic flag under the key `ValueType`, which
`FromGoType` never writes (it writes `Variadic`), so the type assertion
`.(bool)` meets a nil interface. -/
theorem C2_func_round_trip_panics (u : Unicode) (ins outs : List GoTy) (variadic : Bool)
    (d : XType) (h : FromGoType (.func ins outs variadic) = .ok d) :
    d.GoType u = .error "interface conversion: interface {} is nil, not bool" := by
  obtain ⟨hk, he⟩ := FromGoType_func_extra ins outs variadic d h
  obtain ⟨k, s, e⟩ := d
  simp only [XType.Kind, XType.Extra] at hk he
  subst hk he
  rw [XType.GoType]
  rfl

/-- C2 at `func() {}`, the input of `TestFunc`. -/
theorem C2_func_round_trip_panics_witness :
    FromGoType (.func [] [] false) = .ok funcDesc ∧
      funcDesc.GoType asciiTable =
        .error "interface conversion: interface {} is nil, not bool" :=
  ⟨rfl, C2_func_round_trip_panics asciiTable [] [] false funcDesc rfl⟩

/-! ## Describe: failure -/

mutual
theorem FromGoType_isOk : ∀ t : GoTy,
    (FromGoType t).isOk = t.all (fun x => !x.isInterface)
  | .scalar s => by simp [FromGoType, GoTy.all, GoTy.isInterface, Except.isOk, Except.toBool, pure, Except.pure]
  | .array n e => by
    have ih := FromGoType_isOk e
    cases h : FromGoType e <;>
      simp_all [FromGoType, GoTy.all, GoTy.isInterface, Except.isOk, Except.toBool, pure,
        Except.pure, bind, Except.bind]
  | .chan d e => by
    have ih := FromGoType_isOk e
    cases h : FromGoType e <;>
      simp_all [FromGoType, GoTy.all, GoTy.isInterface, Except.isOk, Except.toBool, pure,
        Except.pure, bind, Except.bind]
  | .func ins outs v => by
    have ih1 := FromGoTypeParams_isOk In ins 0 []
    cases h : FromGoTypeParams In ins 0 [] with
    | error e =>
      simp_all [FromGoType, GoTy.all, GoTy.isInterface, Except.isOk, Except.toBool, pure,
        Except.pure, bind, Except.bind]
    | ok s =>
      have ih2 := FromGoTypeParams_isOk Out outs 0 s
      cases h2 : FromGoTypeParams Out outs 0 s <;>
        simp_all [FromGoType, GoTy.all, GoTy.isInterface, Except.isOk, Except.toBool, pure,
          Except.pure, bind, Except.bind]
  | .iface ms => by simp [FromGoType, GoTy.all, GoTy.isInterface, Except.isOk, Except.toBool, throw, throwThe, MonadExceptOf.throw]
  | .map k e => by
    have ih1 := FromGoType_isOk k
    have ih2 := FromGoType_isOk e
    cases h : FromGoType k <;> cases h2 : FromGoType e <;>
      simp_all [FromGoType, GoTy.all, GoTy.isInterface, Except.isOk, Except.toBool, pure,
        Except.pure, bind, Except.bind]
  | .ptr e => by
    have ih := FromGoType_isOk e
    cases h : FromGoType e <;>
      simp_all [FromGoType, GoTy.all, GoTy.isInterface, Except.isOk, Except.toBool, pure,
        Except.pure, bind, Except.bind]
  | .slice e => by
    have ih := FromGoType_isOk e
    cases h : FromGoType e <;>
      simp_all [FromGoType, GoTy.all, GoTy.isInterface, Except.isOk, Except.toBool, pure,
        Except.pure, bind, Except.bind]
  | .struct fs => by
    have ih := FromGoTypeFields_isOk fs 0 [] (mapSet [] NumField (.int fs.length))
    cases h : FromGoTypeFields fs 0 [] (mapSet [] NumField (.int fs.length)) <;>
      simp_all [FromGoType, GoTy.all, GoTy.isInterface, Except.isOk, Except.toBool, pure,
        Except.pure, bind, Except.bind]
theorem FromGoTypeParams_isOk (pre : String) : ∀ (l : List GoTy) (i : Nat)
    (s : List (String × XType)),
    (FromGoTypeParams pre l i s).isOk = GoTy.allList (fun x => !x.isInterface) l
  | [], _, _ => by simp [FromGoTypeParams, GoTy.allList, Except.isOk, Except.toBool, pure, Except.pure]
  | t :: rest, i, s => by
    have ih1 := FromGoType_isOk t
    cases h : FromGoType t with
    | error e =>
      simp_all [FromGoTypeParams, GoTy.allList, Except.isOk, Except.toBool, bind, Except.bind]
    | ok d =>
      have ih2 := FromGoTypeParams_isOk pre rest (i + 1) (mapSet s (pre ++ Itoa i) d)
      simp_all [FromGoTypeParams, GoTy.allList, Except.isOk, Except.toBool, bind, Except.bind]
theorem FromGoTypeFields_isOk : ∀ (l : List (String × GoTy)) (i : Nat)
    (s : List (String × XType)) (e : List (String × Any)),
    (FromGoTypeFields l i s e).isOk = GoTy.allFields (fun x => !x.isInterface) l
  | [], _, _, _ => by simp [FromGoTypeFields, GoTy.allFields, Except.isOk, Except.toBool, pure, Except.pure]
  | (name, t) :: rest, i, s, e => by
    have ih1 := FromGoType_isOk t
    cases h : FromGoType t with
    | error e =>
      simp_all [FromGoTypeFields, GoTy.allFields, Except.isOk, Except.toBool, bind, Except.bind]
    | ok d =>
      have ih2 := FromGoTypeFields_isOk rest (i + 1) (mapSet s name d)
        (mapSet e (Field ++ Itoa i) (.str name))
      simp_all [FromGoTypeFields, GoTy.allFields, Except.isOk, Except.toBool, bind, Except.bind]
end

/-- C4.  Describe fails exactly on unrepresentable input: `TypeOf(nil)` panics,
and `FromGoType` panics on a type if and only if the type is an interface type
or has one among its element, key, value, parameter, result or field types; on
every other type it returns a descriptor. -/
theorem C4_describe_fails_iff_interface :
    (∃ msg, TypeOf none = .error msg) ∧
    (∀ t : GoTy, (∃ msg, FromGoType t = .error msg) ↔ t.hasInterface = true) ∧
    (∀ t : GoTy, t.hasInterface = false → ∃ d, FromGoType t = .ok d) := by
  refine ⟨⟨_, rfl⟩, fun t => ?_, fun t h => ?_⟩
  · have h := FromGoType_isOk t
    unfold GoTy.hasInterface
    cases hr : FromGoType t <;> simp_all [Except.isOk, Except.toBool]
  · have h2 := FromGoType_isOk t
    unfold GoTy.hasInterface at h
    cases hr : FromGoType t <;> simp_all [Except.isOk, Except.toBool]

/-! ## Decimal numbers -/

theorem digitChar_inj : ∀ a b : Fin 10, Nat.digitChar a = Nat.digitChar b → a = b := by
  decide

theorem digitChar_isDigit : ∀ a : Fin 10, (Nat.digitChar a).isDigit = true := by decide

theorem toDigitsCore_eq (n : Nat) : ∀ (fuel : Nat) (ds : List Char), n < fuel → 0 < n →
    Nat.toDigitsCore 10 fuel n ds = ((Nat.digits 10 n).reverse.map Nat.digitChar) ++ ds := by
  induction n using Nat.strong_induction_on with
  | _ n ih =>
    intro fuel ds hf hn
    cases fuel with
    | zero => omega
    | succ f =>
      have hd : Nat.digits 10 n = (n % 10) :: Nat.digits 10 (n / 10) :=
        Nat.digits_def' (by decide) hn
      simp only [Nat.toDigitsCore]
      by_cases h0 : n / 10 = 0
      · simp [h0, hd]
      · rw [if_neg h0, ih (n / 10) (by omega) f _ (by omega) (by omega), hd]
        simp

theorem toDigits_pos (n : Nat) (hn : 0 < n) :
    Nat.toDigits 10 n = (Nat.digits 10 n).reverse.map Nat.digitChar := by
  unfold Nat.toDigits
  rw [toDigitsCore_eq n (n + 1) [] (by omega) hn]
  simp

theorem toDigits_all_digit (n : Nat) : ∀ c ∈ Nat.toDigits 10 n, c.isDigit = true := by
  rcases Nat.eq_zero_or_pos n with h | h
  · subst h; decide
  · rw [toDigits_pos n h]
    intro c hc
    simp only [List.mem_map, List.mem_reverse] at hc
    obtain ⟨d, hd, rfl⟩ := hc
    have := Nat.digits_lt_base (by decide : 1 < 10) hd
    exact digitChar_isDigit ⟨d, this⟩

theorem toDigits_ne_nil (n : Nat) : Nat.toDigits 10 n ≠ [] := by
  rcases Nat.eq_zero_or_pos n with h | h
  · subst h; decide
  · rw [toDigits_pos n h]
    simp [Nat.digits_ne_nil_iff_ne_zero]
    omega

theorem map_digitChar_inj : ∀ (l1 l2 : List Nat), (∀ d ∈ l1, d < 10) → (∀ d ∈ l2, d < 10) →
    l1.map Nat.digitChar = l2.map Nat.digitChar → l1 = l2
  | [], [], _, _, _ => rfl
  | [], _ :: _, _, _, h => by simp at h
  | _ :: _, [], _, _, h => by simp at h
  | a :: l1, b :: l2, h1, h2, h => by
    simp only [List.map_cons, List.cons.injEq] at h
    have ha := h1 a (List.mem_cons_self _ _)
    have hb := h2 b (List.mem_cons_self _ _)
    have := digitChar_inj ⟨a, ha⟩ ⟨b, hb⟩ h.1
    have hab : a = b := by simpa using congrArg Fin.val this
    rw [hab, map_digitChar_inj l1 l2 (fun d hd => h1 d (List.mem_cons_of_mem _ hd))
      (fun d hd => h2 d (List.mem_cons_of_mem _ hd)) h.2]

theorem toDigits_inj (n m : Nat) (h : Nat.toDigits 10 n = Nat.toDigits 10 m) : n = m := by
  have key : ∀ k, 0 < k → Nat.toDigits 10 k ≠ ['0'] := by
    intro k hk hc
    rw [toDigits_pos k hk] at hc
    have h1 : (Nat.digits 10 k).reverse.map Nat.digitChar = [0].map Nat.digitChar := by
      rw [hc]; rfl
    have h2 := map_digitChar_inj _ _ (fun d hd => Nat.digits_lt_base (by decide : 1 < 10)
      (List.mem_reverse.mp hd)) (by simp) h1
    have h3 : Nat.digits 10 k = [0] := by
      have := congrArg List.reverse h2
      simpa using this
    have h4 := Nat.getLast_digit_ne_zero 10 (Nat.pos_iff_ne_zero.mp hk)
    simp [h3] at h4
  rcases Nat.eq_zero_or_pos n with hn | hn <;> rcases Nat.eq_zero_or_pos m with hm | hm
  · rw [hn, hm]
  · subst hn; exact absurd h.symm (key m hm)
  · subst hm; exact absurd h (key n hn)
  · rw [toDigits_pos n hn, toDigits_pos m hm] at h
    have h2 := map_digitChar_inj _ _ (fun d hd => Nat.digits_lt_base (by decide : 1 < 10)
      (List.mem_reverse.mp hd)) (fun d hd => Nat.digits_lt_base (by decide : 1 < 10)
      (List.mem_reverse.mp hd)) h
    have h3 := List.reverse_injective h2
    exact Nat.digits.injective 10 h3

theorem Itoa_data (i : Nat) : (Itoa i).data = Nat.toDigits 10 i := rfl

theorem Itoa_inj (i j : Nat) (h : Itoa i = Itoa j) : i = j :=
  toDigits_inj i j (by rw [← Itoa_data, ← Itoa_data, h])

theorem key_index_inj (pre : String) (i j : Nat) (h : pre ++ Itoa i = pre ++ Itoa j) : i = j := by
  have h2 := congrArg String.data h
  simp only [String.data_append] at h2
  exact Itoa_inj i j (String.ext (List.append_cancel_left h2))

theorem field_key_ne_numField (i : Nat) : Field ++ Itoa i ≠ NumField := by
  intro h
  have h2 := congrArg String.data h
  simp [Field, NumField, String.data_append] at h2

/-! ## Describe, then reconstruct -/

theorem entriesGoType_eq (u : Unicode) (m : List (String × XType)) (key : String) :
    entriesGoType u m key =
      match entriesGet m key with
      | some d => d.GoType u
      | none => .error "invalid kind of type" := by
  induction m with
  | nil => rfl
  | cons p rest ih =>
    obtain ⟨a, w⟩ := p
    by_cases h : a = key <;> simp [entriesGoType, entriesGet, h, ih]

theorem collectFrom_eq {α : Type} (body : Nat → Except String α) :
    ∀ (xs : List α) (i : Nat), (∀ j x, xs.get? j = some x → body (i + j) = .ok x) →
      collectFrom body i xs.length = .ok xs
  | [], _, _ => rfl
  | x :: xs, i, h => by
    have h0 := h 0 x rfl
    have ih := collectFrom_eq body xs (i + 1) (fun j y hy => by
      have := h (j + 1) y (by simpa using hy)
      rw [← this]; congr 1; omega)
    simp only [List.length_cons, collectFrom, Nat.add_zero] at h0 ⊢
    simp only [h0, ih, bind, Except.bind, pure, Except.pure]

theorem distinctNames_nodup : ∀ (l : List String), distinctNames l = true →
    (∀ n ∈ l, n ≠ "_") → l.Nodup
  | [], _, _ => List.nodup_nil
  | n :: rest, h, hb => by
    simp only [distinctNames, Bool.and_eq_true, Bool.or_eq_true, beq_iff_eq,
      Bool.not_eq_true'] at h
    have hn := hb n (List.mem_cons_self _ _)
    rw [List.nodup_cons]
    refine ⟨?_, distinctNames_nodup rest h.2 (fun m hm => hb m (List.mem_cons_of_mem _ hm))⟩
    rcases h.1 with h1 | h1
    · exact absurd h1 hn
    · simpa using h1

theorem structOfCheck_ok (u : Unicode) : ∀ (l : List (String × GoTy)) (i : Nat)
    (seen : List String),
    (∀ p ∈ l, isValidFieldName u p.1 = true) → (∀ p ∈ l, startsUnexported p.1 = false) →
    (l.map Prod.fst).Nodup → (∀ p ∈ l, p.1 ∉ seen) → structOfCheck u i seen l = .ok ()
  | [], _, _, _, _, _, _ => rfl
  | (name, t) :: rest, i, seen, hv, he, hn, hs => by
    have h1 := hv (name, t) (List.mem_cons_self _ _)
    have h2 := he (name, t) (List.mem_cons_self _ _)
    have h3 := hs (name, t) (List.mem_cons_self _ _)
    have h0 : name ≠ "" := by
      intro h
      subst h
      simp [isValidFieldName] at h1
    simp only [List.map_cons, List.nodup_cons] at hn
    have ih := structOfCheck_ok u rest (i + 1) (name :: seen)
      (fun p hp => hv p (List.mem_cons_of_mem _ hp))
      (fun p hp => he p (List.mem_cons_of_mem _ hp)) hn.2
      (fun p hp => by
        have := hs p (List.mem_cons_of_mem _ hp)
        simp only [List.mem_cons, not_or]
        refine ⟨?_, this⟩
        intro h
        exact hn.1 (h ▸ List.mem_map_of_mem Prod.fst hp))
    have h4 : seen.contains name = false := by simpa using h3
    simp only [structOfCheck, h0, ↓reduceIte, h1, Bool.not_true, Bool.false_eq_true, h2,
      h4, Bool.false_and, ih]

theorem scalar_round_trip (u : Unicode) (s : Scalar) (h : s ≠ .UnsafePointer) :
    (XType.mk (kindString s.kind) none none).GoType u = .ok (.scalar s) := by
  cases s <;> first | rfl | exact absurd rfl h

theorem all_struct (p : GoTy → Bool) (fs : List (String × GoTy)) :
    GoTy.all p (.struct fs) = (p (.struct fs) && GoTy.allFields p fs) := by
  rw [GoTy.all]

mutual
theorem roundTrip (u : Unicode) : ∀ t : GoTy, t.supported = true → t.native u = true →
    t.exportedFields = true → ∃ d, FromGoType t = .ok d ∧ d.GoType u = .ok t
  | .scalar s, hs, _, _ => by
    refine ⟨_, rfl, scalar_round_trip u s ?_⟩
    rintro rfl
    simp [GoTy.supported, GoTy.all, supportedHead] at hs
  | .array n e, hs, hn, he => by
    simp only [GoTy.supported, GoTy.native, GoTy.exportedFields, GoTy.all,
      Bool.and_eq_true] at hs hn he
    obtain ⟨d, h1, h2⟩ := roundTrip u e hs.2 hn.2 he.2
    refine ⟨_, by rw [FromGoType, h1]; rfl, ?_⟩
    rw [XType.GoType]
    simp [kindString, show kindMap "array" = .Array from by decide, mapGet, mapSet, entriesGet,
      assertInt, structGoType, entriesGoType, h2, ArrayOf, bind, Except.bind, pure, Except.pure]
  | .chan dir e, hs, hn, he => by
    simp only [GoTy.supported, GoTy.native, GoTy.exportedFields, GoTy.all,
      Bool.and_eq_true] at hs hn he
    obtain ⟨d, h1, h2⟩ := roundTrip u e hs.2 hn.2 he.2
    refine ⟨_, by rw [FromGoType, h1]; rfl, ?_⟩
    rw [XType.GoType]
    cases dir <;>
    simp [kindString, show kindMap "chan" = .Chan from by decide, mapGet, mapSet, entriesGet,
      assertInt, structGoType, entriesGoType, h2, ChanOf, reflect.ChanDir.toInt, bind, Except.bind, pure,
      Except.pure]
  | .func _ _ _, hs, _, _ => by
    simp [GoTy.supported, GoTy.all, supportedHead] at hs
  | .iface _, hs, _, _ => by
    simp [GoTy.supported, GoTy.all, supportedHead] at hs
  | .map k e, hs, hn, he => by
    simp only [GoTy.supported, GoTy.native, GoTy.exportedFields, GoTy.all,
      Bool.and_eq_true] at hs hn he
    obtain ⟨dk, h1, h2⟩ := roundTrip u k hs.1.2 hn.1.2 he.1.2
    obtain ⟨de, h3, h4⟩ := roundTrip u e hs.2 hn.2 he.2
    refine ⟨_, by rw [FromGoType, h1, h3]; rfl, ?_⟩
    have hc : k.comparable = true := by simpa [nativeHead] using hn.1.1
    rw [XType.GoType]
    simp [kindString, show kindMap "map" = .Map from by decide, mapSet, KeyType, ValueType,
      structGoType, entriesGoType, h2, h4, MapOf, hc, bind, Except.bind, pure, Except.pure]
  | .ptr e, hs, hn, he => by
    simp only [GoTy.supported, GoTy.native, GoTy.exportedFields, GoTy.all,
      Bool.and_eq_true] at hs hn he
    obtain ⟨d, h1, h2⟩ := roundTrip u e hs.2 hn.2 he.2
    refine ⟨_, by rw [FromGoType, h1]; rfl, ?_⟩
    rw [XType.GoType]
    simp [kindString, show kindMap "ptr" = .Pointer from by decide, mapSet,
      structGoType, entriesGoType, h2, bind, Except.bind, pure, Except.pure]
  | .slice e, hs, hn, he => by
    simp only [GoTy.supported, GoTy.native, GoTy.exportedFields, GoTy.all,
      Bool.and_eq_true] at hs hn he
    obtain ⟨d, h1, h2⟩ := roundTrip u e hs.2 hn.2 he.2
    refine ⟨_, by rw [FromGoType, h1]; rfl, ?_⟩
    rw [XType.GoType]
    simp [kindString, show kindMap "slice" = .Slice from by decide, mapSet,
      structGoType, entriesGoType, h2, bind, Except.bind, pure, Except.pure]
  | .struct fs, hs, hn, he => by
    simp only [GoTy.supported, GoTy.native, GoTy.exportedFields, all_struct,
      Bool.and_eq_true] at hs hn he
    obtain ⟨s', e', h1, ha, hb, _, hd⟩ := roundTrip_fields u fs 0 []
      (mapSet [] NumField (.int fs.length)) hs.2 hn.2 he.2
    have hvalid : ∀ p ∈ fs, isValidFieldName u p.1 = true := by
      have := hn.1
      simp only [nativeHead, Bool.and_eq_true, List.all_eq_true] at this
      exact this.1
    have hexp : ∀ p ∈ fs, startsUnexported p.1 = false := by
      have := he.1
      simp only [exportedHead, List.all_eq_true, Bool.not_eq_true'] at this
      exact this
    have hnodup : (fs.map Prod.fst).Nodup := by
      have := hn.1
      simp only [nativeHead, Bool.and_eq_true] at this
      refine distinctNames_nodup _ this.2 ?_
      intro n hn2 hc
      subst hc
      obtain ⟨p, hp, hp2⟩ := List.mem_map.mp hn2
      have := hexp p hp
      rw [hp2] at this
      exact absurd this (by decide)
    refine ⟨.mk (kindString .Struct) (some s') (some e'), by rw [FromGoType, h1]; rfl, ?_⟩
    have hnum : entriesGet e' NumField = some (.int fs.length) := by
      rw [ha NumField (fun j _ => (field_key_ne_numField (0 + j)).symm)]
      simp [mapSet, entriesGet]
    have hcollect := collectFrom_eq (fun i => do
        let fieldName ← assertString (mapGet (some e') (Field ++ Itoa i))
        let fieldType ← structGoType u (some s') fieldName
        pure (fieldName, fieldType)) fs 0 (by
      intro j x hx
      obtain ⟨d, hd1, hd2⟩ := hd hnodup x (List.get?_mem hx)
      simp only [mapGet, hb j x hx, assertString, structGoType, entriesGoType_eq, hd1, hd2, bind,
        Except.bind, pure, Except.pure])
    simp only [mapGet, bind, Except.bind, pure, Except.pure] at hcollect
    rw [XType.GoType]
    simp only [kindString, show kindMap "struct" = .Struct from by decide, mapGet, hnum,
      assertInt, Int.toNat_ofNat, hcollect, StructOf,
      structOfCheck_ok u fs 0 [] hvalid hexp hnodup (by simp), bind, Except.bind, pure,
      Except.pure]
theorem roundTrip_fields (u : Unicode) : ∀ (l : List (String × GoTy)) (i : Nat)
    (s : List (String × XType)) (e : List (String × Any)),
    GoTy.allFields supportedHead l = true → GoTy.allFields (nativeHead u) l = true →
    GoTy.allFields exportedHead l = true →
    ∃ s' e', FromGoTypeFields l i s e = .ok (s', e') ∧
      (∀ key, (∀ j, j < l.length → key ≠ Field ++ Itoa (i + j)) →
        entriesGet e' key = entriesGet e key) ∧
      (∀ j p, l.get? j = some p → entriesGet e' (Field ++ Itoa (i + j)) = some (.str p.1)) ∧
      (∀ key, key ∉ l.map Prod.fst → entriesGet s' key = entriesGet s key) ∧
      ((l.map Prod.fst).Nodup → ∀ p ∈ l, ∃ d, entriesGet s' p.1 = some d ∧ d.GoType u = .ok p.2)
  | [], _, s, e, _, _, _ => ⟨s, e, rfl, fun _ _ => rfl, fun j p h => by simp at h,
      fun _ _ => rfl, fun _ p hp => by simp at hp⟩
  | (name, t) :: rest, i, s, e, hs, hn, he => by
    simp only [GoTy.allFields, Bool.and_eq_true] at hs hn he
    obtain ⟨d, h1, h2⟩ := roundTrip u t hs.1 hn.1 he.1
    obtain ⟨s', e', h3, ha, hb, hc, hd⟩ := roundTrip_fields u rest (i + 1) (mapSet s name d)
      (mapSet e (Field ++ Itoa i) (.str name)) hs.2 hn.2 he.2
    refine ⟨s', e', by rw [FromGoTypeFields, h1]; exact h3, ?_, ?_, ?_, ?_⟩
    · intro key hkey
      rw [ha key (fun j hj => by
        have := hkey (j + 1) (by simp; omega)
        rwa [show i + (j + 1) = i + 1 + j from by omega] at this), entriesGet_mapSet]
      have := hkey 0 (by simp)
      rw [if_neg (fun h => this (by simpa using h.symm))]
    · intro j p hp
      cases j with
      | zero =>
        simp only [List.get?_cons_zero, Option.some.injEq] at hp
        subst hp
        rw [Nat.add_zero, ha _ (fun j _ hc => by
          have := key_index_inj Field _ _ hc
          omega), entriesGet_mapSet, if_pos rfl]
      | succ j =>
        have := hb j p (by simpa using hp)
        rwa [show i + 1 + j = i + (j + 1) from by omega] at this
    · intro key hkey
      simp only [List.map_cons, List.mem_cons, not_or] at hkey
      rw [hc key hkey.2, entriesGet_mapSet, if_neg (fun h => hkey.1 h.symm)]
    · intro hnd p hp
      simp only [List.map_cons, List.nodup_cons] at hnd
      rcases List.mem_cons.mp hp with rfl | hp
      · exact ⟨d, by rw [hc _ hnd.1, entriesGet_mapSet, if_pos rfl], h2⟩
      · exact hd hnd.2 p hp
end

/-- C1 as stated fails: `struct { name string }` is a type of the claim's class,
`FromGoType` describes it, and `GoType` panics on the descriptor, because
`reflect.StructOf` refuses a field with a lower-case name and no package path. -/
theorem C1_counterexample :
    lowerNameType.supported = true ∧ lowerNameType.native asciiTable = true ∧
      FromGoType lowerNameType =
        .ok (.mk "struct" (some [("name", .mk "string" none none)])
          (some [("fields_number", .int 1), ("field_0", .str "name")])) ∧
      (XType.mk "struct" (some [("name", .mk "string" none none)])
          (some [("fields_number", .int 1), ("field_0", .str "name")])).GoType asciiTable =
        .error "reflect.StructOf: field \"name\" is unexported but missing PkgPath" :=
  ⟨by decide, by decide, rfl, rfl⟩

/-- C1, amended.  Round trip: for every type of the Go language built only from
bool, the integer, float and complex kinds, string, arrays, slices, maps,
pointers, channels and structs, in which no struct field name begins with a
lower-case ASCII letter or an underscore, `FromGoType(T).GoType()` succeeds
and returns a type with the structure of `T`: same kind, array length, channel
direction, field names in declared order, and element, key, value and field
types. -/
theorem C1_round_trip (u : Unicode) (t : GoTy) (hs : t.supported = true)
    (hn : t.native u = true) (he : t.exportedFields = true) :
    ∃ d, FromGoType t = .ok d ∧ d.GoType u = .ok t :=
  roundTrip u t hs hn he

/-- C1 at `struct { Name string; Age int64 }`, the input of `TestStruct`. -/
theorem C1_round_trip_witness :
    nameAgeType.supported = true ∧ nameAgeType.native asciiTable = true ∧
      nameAgeType.exportedFields = true ∧
      ∃ d, FromGoType nameAgeType = .ok d ∧ d.GoType asciiTable = .ok nameAgeType :=
  ⟨by decide, by decide, by decide,
    C1_round_trip asciiTable nameAgeType (by decide) (by decide) (by decide)⟩

/-! ## Dispatch -/

mutual
theorem beq_refl : ∀ t : GoTy, GoTy.beq t t = true
  | .scalar s => by simp [GoTy.beq]
  | .array n e => by simp [GoTy.beq, beq_refl e]
  | .chan d e => by simp [GoTy.beq, beq_refl e]
  | .func i o v => by simp [GoTy.beq, beqList_refl i, beqList_refl o]
  | .iface ms => by simp [GoTy.beq]
  | .map k e => by simp [GoTy.beq, beq_refl k, beq_refl e]
  | .ptr e => by simp [GoTy.beq, beq_refl e]
  | .slice e => by simp [GoTy.beq, beq_refl e]
  | .struct fs => by simp [GoTy.beq, beqFields_refl fs]
theorem beqList_refl : ∀ l : List GoTy, GoTy.beqList l l = true
  | [] => by simp [GoTy.beqList]
  | t :: ts => by simp [GoTy.beqList, beq_refl t, beqList_refl ts]
theorem beqFields_refl : ∀ l : List (String × GoTy), GoTy.beqFields l l = true
  | [] => by simp [GoTy.beqFields]
  | (n, t) :: ts => by simp [GoTy.beqFields, beq_refl t, beqFields_refl ts]
end

theorem assignable_self (t : GoTy) : AssignableTo t t = true := by
  simp [AssignableTo, beq_refl]

theorem typeIn_append (pre : List GoTy) (t : GoTy) (ts outs : List GoTy) (v : Bool) :
    typeIn (some (.func (pre ++ t :: ts) outs v)) pre.length = .ok t := by
  have h : (pre ++ t :: ts).get? pre.length = some t := by
    rw [List.get?_eq_getElem?, List.getElem?_append_right (le_refl _)]
    simp
  simp only [typeIn, h, pure, Except.pure]

theorem decodeArgs_all {V P : Type} (env : Env V P) (outs : List GoTy) (v : Bool) :
    ∀ (ins pre : List GoTy) (ps : List P), ps.length = ins.length →
      decodeArgs env (some (.func (pre ++ ins) outs v)) pre.length ins.length ps =
        .ok (ins.zip (List.zipWith env.decVal ins ps))
  | [], _, _, _ => rfl
  | t :: ts, pre, [], h => by simp at h
  | t :: ts, pre, p :: ps, h => by
    have ih := decodeArgs_all env outs v ts (pre ++ [t]) ps (by simpa using h)
    simp only [List.append_assoc, List.singleton_append, List.length_append, List.length_singleton] at ih
    simp only [List.length_cons, decodeArgs, typeIn_append, readVal, bind, Except.bind, ih, pure,
      Except.pure, List.zipWith_cons_cons, List.zip_cons_cons]

theorem all_zip_assignable {V : Type} (ins : List GoTy) (vals : List V) :
    (((ins.zip vals).take ins.length).zip ins).all (fun a => AssignableTo a.1.1 a.2) = true := by
  induction ins generalizing vals with
  | nil => simp
  | cons t ts ih =>
    cases vals with
    | nil => simp
    | cons w ws => simp [assignable_self, ih ws]

theorem Call_plain {V P : Type} (env : Env V P) (c : Callable V) (vals : List V)
    (hvar : c.variadic = false) (hlen : vals.length = c.ins.length) :
    Call env (some c) (c.ins.zip vals) = c.body vals := by
  have h1 : (c.ins.zip vals).length = c.ins.length := by simp [hlen]
  have h2 : (c.ins.zip vals).map Prod.snd = vals := by
    exact List.map_snd_zip _ _ (le_of_eq hlen)
  simp only [Call, hvar, Bool.false_eq_true, ↓reduceIte, h1, lt_self_iff_false, Bool.not_false,
    Bool.true_and, decide_False, all_zip_assignable, Bool.not_true, h2]

/-- What `doRpc` computes when the key is registered. -/
theorem doRpcRun_registered {V P : Type} (env : Env V P) (reg : String → Option (Callable V))
    (c : Callable V) (pd pn : P) (ps : List P)
    (hreg : reg (env.decType pd).String = some c) (hvar : c.variadic = false)
    (hn : env.decInt pn = c.ins.length) (hlen : ps.length = c.ins.length) :
    doRpcRun env reg (pd :: pn :: ps) =
      (c.body (List.zipWith env.decVal c.ins ps)).bind (fun r =>
        match r with
        | [] => .error "runtime error: index out of range [0] with length 0"
        | r0 :: _ =>
          match env.encVal r0 with
          | some p => .ok [p]
          | none => .ok []) := by
  have hdec := decodeArgs_all env c.outs c.variadic c.ins [] ps hlen
  simp only [List.nil_append, List.length_nil] at hdec
  have hz : (List.zipWith env.decVal c.ins ps).length = c.ins.length := by
    simp [hlen]
  simp only [doRpcRun, readType, readInt, hreg, Option.map_some', Callable.goType, hn,
    Int.toNat_ofNat, hdec, bind, Except.bind, Call_plain env c _ hvar hz]
  rfl

theorem zipWith_decode {V P : Type} (env : Env V P) (ins : List GoTy) (args : List V)
    (h : List.Forall₂ (fun t a => ∃ p, env.encVal a = some p ∧ env.decVal t p = a) ins args) :
    (args.filterMap env.encVal).length = ins.length ∧
      List.zipWith env.decVal ins (args.filterMap env.encVal) = args := by
  induction h with
  | nil => exact ⟨rfl, rfl⟩
  | cons hp _ ih =>
    obtain ⟨p, h1, h2⟩ := hp
    simp only [List.filterMap_cons, h1, List.length_cons, ih.1, List.zipWith_cons_cons, h2, ih.2,
      and_self]

/-- C3 as stated fails on a variadic callable: `countFun` is registered under the
key of its own type, its one argument is a value of its one parameter type
`[]int`, the function itself returns 2 on it, and `rpc` panics, because
`reflect.Value.Call` takes the slice for one variadic element of type `int`. -/
theorem C3_counterexample :
    TypeOf (some countFun.goType) = .ok countDesc ∧
      countRegistry countDesc.String = some countFun ∧
      countFun.body [.list [.int 1, .int 2]] = .ok [.int 2] ∧
      ∃ msg, rpc valEnv countRegistry (.scalar .Int) countFun [.list [.int 1, .int 2]] =
        .error msg := by
  refine ⟨rfl, by simp [countRegistry, register], rfl,
    "reflect: cannot use argument as element type in Call", ?_⟩
  set_option maxRecDepth 100000 in
  rfl

/-- C3, amended.  Registry correctness for a callable that is not variadic: when
`f` is registered under `TypeOf(f).String()`, the arguments are values of its
parameter types that the wire format carries unchanged (as are the descriptor
key, the parameter count and the first result), and `f` returns on them, then
`rpc` returns the first result of `f`; the envelope is the descriptor, the
parameter count and the arguments in order, later results are dropped, and
the registry is left as it was. -/
theorem C3_registry_correctness {V P : Type} (env : Env V P)
    (reg : String → Option (Callable V)) (c : Callable V) (d : XType) (args : List V)
    (R : GoTy) (r0 : V) (rs : List V)
    (hd : TypeOf (some c.goType) = .ok d) (hreg : reg d.String = some c)
    (hvar : c.variadic = false)
    (htype : (env.decType (env.encType d)).String = d.String)
    (hint : env.decInt (env.encAny (.int c.ins.length)) = c.ins.length)
    (hargs : List.Forall₂ (fun t a => ∃ p, env.encVal a = some p ∧ env.decVal t p = a)
      c.ins args)
    (hbody : c.body args = .ok (r0 :: rs))
    (hres : ∃ p, env.encVal r0 = some p ∧ env.decVal R p = r0) :
    rpc env reg R c args = .ok r0 ∧
      rpcEnvelope env d args =
        env.encType d :: env.encAny (.int c.ins.length) :: args.filterMap env.encVal ∧
      (doRpc env reg (rpcEnvelope env d args)).2 = reg := by
  obtain ⟨p, hp1, hp2⟩ := hres
  obtain ⟨hl, hz⟩ := zipWith_decode env c.ins args hargs
  have hextra := (FromGoType_func_extra c.ins c.outs c.variadic d hd).2
  have henv : rpcEnvelope env d args =
      env.encType d :: env.encAny (.int c.ins.length) :: args.filterMap env.encVal := by
    simp only [rpcEnvelope, hextra, mapGet, entriesGet, ↓reduceIte, List.singleton_append,
      List.cons_append, List.nil_append]
  have hrun := doRpcRun_registered env reg c (env.encType d) (env.encAny (.int c.ins.length))
    (args.filterMap env.encVal) (by rw [htype]; exact hreg) hvar hint hl
  rw [hz, hbody] at hrun
  refine ⟨?_, henv, rfl⟩
  simp only [rpc, hd, doRpc, henv, hrun, bind, Except.bind, hp1, hp2, pure, Except.pure]

/-- C3 at the addition of `TestRPC` with the arguments 1 and 2: the result is 3. -/
theorem C3_registry_correctness_witness :
    rpc valEnv addRegistry (.scalar .Int) addFun [.int 1, .int 2] = .ok (.int 3) ∧
      rpcEnvelope valEnv addDesc [.int 1, .int 2] =
        [.desc addDesc, .any (.int 2), .val (.int 1), .val (.int 2)] ∧
      (doRpc valEnv addRegistry (rpcEnvelope valEnv addDesc [.int 1, .int 2])).2 =
        addRegistry :=
  C3_registry_correctness valEnv addRegistry addFun addDesc [.int 1, .int 2] (.scalar .Int)
    (.int 3) [] rfl (by simp [addRegistry, register]) rfl rfl rfl
    (.cons ⟨_, rfl, rfl⟩ (.cons ⟨_, rfl, rfl⟩ .nil)) rfl ⟨_, rfl, rfl⟩

/-- C6.  Dispatch-miss reporting: when nothing is registered under the key of the
descriptor decoded from the envelope, `doRpc` panics, whatever parameter count
the envelope carries, and `funcRegister` is left as it was. -/
theorem C6_dispatch_miss {V P : Type} (env : Env V P) (reg : String → Option (Callable V))
    (b : List P) (hmiss : reg (readType env b).1.String = none) :
    (∃ msg, (doRpc env reg b).1 = .error msg) ∧ (doRpc env reg b).2 = reg := by
  refine ⟨?_, rfl⟩
  simp only [doRpc, doRpcRun, hmiss, Option.map_none']
  cases hn : (readInt env (readType env b).2).1.toNat with
  | zero => exact ⟨_, by simp only [decodeArgs, Call, bind, Except.bind, pure, Except.pure]; rfl⟩
  | succ n => exact ⟨_, by simp only [decodeArgs, typeIn, bind, Except.bind]; rfl⟩

/-- C6 at the envelope of the addition and a registry that holds nothing. -/
theorem C6_dispatch_miss_witness :
    (∃ msg, (doRpc valEnv (fun _ => none)
        [.desc addDesc, .any (.int 2), .val (.int 1), .val (.int 2)]).1 = .error msg) ∧
      (doRpc valEnv (fun _ => none)
        [.desc addDesc, .any (.int 2), .val (.int 1), .val (.int 2)]).2 = (fun _ => none) :=
  C6_dispatch_miss valEnv (fun _ => none) _ rfl

/-- C5 as stated fails: the addition is registered, the second argument payload
is a text where an `int` is declared, so it cannot be decoded and its target
keeps the zero value; `doRpc` reports nothing, calls the addition on 1 and 0 and
returns the result payload 1. -/
theorem C5_counterexample :
    addRegistry addDesc.String = some addFun ∧
      valEnv.decVal (.scalar .Int) (.val (.str "abc")) = valEnv.zero (.scalar .Int) ∧
      (doRpc valEnv addRegistry
        [.desc addDesc, .any (.int 2), .val (.int 1), .val (.str "abc")]).1 =
        .ok [.val (.int 1)] := by
  refine ⟨by simp [addRegistry, register], rfl, ?_⟩
  set_option maxRecDepth 100000 in
  rfl

/-- C5, amended.  A decode error is discarded: for an envelope whose key has a
registered callable that is not variadic, with the declared parameter count
and one payload for each parameter, when the payload at position `i` cannot be
decoded and leaves its target at the zero value, `doRpc` still invokes the
callable, with the zero value of the declared parameter type at position `i`,
and returns the payload of its first result. -/
theorem C5_decode_error_discarded {V P : Type} (env : Env V P)
    (reg : String → Option (Callable V)) (c : Callable V) (pd pn : P) (ps : List P) (i : Nat)
    (t : GoTy) (q p : P) (r0 : V) (rs : List V)
    (hreg : reg (env.decType pd).String = some c) (hvar : c.variadic = false)
    (hn : env.decInt pn = c.ins.length) (hlen : ps.length = c.ins.length)
    (ht : c.ins.get? i = some t) (hq : ps.get? i = some q)
    (hfail : env.decVal t q = env.zero t)
    (hbody : c.body (List.zipWith env.decVal c.ins ps) = .ok (r0 :: rs))
    (henc : env.encVal r0 = some p) :
    (doRpc env reg (pd :: pn :: ps)).1 = .ok [p] ∧
      (List.zipWith env.decVal c.ins ps).get? i = some (env.zero t) := by
  constructor
  · simp only [doRpc, doRpcRun_registered env reg c pd pn ps hreg hvar hn hlen, hbody,
      Except.bind, henc]
  · rw [List.get?_eq_getElem?, List.getElem?_zipWith]
    rw [List.get?_eq_getElem?] at ht hq
    simp [ht, hq, hfail]

/-- C5 at the addition with a text payload in the second position. -/
theorem C5_decode_error_discarded_witness :
    (doRpc valEnv addRegistry
        [.desc addDesc, .any (.int 2), .val (.int 1), .val (.str "abc")]).1 =
        .ok [.val (.int 1)] ∧
      (List.zipWith valEnv.decVal addFun.ins [.val (.int 1), .val (.str "abc")]).get? 1 =
        some (valEnv.zero (.scalar .Int)) :=
  C5_decode_error_discarded valEnv addRegistry addFun (.desc addDesc) (.any (.int 2))
    [.val (.int 1), .val (.str "abc")] 1 (.scalar .Int) (.val (.str "abc")) (.val (.int 1))
    (.int 1) [] (by simp [addRegistry, register, valEnv]) rfl rfl rfl rfl rfl rfl rfl rfl

/-! ## The order of map keys -/

theorem char_eq_of_toNat (a b : Char) (h : a.toNat = b.toNat) : a = b := by
  apply Char.ext
  apply UInt32.ext
  exact h

theorem ltChars_irrefl : ∀ a : List Char, ltChars a a = false
  | [] => rfl
  | c :: cs => by simp [ltChars, ltChars_irrefl cs]

theorem ltChars_asymm : ∀ a b : List Char, ltChars a b = true → ltChars b a = false
  | _, [], h => by simp [ltChars] at h
  | [], _ :: _, _ => by simp [ltChars]
  | a :: as, b :: bs, h => by
    simp only [ltChars] at h ⊢
    split_ifs at h ⊢
    all_goals first | omega | rfl | exact ltChars_asymm as bs h

theorem ltChars_trans : ∀ a b c : List Char, ltChars a b = true → ltChars b c = true →
    ltChars a c = true
  | _, [], _, h, _ => by simp [ltChars] at h
  | _, _ :: _, [], _, h => by simp [ltChars] at h
  | [], _ :: _, _ :: _, _, _ => by simp [ltChars]
  | a :: as, b :: bs, c :: cs, h1, h2 => by
    simp only [ltChars] at h1 h2 ⊢
    split_ifs at h1 h2 ⊢
    all_goals first | omega | rfl | exact ltChars_trans as bs cs h1 h2

theorem ltChars_connex : ∀ a b : List Char, ltChars a b = false → ltChars b a = false → a = b
  | [], [], _, _ => rfl
  | [], _ :: _, h, _ => by simp [ltChars] at h
  | _ :: _, [], _, h => by simp [ltChars] at h
  | a :: as, b :: bs, h1, h2 => by
    simp only [ltChars] at h1 h2
    split_ifs at h1 h2 with h3 h4
    have hab : a = b := char_eq_of_toNat a b (by omega)
    rw [hab, ltChars_connex as bs h1 h2]

instance keyLe_total {α : Type} : IsTotal (String × α) (fun a b => keyLe a.1 b.1 = true) :=
  ⟨fun a b => by
    simp only [keyLe, Bool.not_eq_true']
    by_cases h : ltChars b.1.data a.1.data = true
    · exact Or.inr (ltChars_asymm _ _ h)
    · exact Or.inl (by simpa using h)⟩

instance keyLe_trans {α : Type} : IsTrans (String × α) (fun a b => keyLe a.1 b.1 = true) :=
  ⟨fun a b c hab hbc => by
    simp only [keyLe, Bool.not_eq_true'] at hab hbc ⊢
    by_contra hca
    have hca : ltChars c.1.data a.1.data = true := by simpa using hca
    by_cases h : ltChars a.1.data b.1.data = true
    · have := ltChars_trans _ _ _ hca h
      rw [hbc] at this
      cases this
    · have hab2 : a.1.data = b.1.data := ltChars_connex _ _ (by simpa using h) hab
      rw [hab2, hbc] at hca
      cases hca⟩

theorem sortEntries_perm {α : Type} (l : List (String × α)) : (sortEntries l).Perm l :=
  List.perm_insertionSort _ l

theorem sortEntries_sorted {α : Type} (l : List (String × α)) :
    (sortEntries l).Sorted (fun a b => keyLe a.1 b.1 = true) :=
  List.sorted_insertionSort _ l

theorem sorted_strict {α : Type} (l : List (String × α))
    (hs : l.Sorted (fun a b => keyLe a.1 b.1 = true)) (hn : (l.map Prod.fst).Nodup) :
    l.Pairwise (fun a b => ltChars a.1.data b.1.data = true) := by
  have hn2 : l.Pairwise (fun a b => a.1 ≠ b.1) := by
    rw [List.Nodup, List.pairwise_map] at hn
    exact hn
  refine (List.Pairwise.and hs hn2).imp ?_
  intro a b ⟨h1, h2⟩
  simp only [keyLe, Bool.not_eq_true'] at h1
  by_contra h3
  have := ltChars_connex _ _ (by simpa using h3) h1
  exact h2 (String.ext this)

theorem sortEntries_congr {α : Type} (l1 l2 : List (String × α)) (hp : l1.Perm l2)
    (hn : (l1.map Prod.fst).Nodup) : sortEntries l1 = sortEntries l2 := by
  have hn2 : (l2.map Prod.fst).Nodup := (hp.map _).nodup_iff.mp hn
  have p1 := sortEntries_perm l1
  have p2 := sortEntries_perm l2
  have s1 := sorted_strict _ (sortEntries_sorted l1) ((p1.map _).nodup_iff.mpr hn)
  have s2 := sorted_strict _ (sortEntries_sorted l2) ((p2.map _).nodup_iff.mpr hn2)
  haveI : IsAntisymm (String × α) (fun a b => ltChars a.1.data b.1.data = true) :=
    ⟨fun a b h1 h2 => by rw [ltChars_asymm _ _ h1] at h2; cases h2⟩
  exact List.eq_of_perm_of_sorted (p1.trans (hp.trans p2.symm)) s1 s2

/-! ## Strings and numbers have one reading -/

theorem hexDigit_inj : ∀ a b : Fin 16, hexDigit a = hexDigit b → a = b := by decide

theorem hexDigit_inj_nat (a b : Nat) (ha : a < 16) (hb : b < 16) (h : hexDigit a = hexDigit b) :
    a = b := by
  have := hexDigit_inj ⟨a, ha⟩ ⟨b, hb⟩ h
  simpa using congrArg Fin.val this

theorem escapeChar_shape (c : Char) : EscShape c (escapeChar c) := by
  unfold escapeChar
  split_ifs with h1 h2 h3 h4 h5 h6 h7
  · exact .short c '"' (Or.inl ⟨h1, rfl⟩)
  · exact .short c '\\' (Or.inr (Or.inl ⟨h2, rfl⟩))
  · exact .short c 'n' (Or.inr (Or.inr (Or.inl ⟨h3, rfl⟩)))
  · exact .short c 'r' (Or.inr (Or.inr (Or.inr (Or.inl ⟨h4, rfl⟩))))
  · exact .short c 't' (Or.inr (Or.inr (Or.inr (Or.inr ⟨h5, rfl⟩))))
  · refine .low c ?_
    rcases h6 with h | h | h | h
    · omega
    · subst h; decide
    · subst h; decide
    · subst h; decide
  · exact .sep c h7
  · exact .plain c h1 h2

theorem escapeChar_prefix (c1 c2 : Char) (x y : List Char)
    (h : escapeChar c1 ++ x = escapeChar c2 ++ y) : c1 = c2 ∧ x = y := by
  have s1 := escapeChar_shape c1
  have s2 := escapeChar_shape c2
  generalize escapeChar c1 = e1 at h s1
  generalize escapeChar c2 = e2 at h s2
  cases s1 <;> cases s2 <;> simp only [List.cons_append, List.nil_append, List.cons.injEq] at h
  case plain.plain => exact ⟨h.1, h.2⟩
  case plain.short => exact absurd h.1 (by assumption)
  case plain.low => exact absurd h.1 (by assumption)
  case plain.sep => exact absurd h.1 (by assumption)
  case short.plain => exact absurd h.1.symm (by assumption)
  case short.short x1 hx1 x2 hx2 =>
    obtain ⟨-, hx, hr⟩ := h
    subst hx
    refine ⟨?_, hr⟩
    rcases hx1 with ⟨a, b⟩ | ⟨a, b⟩ | ⟨a, b⟩ | ⟨a, b⟩ | ⟨a, b⟩ <;>
      rcases hx2 with ⟨a2, b2⟩ | ⟨a2, b2⟩ | ⟨a2, b2⟩ | ⟨a2, b2⟩ | ⟨a2, b2⟩ <;>
      first
        | (rw [b] at b2; exact absurd b2 (by decide))
        | (rw [a, a2])
  case short.low x1 hx1 _ =>
    obtain ⟨-, hx, -⟩ := h
    subst hx
    rcases hx1 with ⟨_, b⟩ | ⟨_, b⟩ | ⟨_, b⟩ | ⟨_, b⟩ | ⟨_, b⟩ <;> exact absurd b (by decide)
  case short.sep x1 hx1 _ =>
    obtain ⟨-, hx, -⟩ := h
    subst hx
    rcases hx1 with ⟨_, b⟩ | ⟨_, b⟩ | ⟨_, b⟩ | ⟨_, b⟩ | ⟨_, b⟩ <;> exact absurd b (by decide)
  case low.plain => exact absurd h.1.symm (by assumption)
  case low.short _ x2 hx2 =>
    obtain ⟨-, hx, -⟩ := h
    subst hx
    rcases hx2 with ⟨_, b⟩ | ⟨_, b⟩ | ⟨_, b⟩ | ⟨_, b⟩ | ⟨_, b⟩ <;> exact absurd b (by decide)
  case low.low h1 h2 =>
    obtain ⟨-, -, -, -, ha, hb, hr⟩ := h
    have e1 := hexDigit_inj_nat _ _ (by omega) (by omega) ha
    have e2 := hexDigit_inj_nat _ _ (by omega) (by omega) hb
    exact ⟨char_eq_of_toNat _ _ (by omega), hr⟩
  case low.sep => exact absurd h.2.2.1 (by decide)
  case sep.plain => exact absurd h.1.symm (by assumption)
  case sep.short _ x2 hx2 =>
    obtain ⟨-, hx, -⟩ := h
    subst hx
    rcases hx2 with ⟨_, b⟩ | ⟨_, b⟩ | ⟨_, b⟩ | ⟨_, b⟩ | ⟨_, b⟩ <;> exact absurd b (by decide)
  case sep.low => exact absurd h.2.2.1 (by decide)
  case sep.sep h1 h2 =>
    obtain ⟨-, -, -, -, -, hb, hr⟩ := h
    have e2 := hexDigit_inj_nat _ _ (by omega) (by omega) hb
    exact ⟨char_eq_of_toNat _ _ (by omega), hr⟩

theorem escapeChar_head (c : Char) (x y : List Char) : escapeChar c ++ x ≠ '"' :: y := by
  intro h
  have s := escapeChar_shape c
  generalize escapeChar c = e at h s
  cases s <;> simp only [List.cons_append, List.nil_append, List.cons.injEq] at h
  case plain => exact absurd h.1 (by assumption)
  all_goals exact absurd h.1 (by decide)

theorem escapeChars_inj : ∀ (l1 l2 r1 r2 : List Char),
    escapeChars l1 ++ '"' :: r1 = escapeChars l2 ++ '"' :: r2 → l1 = l2 ∧ r1 = r2
  | [], [], r1, r2, h => by
    simp only [escapeChars, List.nil_append, List.cons.injEq, true_and] at h
    exact ⟨rfl, h⟩
  | [], c :: l2, r1, r2, h => by
    simp only [escapeChars, List.nil_append, List.append_assoc] at h
    exact absurd h.symm (escapeChar_head c _ _)
  | c :: l1, [], r1, r2, h => by
    simp only [escapeChars, List.nil_append, List.append_assoc] at h
    exact absurd h (escapeChar_head c _ _)
  | c1 :: l1, c2 :: l2, r1, r2, h => by
    simp only [escapeChars, List.append_assoc] at h
    obtain ⟨hc, hr⟩ := escapeChar_prefix c1 c2 _ _ h
    obtain ⟨hl, hr2⟩ := escapeChars_inj l1 l2 r1 r2 hr
    exact ⟨by rw [hc, hl], hr2⟩

theorem quote_inj (s1 s2 : String) (r1 r2 : List Char) (h : quote s1 ++ r1 = quote s2 ++ r2) :
    s1 = s2 ∧ r1 = r2 := by
  simp only [quote, List.cons_append, List.append_assoc, List.singleton_append,
    List.cons.injEq, true_and] at h
  obtain ⟨h1, h2⟩ := escapeChars_inj _ _ _ _ h
  exact ⟨String.ext h1, h2⟩

theorem digits_prefix : ∀ (l1 l2 r1 r2 : List Char), (∀ c ∈ l1, c.isDigit = true) →
    (∀ c ∈ l2, c.isDigit = true) → NoDigitHead r1 → NoDigitHead r2 →
    l1 ++ r1 = l2 ++ r2 → l1 = l2 ∧ r1 = r2
  | [], [], _, _, _, _, _, _, h => ⟨rfl, h⟩
  | [], c :: l2, r1, r2, _, h2, t1, _, h => by
    simp only [List.nil_append, List.cons_append] at h
    subst h
    have := t1 c (by simp)
    rw [h2 c (List.mem_cons_self _ _)] at this
    cases this
  | c :: l1, [], r1, r2, h1, _, _, t2, h => by
    simp only [List.nil_append, List.cons_append] at h
    subst h
    have := t2 c (by simp)
    rw [h1 c (List.mem_cons_self _ _)] at this
    cases this
  | c1 :: l1, c2 :: l2, r1, r2, h1, h2, t1, t2, h => by
    simp only [List.cons_append, List.cons.injEq] at h
    obtain ⟨e1, e2⟩ := digits_prefix l1 l2 r1 r2 (fun c hc => h1 c (List.mem_cons_of_mem _ hc))
      (fun c hc => h2 c (List.mem_cons_of_mem _ hc)) t1 t2 h.2
    exact ⟨by rw [h.1, e1], e2⟩

theorem toDigits_head (n : Nat) : ∃ c rest, Nat.toDigits 10 n = c :: rest ∧ c.isDigit = true := by
  cases h : Nat.toDigits 10 n with
  | nil => exact absurd h (toDigits_ne_nil n)
  | cons c rest => exact ⟨c, rest, rfl, toDigits_all_digit n c (by rw [h]; simp)⟩

theorem decimal_inj (n1 n2 : Int) (r1 r2 : List Char) (t1 : NoDigitHead r1)
    (t2 : NoDigitHead r2) (h : decimal n1 ++ r1 = decimal n2 ++ r2) : n1 = n2 ∧ r1 = r2 := by
  cases n1 with
  | ofNat a =>
    cases n2 with
    | ofNat b =>
      simp only [decimal] at h
      obtain ⟨e1, e2⟩ := digits_prefix _ _ _ _ (toDigits_all_digit a) (toDigits_all_digit b)
        t1 t2 h
      exact ⟨by rw [toDigits_inj a b e1], e2⟩
    | negSucc b =>
      obtain ⟨c, rest, hc, hd⟩ := toDigits_head a
      simp only [decimal, hc, List.cons_append, List.cons.injEq] at h
      rw [h.1] at hd
      exact absurd hd (by decide)
  | negSucc a =>
    cases n2 with
    | ofNat b =>
      obtain ⟨c, rest, hc, hd⟩ := toDigits_head b
      simp only [decimal, hc, List.cons_append, List.cons.injEq] at h
      rw [← h.1] at hd
      exact absurd hd (by decide)
    | negSucc b =>
      simp only [decimal, List.cons_append, List.cons.injEq, true_and] at h
      obtain ⟨e1, e2⟩ := digits_prefix _ _ _ _ (toDigits_all_digit _) (toDigits_all_digit _)
        t1 t2 h
      have := toDigits_inj _ _ e1
      exact ⟨by rw [show a = b from by omega], e2⟩

theorem charSort_digit (c : Char) (h : c.isDigit = true) : charSort c = 1 := by
  have h1 : c ≠ '"' := by
    rintro rfl
    exact absurd h (by decide)
  simp [charSort, h1, h]

theorem render_head (j : Json) : ∃ c rest, j.render = c :: rest ∧ charSort c = j.sort := by
  cases j with
  | str s => exact ⟨_, _, rfl, rfl⟩
  | num n =>
    cases n with
    | ofNat a =>
      obtain ⟨c, rest, hc, hd⟩ := toDigits_head a
      exact ⟨c, rest, by simp only [Json.render, decimal, hc], charSort_digit c hd⟩
    | negSucc a => exact ⟨'-', _, rfl, show charSort '-' = 1 from by decide⟩
  | bool b =>
    cases b
    · exact ⟨'f', _, rfl, show charSort 'f' = 2 from by decide⟩
    · exact ⟨'t', _, rfl, show charSort 't' = 2 from by decide⟩
  | obj ms =>
    cases ms with
    | nil => exact ⟨'{', _, rfl, show charSort '{' = 3 from by decide⟩
    | cons m rest =>
      obtain ⟨k, v⟩ := m
      exact ⟨'{', _, rfl, show charSort '{' = 3 from by decide⟩

/-- Values of different sorts have different texts. -/
theorem render_sort (j1 j2 : Json) (r1 r2 : List Char) (h : j1.render ++ r1 = j2.render ++ r2) :
    j1.sort = j2.sort := by
  obtain ⟨c1, t1, e1, h1⟩ := render_head j1
  obtain ⟨c2, t2, e2, h2⟩ := render_head j2
  rw [e1, e2] at h
  simp only [List.cons_append, List.cons.injEq] at h
  rw [← h1, ← h2, h.1]

theorem renderRest_noDigit (ms : List (String × Json)) (r : List Char) :
    NoDigitHead (Json.renderRest ms ++ r) := by
  cases ms with
  | nil =>
    intro c hc
    simp only [Json.renderRest, List.singleton_append, List.head?_cons, Option.mem_def,
      Option.some.injEq] at hc
    subst hc
    decide
  | cons m rest =>
    obtain ⟨k, v⟩ := m
    intro c hc
    simp only [Json.renderRest, List.cons_append, List.head?_cons, Option.mem_def,
      Option.some.injEq] at hc
    subst hc
    decide

mutual
theorem render_inj : ∀ (j1 j2 : Json) (r1 r2 : List Char), NoDigitHead r1 → NoDigitHead r2 →
    j1.render ++ r1 = j2.render ++ r2 → j1 = j2 ∧ r1 = r2
  | .str s1, j2, r1, r2, _, _, h => by
    have hs := render_sort _ _ _ _ h
    cases j2 <;> simp only [Json.sort] at hs <;> try omega
    simp only [Json.render] at h
    obtain ⟨a, b⟩ := quote_inj _ _ _ _ h
    exact ⟨by rw [a], b⟩
  | .num n1, j2, r1, r2, t1, t2, h => by
    have hs := render_sort _ _ _ _ h
    cases j2 <;> simp only [Json.sort] at hs <;> try omega
    simp only [Json.render] at h
    obtain ⟨a, b⟩ := decimal_inj _ _ _ _ t1 t2 h
    exact ⟨by rw [a], b⟩
  | .bool b1, j2, r1, r2, _, _, h => by
    have hs := render_sort _ _ _ _ h
    cases j2 <;> simp only [Json.sort] at hs <;> try omega
    rename_i b2
    cases b1 <;> cases b2 <;> simp [Json.render] at h
    · exact ⟨rfl, h⟩
    · exact ⟨rfl, h⟩
  | .obj [], j2, r1, r2, _, _, h => by
    have hs := render_sort _ _ _ _ h
    cases j2 <;> simp only [Json.sort] at hs <;> try omega
    rename_i m2
    cases m2 with
    | nil =>
      simp [Json.render] at h
      exact ⟨rfl, h⟩
    | cons m rest =>
      obtain ⟨k, v⟩ := m
      simp [Json.render, quote] at h
  | .obj ((k1, v1) :: rest1), j2, r1, r2, _, _, h => by
    have hs := render_sort _ _ _ _ h
    cases j2 <;> simp only [Json.sort] at hs <;> try omega
    rename_i m2
    cases m2 with
    | nil => simp [Json.render, quote] at h
    | cons m rest2 =>
      obtain ⟨k2, v2⟩ := m
      simp only [Json.render, List.cons_append, List.cons.injEq, true_and,
        List.append_assoc] at h
      obtain ⟨hk, h⟩ := quote_inj _ _ _ _ h
      simp only [List.cons.injEq, true_and] at h
      obtain ⟨hv, h⟩ := render_inj v1 v2 _ _ (renderRest_noDigit _ _) (renderRest_noDigit _ _) h
      obtain ⟨hr, h⟩ := renderRest_inj rest1 rest2 r1 r2 h
      exact ⟨by rw [hk, hv, hr], h⟩
theorem renderRest_inj : ∀ (m1 m2 : List (String × Json)) (r1 r2 : List Char),
    Json.renderRest m1 ++ r1 = Json.renderRest m2 ++ r2 → m1 = m2 ∧ r1 = r2
  | [], [], r1, r2, h => by
    simp [Json.renderRest] at h
    exact ⟨rfl, h⟩
  | [], (k, v) :: rest, r1, r2, h => by simp [Json.renderRest] at h
  | (k1, v1) :: rest1, [], r1, r2, h => by simp [Json.renderRest] at h
  | (k1, v1) :: rest1, (k2, v2) :: rest2, r1, r2, h => by
    simp only [Json.renderRest, List.cons_append, List.cons.injEq, true_and,
      List.append_assoc] at h
    obtain ⟨hk, h⟩ := quote_inj _ _ _ _ h
    simp only [List.cons.injEq, true_and] at h
    obtain ⟨hv, h⟩ := render_inj v1 v2 _ _ (renderRest_noDigit _ _) (renderRest_noDigit _ _) h
    obtain ⟨hr, h⟩ := renderRest_inj rest1 rest2 r1 r2 h
    exact ⟨by rw [hk, hv, hr], h⟩
end

/-! ## Equal text, same content -/

mutual
theorem descInduct {P : XType → Prop}
    (h : ∀ k s e, (∀ key v, mapGet s key = some v → P v) → P (.mk k s e)) : ∀ d, P d
  | .mk k none e => h k none e (fun key v hv => by simp [mapGet] at hv)
  | .mk k (some l) e => h k (some l) e (fun key v hv => descInduct_entries h l key v hv)
theorem descInduct_entries {P : XType → Prop}
    (h : ∀ k s e, (∀ key v, mapGet s key = some v → P v) → P (.mk k s e)) :
    ∀ (l : List (String × XType)) key v, entriesGet l key = some v → P v
  | [], key, v, hv => by simp [entriesGet] at hv
  | (k, w) :: rest, key, v, hv => by
    simp only [entriesGet] at hv
    split_ifs at hv with hk
    · cases hv
      exact descInduct h w
    · exact descInduct_entries h rest key v hv
end

theorem distinctKeys_nodup : ∀ l : List String, distinctKeys l = true → l.Nodup
  | [], _ => List.nodup_nil
  | k :: rest, h => by
    simp only [distinctKeys, Bool.and_eq_true, Bool.not_eq_true'] at h
    rw [List.nodup_cons]
    exact ⟨by simpa using h.1, distinctKeys_nodup rest h.2⟩

theorem wfEntries_nodup : ∀ l : List (String × XType), wfEntries l = true →
    (l.map Prod.fst).Nodup
  | [], _ => List.nodup_nil
  | (k, v) :: rest, h => by
    simp only [wfEntries, Bool.and_eq_true, Bool.not_eq_true'] at h
    rw [List.map_cons, List.nodup_cons]
    exact ⟨by simpa using h.1.1, wfEntries_nodup rest h.2⟩

theorem wfEntries_get : ∀ (l : List (String × XType)) key v, wfEntries l = true →
    entriesGet l key = some v → wfType v = true
  | [], key, v, _, hv => by simp [entriesGet] at hv
  | (k, w) :: rest, key, v, h, hv => by
    simp only [wfEntries, Bool.and_eq_true] at h
    simp only [entriesGet] at hv
    split_ifs at hv with hk
    · cases hv
      exact h.1.2
    · exact wfEntries_get rest key v h.2 hv

theorem wfStruct_get (s : Option (List (String × XType))) (key : String) (v : XType)
    (h : wfStruct s = true) (hv : mapGet s key = some v) : wfType v = true := by
  cases s with
  | none => simp [mapGet] at hv
  | some l => exact wfEntries_get l key v (by simpa [wfStruct] using h) hv

theorem entriesToJson_keys : ∀ l : List (String × XType),
    (entriesToJson l).map Prod.fst = l.map Prod.fst
  | [] => rfl
  | (k, v) :: rest => by simp [entriesToJson, entriesToJson_keys rest]

theorem entriesToJson_get : ∀ (l : List (String × XType)) (key : String),
    entriesGet (entriesToJson l) key = (entriesGet l key).map XType.toJson
  | [], _ => rfl
  | (k, v) :: rest, key => by
    by_cases h : k = key <;> simp [entriesToJson, entriesGet, h, entriesToJson_get rest key]

theorem structToJson_get (s : Option (List (String × XType))) (key : String) :
    entriesGet (structToJson s) key = (mapGet s key).map XType.toJson := by
  cases s with
  | none => rfl
  | some l => exact entriesToJson_get l key

theorem structToJson_nodup (s : Option (List (String × XType))) (h : wfStruct s = true) :
    ((structToJson s).map Prod.fst).Nodup := by
  cases s with
  | none => exact List.nodup_nil
  | some l =>
    simp only [structToJson, entriesToJson_keys]
    exact wfEntries_nodup l (by simpa [wfStruct] using h)

theorem extraJson_get : ∀ (l : List (String × Any)) (key : String),
    entriesGet (l.map (fun p => (p.1, p.2.toJson))) key = (entriesGet l key).map Any.toJson
  | [], _ => rfl
  | (k, v) :: rest, key => by
    by_cases h : k = key <;> simp [entriesGet, h, extraJson_get rest key]

theorem Any_toJson_inj (a b : Any) (h : a.toJson = b.toJson) : a = b := by
  cases a <;> cases b <;> simp [Any.toJson] at h <;> simp [h]

theorem sameIn_iff : ∀ (l : List (String × XType)) (key : String) (o : Option XType),
    sameIn l key o ↔
      match entriesGet l key with
      | none => o = none
      | some v => ∃ v2, o = some v2 ∧ Same v v2
  | [], _, _ => by simp [sameIn, entriesGet]
  | (k, v) :: rest, key, o => by
    by_cases h : k = key
    · simp [sameIn, entriesGet, h]
    · simp [sameIn, entriesGet, h, sameIn_iff rest key o]

theorem sameAt_iff (s : Option (List (String × XType))) (key : String) (o : Option XType) :
    sameAt s key o ↔
      match mapGet s key with
      | none => o = none
      | some v => ∃ v2, o = some v2 ∧ Same v v2 := by
  cases s with
  | none => simp [sameAt, mapGet]
  | some l => simpa [sameAt, mapGet] using sameIn_iff l key o

theorem sortEntries_eq_iff {α : Type} (l1 l2 : List (String × α))
    (h1 : (l1.map Prod.fst).Nodup) (h2 : (l2.map Prod.fst).Nodup) :
    sortEntries l1 = sortEntries l2 ↔ ∀ key, entriesGet l1 key = entriesGet l2 key := by
  constructor
  · intro h key
    have p : l1.Perm l2 := (sortEntries_perm l1).symm.trans (h ▸ sortEntries_perm l2)
    exact entriesGet_of_perm l1 l2 p h1 key
  · intro h
    exact sortEntries_congr l1 l2 (perm_of_entriesGet l1 l2 h1 h2 h) h1

theorem mapMember_eq_iff (name : String) (l1 l2 : List (String × Json)) :
    mapMember name l1 = mapMember name l2 ↔ sortEntries l1 = sortEntries l2 := by
  constructor
  · intro h
    cases l1 <;> cases l2 <;> simp [mapMember] at h
    · rfl
    · exact h
  · intro h
    have hl : l1.length = l2.length := by
      have := ((sortEntries_perm l1).symm.trans (h ▸ sortEntries_perm l2)).length_eq
      exact this
    cases l1 <;> cases l2 <;> simp at hl
    · rfl
    · simp [mapMember, h]

theorem members_inj (k1 k2 : String) (a1 a2 b1 b2 : List (String × Json)) :
    (if k1 = "" then [] else [("kind", Json.str k1)]) ++ mapMember "struct" a1 ++
        mapMember "extra" b1 =
      (if k2 = "" then [] else [("kind", Json.str k2)]) ++ mapMember "struct" a2 ++
        mapMember "extra" b2 ↔
    k1 = k2 ∧ mapMember "struct" a1 = mapMember "struct" a2 ∧
      mapMember "extra" b1 = mapMember "extra" b2 := by
  constructor
  · intro h
    by_cases h1 : k1 = "" <;> by_cases h2 : k2 = "" <;>
      cases a1 <;> cases a2 <;> cases b1 <;> cases b2 <;>
      simp [mapMember, h1, h2] at h ⊢ <;> simp_all
  · rintro ⟨rfl, h2, h3⟩
    rw [h2, h3]

theorem toJson_eq_iff (k1 k2 : String) (s1 s2 : Option (List (String × XType)))
    (e1 e2 : Option (List (String × Any)))
    (w1 : wfType (.mk k1 s1 e1) = true) (w2 : wfType (.mk k2 s2 e2) = true) :
    (XType.mk k1 s1 e1).toJson = (XType.mk k2 s2 e2).toJson ↔
      k1 = k2 ∧ (∀ key, mapGet e1 key = mapGet e2 key) ∧
        (∀ key, (mapGet s1 key).map XType.toJson = (mapGet s2 key).map XType.toJson) := by
  simp only [wfType, Bool.and_eq_true] at w1 w2
  have n1 := structToJson_nodup s1 w1.1
  have n2 := structToJson_nodup s2 w2.1
  have x1 : (((e1.getD []).map (fun p => (p.1, p.2.toJson))).map Prod.fst).Nodup := by
    rw [List.map_map]
    exact distinctKeys_nodup _ w1.2
  have x2 : (((e2.getD []).map (fun p => (p.1, p.2.toJson))).map Prod.fst).Nodup := by
    rw [List.map_map]
    exact distinctKeys_nodup _ w2.2
  have hget : ∀ (e : Option (List (String × Any))) key,
      entriesGet ((e.getD []).map (fun p => (p.1, p.2.toJson))) key =
        (mapGet e key).map Any.toJson := by
    intro e key
    cases e with
    | none => rfl
    | some l => exact extraJson_get l key
  rw [XType.toJson, XType.toJson, Json.obj.injEq, members_inj, mapMember_eq_iff,
    mapMember_eq_iff, sortEntries_eq_iff _ _ n1 n2, sortEntries_eq_iff _ _ x1 x2]
  simp only [structToJson_get, hget]
  constructor
  · rintro ⟨h1, h2, h3⟩
    refine ⟨h1, fun key => ?_, h2⟩
    have := h3 key
    cases a : mapGet e1 key <;> cases b : mapGet e2 key <;> simp [a, b] at this ⊢
    exact Any_toJson_inj _ _ this
  · rintro ⟨h1, h2, h3⟩
    exact ⟨h1, h3, fun key => by rw [h2 key]⟩

theorem toJson_iff_same (d1 : XType) : wfType d1 = true → ∀ d2, wfType d2 = true →
    (d1.toJson = d2.toJson ↔ Same d1 d2) := by
  refine descInduct (P := fun d1 => wfType d1 = true → ∀ d2, wfType d2 = true →
    (d1.toJson = d2.toJson ↔ Same d1 d2)) ?_ d1
  intro k1 s1 e1 ih w1 d2 w2
  obtain ⟨k2, s2, e2⟩ := d2
  rw [toJson_eq_iff k1 k2 s1 s2 e1 e2 w1 w2, Same]
  simp only [XType.Kind, XType.Extra, XType.Struct, sameAt_iff]
  simp only [wfType, Bool.and_eq_true] at w1 w2
  refine and_congr_right (fun _ => and_congr_right (fun _ => forall_congr' (fun key => ?_)))
  cases a : mapGet s1 key with
  | none => cases b : mapGet s2 key <;> simp
  | some v =>
    cases b : mapGet s2 key with
    | none => simp
    | some v2 =>
      have := ih key v a (wfStruct_get s1 key v w1.1 a) v2 (wfStruct_get s2 key v2 w2.1 b)
      simp [this]

theorem String_eq_iff (d1 d2 : XType) : d1.String = d2.String ↔ d1.toJson = d2.toJson := by
  constructor
  · intro h
    have h2 : d1.toJson.render ++ ['\n'] = d2.toJson.render ++ ['\n'] :=
      congrArg String.data h
    have nd : NoDigitHead ['\n'] := by
      intro c hc
      simp only [List.head?_cons, Option.mem_def, Option.some.injEq] at hc
      subst hc
      decide
    exact (render_inj _ _ _ _ nd nd h2).1
  · intro h
    simp only [XType.String, h]

theorem toJson_members (d : XType) :
    ∃ ms, d.toJson = .obj ms ∧ (ms.map Prod.fst).Sublist ["kind", "struct", "extra"] ∧
      ∀ name es, (name, Json.obj es) ∈ ms → es.Sorted (fun a b => keyLe a.1 b.1 = true) := by
  obtain ⟨k, s, e⟩ := d
  refine ⟨_, by rw [XType.toJson], ?_, ?_⟩
  · by_cases hk : k = "" <;> cases structToJson s <;>
      cases (e.getD []).map (fun p => (p.1, p.2.toJson)) <;> simp [mapMember, hk]
  · intro name es hmem
    simp only [List.mem_append] at hmem
    rcases hmem with (hmem | hmem) | hmem
    · split_ifs at hmem <;> simp at hmem
    · cases hs : structToJson s with
      | nil => simp [hs, mapMember] at hmem
      | cons a rest =>
        simp only [hs, mapMember, List.mem_singleton, Prod.mk.injEq, Json.obj.injEq] at hmem
        rw [hmem.2]
        exact sortEntries_sorted _
    · cases hs : (e.getD []).map (fun p => (p.1, p.2.toJson)) with
      | nil => simp [hs, mapMember] at hmem
      | cons a rest =>
        simp only [hs, mapMember, List.mem_singleton, Prod.mk.injEq, Json.obj.injEq] at hmem
        rw [hmem.2]
        exact sortEntries_sorted _

/-- C8 as stated fails: the descriptor `FromGoType` builds for `func() {}` has a
`Struct` map without entries; the same descriptor with a nil `Struct` is a
different descriptor (a map there, no map here) with the same textual form. -/
theorem C8_counterexample :
    FromGoType (.func [] [] false) = .ok funcDesc ∧ wfType funcDesc = true ∧
      wfType funcDescNil = true ∧ funcDesc.String = funcDescNil.String ∧
      funcDesc.Struct ≠ funcDescNil.Struct :=
  ⟨rfl, by decide, by decide, rfl, by simp [funcDesc, funcDescNil, XType.Struct]⟩

/-- C8, amended.  Canonical encoding never collides on content: two descriptors
whose maps hold no key twice, whose strings are valid UTF-8 and whose `Extra`
values are Go ints, bools and strings have the same textual form only when
they have the same content: the
same `Kind`, the same bindings in `Extra`, the same keys in `Struct` and under
each key descriptors of the same content.  A nil map and a map without entries
are the same content. -/
theorem C8_encoding_never_collides (d1 d2 : XType) (w1 : wfType d1 = true)
    (w2 : wfType d2 = true) (h : d1.String = d2.String) : Same d1 d2 :=
  (toJson_iff_same d1 w1 d2 w2).mp ((String_eq_iff d1 d2).mp h)

/-- C8 at the descriptor of `TestStruct` and a reordering of its entries. -/
theorem C8_encoding_never_collides_witness :
    wfType nameAgeDesc = true ∧ wfType nameAgeDescShuffled = true ∧
      nameAgeDesc.String = nameAgeDescShuffled.String ∧
      Same nameAgeDesc nameAgeDescShuffled :=
  ⟨by decide, by decide, rfl,
    C8_encoding_never_collides nameAgeDesc nameAgeDescShuffled (by decide) (by decide) rfl⟩

/-- C9.  Canonical encoding is deterministic and order-independent: two
descriptors with the same `Kind` and, at every level, the same bindings in
`Struct` and `Extra` have the same textual form, whatever the order of their
entries; the members of the object are a selection of "kind", "struct",
"extra" in that order, and the entries of each map are emitted in ascending
key order. -/
theorem C9_encoding_order_independent (d1 d2 : XType) (w1 : wfType d1 = true)
    (w2 : wfType d2 = true) (h : Same d1 d2) :
    d1.String = d2.String ∧
      ∃ ms, d1.toJson = .obj ms ∧ (ms.map Prod.fst).Sublist ["kind", "struct", "extra"] ∧
        ∀ name es, (name, Json.obj es) ∈ ms →
          es.Sorted (fun a b => keyLe a.1 b.1 = true) :=
  ⟨(String_eq_iff d1 d2).mpr ((toJson_iff_same d1 w1 d2 w2).mpr h), toJson_members d1⟩

/-- C9 at `struct { Name string; Age int64 }`: "Age" comes before "Name", and
"field_0", "field_1", "fields_number" come in that order. -/
theorem C9_encoding_order_independent_witness :
    FromGoType nameAgeType = .ok nameAgeDesc ∧
      nameAgeDesc.String = "\x7b\"kind\":\"struct\",\"struct\":\x7b\"Age\":\x7b\"kind\":\"int64\"\x7d,\"Name\":\x7b\"kind\":\"string\"\x7d\x7d,\"extra\":\x7b\"field_0\":\"Name\",\"field_1\":\"Age\",\"fields_number\":2\x7d\x7d\n" ∧
      (nameAgeDesc.String = nameAgeDescShuffled.String ∧
        ∃ ms, nameAgeDesc.toJson = .obj ms ∧ (ms.map Prod.fst).Sublist ["kind", "struct", "extra"] ∧
          ∀ name es, (name, Json.obj es) ∈ ms →
            es.Sorted (fun a b => keyLe a.1 b.1 = true)) :=
  ⟨rfl, rfl, C9_encoding_order_independent nameAgeDesc nameAgeDescShuffled (by decide)
    (by decide) ((toJson_iff_same _ (by decide) _ (by decide)).mp rfl)⟩

/-- C10 as stated fails in its last part: `TypeOf(1).String()` is the text
`{"kind":"int"}` followed by a line feed, which `json.Encoder.Encode` writes
after every value, and so is not exactly `{"kind":"int"}`. -/
theorem C10_counterexample :
    ∃ d, TypeOf (some (.scalar .Int)) = .ok d ∧ d.String = "\x7b\"kind\":\"int\"\x7d\n" ∧
      d.String ≠ "\x7b\"kind\":\"int\"\x7d" :=
  ⟨_, rfl, rfl, by decide⟩

/-- C10, amended.  Empty maps are omitted from the encoded form: the object that
`String` writes has a "struct" member exactly when `Struct` has an entry and an
"extra" member exactly when `Extra` has an entry; for a scalar type of kind
name `k` the output is `{"kind":"k"}` followed by one line feed; the descriptor
of `*int` has a "struct" member and no "extra" member. -/
theorem C10_empty_maps_omitted (t : XType) (s : Scalar) :
    ((t.toJson.hasMember "struct" = true ↔ ∃ e es, t.Struct = some (e :: es)) ∧
      (t.toJson.hasMember "extra" = true ↔ ∃ e es, t.Extra = some (e :: es)) ∧
      t.String = String.mk (t.toJson.render ++ ['\n'])) ∧
    (∃ d, TypeOf (some (.scalar s)) = .ok d ∧
      d.String = "\x7b\"kind\":\"" ++ kindString s.kind ++ "\"\x7d\n") ∧
    (∃ d, TypeOf (some (.ptr (.scalar .Int))) = .ok d ∧
      d.toJson.hasMember "struct" = true ∧ d.toJson.hasMember "extra" = false) := by
  refine ⟨⟨?_, ?_, rfl⟩, ⟨_, rfl, ?_⟩, ⟨_, rfl, by decide, by decide⟩⟩
  · obtain ⟨k, s, e⟩ := t
    rw [XType.toJson]
    rcases s with _ | _ | ⟨⟨a, b⟩, l⟩ <;> rcases e with _ | _ | ⟨c, l2⟩ <;>
      by_cases hk : k = "" <;>
      simp [Json.hasMember, mapMember, structToJson, entriesToJson, XType.Struct, hk]
  · obtain ⟨k, s, e⟩ := t
    rw [XType.toJson]
    rcases s with _ | _ | ⟨⟨a, b⟩, l⟩ <;> rcases e with _ | _ | ⟨c, l2⟩ <;>
      by_cases hk : k = "" <;>
      simp [Json.hasMember, mapMember, structToJson, entriesToJson, XType.Extra, hk]
  · cases s <;> rfl

/-! ## Describe: what the loops write -/

/-- The loop over the fields writes `field_i` for each position, leaves the
other keys of `Extra` alone, binds every field name in `Struct`, and, when the
names are pairwise distinct, binds each name to the descriptor of its field. -/
theorem fromFields_spec : ∀ (l : List (String × GoTy)) (i : Nat)
    (s : List (String × XType)) (e : List (String × Any)) (s' : List (String × XType))
    (e' : List (String × Any)), FromGoTypeFields l i s e = .ok (s', e') →
      (∀ key, (∀ j, j < l.length → key ≠ Field ++ Itoa (i + j)) →
        entriesGet e' key = entriesGet e key) ∧
      (∀ j p, l.get? j = some p → entriesGet e' (Field ++ Itoa (i + j)) = some (.str p.1)) ∧
      (∀ key, key ∉ l.map Prod.fst → entriesGet s' key = entriesGet s key) ∧
      ((l.map Prod.fst).Nodup →
        ∀ p ∈ l, ∃ d, FromGoType p.2 = .ok d ∧ entriesGet s' p.1 = some d) ∧
      (∀ key, (entriesGet s key).isSome = true ∨ key ∈ l.map Prod.fst →
        (entriesGet s' key).isSome = true)
  | [], _, s, e, s', e', h => by
    simp only [FromGoTypeFields, pure, Except.pure, Except.ok.injEq, Prod.mk.injEq] at h
    obtain ⟨rfl, rfl⟩ := h
    exact ⟨fun _ _ => rfl, fun j p h => by simp at h, fun _ _ => rfl,
      fun _ p hp => by simp at hp, fun key h => by simpa using h⟩
  | (name, t) :: rest, i, s, e, s', e', h => by
    rw [FromGoTypeFields] at h
    cases h1 : FromGoType t with
    | error m => simp [h1, bind, Except.bind] at h
    | ok d =>
      simp only [h1, bind, Except.bind] at h
      obtain ⟨ha, hb, hc, hd, he⟩ := fromFields_spec rest (i + 1) _ _ s' e' h
      refine ⟨?_, ?_, ?_, ?_, ?_⟩
      · intro key hkey
        rw [ha key (fun j hj => by
          have := hkey (j + 1) (by simp; omega)
          rwa [show i + (j + 1) = i + 1 + j from by omega] at this), entriesGet_mapSet]
        have := hkey 0 (by simp)
        rw [if_neg (fun h => this (by simpa using h.symm))]
      · intro j p hp
        cases j with
        | zero =>
          simp only [List.get?_cons_zero, Option.some.injEq] at hp
          subst hp
          rw [Nat.add_zero, ha _ (fun j _ hc => by
            have := key_index_inj Field _ _ hc
            omega), entriesGet_mapSet, if_pos rfl]
        | succ j =>
          have := hb j p (by simpa using hp)
          rwa [show i + 1 + j = i + (j + 1) from by omega] at this
      · intro key hkey
        simp only [List.map_cons, List.mem_cons, not_or] at hkey
        rw [hc key hkey.2, entriesGet_mapSet, if_neg (fun h => hkey.1 h.symm)]
      · intro hnd p hp
        simp only [List.map_cons, List.nodup_cons] at hnd
        rcases List.mem_cons.mp hp with rfl | hp
        · exact ⟨d, h1, by rw [hc _ hnd.1, entriesGet_mapSet, if_pos rfl]⟩
        · exact hd hnd.2 p hp
      · intro key hkey
        apply he key
        rw [entriesGet_mapSet]
        by_cases hk : name = key
        · simp [hk]
        · simp only [hk, ↓reduceIte]
          rcases hkey with h | h
          · exact Or.inl h
          · simp only [List.map_cons, List.mem_cons] at h
            rcases h with h | h
            · exact absurd h.symm hk
            · exact Or.inr h

/-- The loop over parameters (or results) binds `pre + i` to the descriptor of
the `i`-th type and leaves the other keys alone. -/
theorem fromParams_spec (pre : String) : ∀ (l : List GoTy) (i : Nat)
    (s s' : List (String × XType)), FromGoTypeParams pre l i s = .ok s' →
      (∀ key, (∀ j, j < l.length → key ≠ pre ++ Itoa (i + j)) →
        entriesGet s' key = entriesGet s key) ∧
      (∀ j p, l.get? j = some p →
        ∃ d, FromGoType p = .ok d ∧ entriesGet s' (pre ++ Itoa (i + j)) = some d)
  | [], _, s, s', h => by
    simp only [FromGoTypeParams, pure, Except.pure, Except.ok.injEq] at h
    subst h
    exact ⟨fun _ _ => rfl, fun j p h => by simp at h⟩
  | t :: rest, i, s, s', h => by
    rw [FromGoTypeParams] at h
    cases h1 : FromGoType t with
    | error m => simp [h1, bind, Except.bind] at h
    | ok d =>
      simp only [h1, bind, Except.bind] at h
      obtain ⟨ha, hb⟩ := fromParams_spec pre rest (i + 1) _ s' h
      refine ⟨?_, ?_⟩
      · intro key hkey
        rw [ha key (fun j hj => by
          have := hkey (j + 1) (by simp; omega)
          rwa [show i + (j + 1) = i + 1 + j from by omega] at this), entriesGet_mapSet]
        have := hkey 0 (by simp)
        rw [if_neg (fun h => this (by simpa using h.symm))]
      · intro j p hp
        cases j with
        | zero =>
          simp only [List.get?_cons_zero, Option.some.injEq] at hp
          subst hp
          refine ⟨d, h1, ?_⟩
          rw [Nat.add_zero, ha _ (fun j _ hc => by
            have := key_index_inj pre _ _ hc
            omega), entriesGet_mapSet, if_pos rfl]
        | succ j =>
          have := hb j p (by simpa using hp)
          rwa [show i + 1 + j = i + (j + 1) from by omega] at this

theorem FromGoType_ok_of_noInterface (t : GoTy) (h : t.hasInterface = false) :
    ∃ d, FromGoType t = .ok d := by
  have h2 := FromGoType_isOk t
  unfold GoTy.hasInterface at h
  cases hr : FromGoType t <;> simp_all [Except.isOk, Except.toBool]

theorem in_ne_out (i j : Nat) : In ++ Itoa i ≠ Out ++ Itoa j := by
  intro h
  have h2 := congrArg String.data h
  simp [In, Out, String.data_append] at h2

theorem FromGoType_struct_inv (fs : List (String × GoTy)) (d : XType)
    (h : FromGoType (.struct fs) = .ok d) :
    ∃ s' e', d = .mk "struct" (some s') (some e') ∧
      FromGoTypeFields fs 0 [] [(NumField, .int fs.length)] = .ok (s', e') := by
  rw [FromGoType] at h
  cases h1 : FromGoTypeFields fs 0 [] (mapSet [] NumField (.int fs.length)) with
  | error m => simp [h1, bind, Except.bind] at h
  | ok r =>
    obtain ⟨s', e'⟩ := r
    simp only [h1, bind, Except.bind, pure, Except.pure, Except.ok.injEq] at h
    exact ⟨s', e', h.symm, h1⟩

theorem FromGoType_func_inv (ins outs : List GoTy) (v : Bool) (d : XType)
    (h : FromGoType (.func ins outs v) = .ok d) :
    ∃ s1 s2, d = .mk "func" (some s2) (some [(NumIn, .int ins.length),
        (NumOut, .int outs.length), (Variadic, .bool v)]) ∧
      FromGoTypeParams In ins 0 [] = .ok s1 ∧ FromGoTypeParams Out outs 0 s1 = .ok s2 := by
  rw [FromGoType] at h
  cases h1 : FromGoTypeParams In ins 0 [] with
  | error m => simp [h1, bind, Except.bind] at h
  | ok s1 =>
    cases h2 : FromGoTypeParams Out outs 0 s1 with
    | error m => simp [h1, h2, bind, Except.bind] at h
    | ok s2 =>
      simp only [h1, h2, bind, Except.bind, pure, Except.pure, Except.ok.injEq] at h
      exact ⟨s1, s2, h.symm, rfl, h2⟩

/-! ## Struct types (type.go:79-85, 155-162) -/

/-- The loop over the fields leaves under a name the descriptor of the last
field of that name. -/
theorem fromFields_last : ∀ (l : List (String × GoTy)) (i : Nat)
    (s : List (String × XType)) (e : List (String × Any)) (s' : List (String × XType))
    (e' : List (String × Any)), FromGoTypeFields l i s e = .ok (s', e') →
    ∀ j p, l.get? j = some p → (∀ k q, j < k → l.get? k = some q → q.1 ≠ p.1) →
      ∃ d, FromGoType p.2 = .ok d ∧ entriesGet s' p.1 = some d
  | [], _, _, _, _, _, _, j, p, hp, _ => by simp at hp
  | (name, t) :: rest, i, s, e, s', e', h, j, p, hp, hlast => by
    rw [FromGoTypeFields] at h
    cases ht : FromGoType t with
    | error m => simp [ht, bind, Except.bind] at h
    | ok d =>
      simp only [ht, bind, Except.bind] at h
      cases j with
      | zero =>
        simp only [List.get?_cons_zero, Option.some.injEq] at hp
        subst hp
        refine ⟨d, ht, ?_⟩
        obtain ⟨-, -, hc, -, -⟩ := fromFields_spec rest (i + 1) _ _ s' e' h
        have hnot : name ∉ rest.map Prod.fst := by
          intro hm
          obtain ⟨q, hq, hqn⟩ := List.mem_map.mp hm
          obtain ⟨k, hk⟩ := List.mem_iff_get?.mp hq
          exact hlast (k + 1) q (Nat.succ_pos k) (by simpa using hk) hqn
        rw [hc name hnot, entriesGet_mapSet]
        simp
      | succ j =>
        exact fromFields_last rest (i + 1) _ _ s' e' h j p (by simpa using hp)
          (fun k q hk hq => hlast (k + 1) q (by omega) (by simpa using hq))

/-- C11 as stated fails: `struct { _ int; _ string }` is a struct type with
supported field types, `FromGoType` describes it, `field_0` is "_", and
`Struct["_"]` is the descriptor of `string`, the type of the second field, not
`FromGoType(int)`: the second assignment to the key "_" replaced the first. -/
theorem C11_counterexample :
    blankPairType.native asciiTable = true ∧ blankPairType.hasInterface = false ∧
      FromGoType blankPairType = .ok blankPairDesc ∧
      FromGoType (.scalar .Int) = .ok (.mk "int" none none) ∧
      mapGet blankPairDesc.Extra (Field ++ Itoa 0) = some (.str "_") ∧
      mapGet blankPairDesc.Struct "_" = some (.mk "string" none none) ∧
      mapGet blankPairDesc.Struct "_" ≠ some (.mk "int" none none) := by
  refine ⟨rfl, rfl, rfl, rfl, rfl, rfl, ?_⟩
  simp [blankPairDesc, XType.Struct, mapGet, entriesGet]

/-- C11, amended.  Struct description: for every struct type with fields
`(name_0: T_0) .. (name_{n-1}: T_{n-1})` and no interface type inside,
`FromGoType` returns a descriptor with `Kind` "struct", whose `Extra` holds
`fields_number = n`, `field_i = name_i` for each `i < n` and nothing else, and
whose `Struct` has exactly the field names as keys; under each name `Struct`
holds the descriptor of the last field of that name, so when the field names
are pairwise distinct, `Struct[name_i] = FromGoType(T_i)` for each `i < n`. -/
theorem C11_struct_description (fs : List (String × GoTy))
    (hi : (GoTy.struct fs).hasInterface = false) :
    ∃ d, FromGoType (.struct fs) = .ok d ∧ d.Kind = "struct" ∧
      mapGet d.Extra NumField = some (.int fs.length) ∧
      (∀ i p, fs.get? i = some p → mapGet d.Extra (Field ++ Itoa i) = some (.str p.1)) ∧
      (∀ key, key ≠ NumField → (∀ i, i < fs.length → key ≠ Field ++ Itoa i) →
        mapGet d.Extra key = none) ∧
      (∀ key, key ∉ fs.map Prod.fst → mapGet d.Struct key = none) ∧
      (∀ p ∈ fs, ∃ dp, mapGet d.Struct p.1 = some dp) ∧
      (∀ j p, fs.get? j = some p → (∀ k q, j < k → fs.get? k = some q → q.1 ≠ p.1) →
        ∃ dp, FromGoType p.2 = .ok dp ∧ mapGet d.Struct p.1 = some dp) ∧
      ((fs.map Prod.fst).Nodup →
        ∀ p ∈ fs, ∃ dp, FromGoType p.2 = .ok dp ∧ mapGet d.Struct p.1 = some dp) := by
  obtain ⟨d, hd⟩ := FromGoType_ok_of_noInterface _ hi
  obtain ⟨s', e', rfl, hf⟩ := FromGoType_struct_inv fs d hd
  obtain ⟨ha, hb, hc, hdd, he⟩ := fromFields_spec fs 0 _ _ s' e' hf
  have hlast := fromFields_last fs 0 _ _ s' e' hf
  refine ⟨_, hd, rfl, ?_, ?_, ?_, ?_, ?_, ?_, ?_⟩
  · simp only [XType.Extra, mapGet]
    rw [ha NumField (fun j _ => (field_key_ne_numField (0 + j)).symm)]
    simp [entriesGet]
  · intro i p hp
    have := hb i p hp
    simpa [XType.Extra, mapGet] using this
  · intro key h1 h2
    simp only [XType.Extra, mapGet]
    rw [ha key (fun j hj => by simpa using h2 j hj)]
    simp [entriesGet, Ne.symm h1]
  · intro key hkey
    simp only [XType.Struct, mapGet]
    rw [hc key hkey]
    rfl
  · intro p hp
    simp only [XType.Struct, mapGet]
    exact Option.isSome_iff_exists.mp (he p.1 (Or.inr (List.mem_map_of_mem Prod.fst hp)))
  · intro j p hp hl
    simpa [XType.Struct, mapGet] using hlast j p hp hl
  · intro hn p hp
    simpa [XType.Struct, mapGet] using hdd hn p hp

/-- C11 at `struct { Name string; Age int64 }`, the input of `TestStruct`. -/
theorem C11_struct_description_witness :
    nameAgeType.hasInterface = false ∧ FromGoType nameAgeType = .ok nameAgeDesc ∧
    ∃ d, FromGoType (.struct [("Name", .scalar .String), ("Age", .scalar .Int64)]) = .ok d ∧
      d.Kind = "struct" ∧
      mapGet d.Extra NumField = some (.int 2) ∧
      (∀ i p, [("Name", GoTy.scalar .String), ("Age", GoTy.scalar .Int64)].get? i = some p →
        mapGet d.Extra (Field ++ Itoa i) = some (.str p.1)) ∧
      (∀ key, key ≠ NumField → (∀ i, i < 2 → key ≠ Field ++ Itoa i) →
        mapGet d.Extra key = none) ∧
      (∀ key, key ∉ ["Name", "Age"] → mapGet d.Struct key = none) ∧
      (∀ p ∈ [("Name", GoTy.scalar .String), ("Age", GoTy.scalar .Int64)],
        ∃ dp, mapGet d.Struct p.1 = some dp) ∧
      (∀ j p, [("Name", GoTy.scalar .String), ("Age", GoTy.scalar .Int64)].get? j = some p →
        (∀ k q, j < k →
          [("Name", GoTy.scalar .String), ("Age", GoTy.scalar .Int64)].get? k = some q →
          q.1 ≠ p.1) →
        ∃ dp, FromGoType p.2 = .ok dp ∧ mapGet d.Struct p.1 = some dp) ∧
      (["Name", "Age"].Nodup →
        ∀ p ∈ [("Name", GoTy.scalar .String), ("Age", GoTy.scalar .Int64)],
          ∃ dp, FromGoType p.2 = .ok dp ∧ mapGet d.Struct p.1 = some dp) :=
  ⟨by decide, rfl,
    C11_struct_description [("Name", .scalar .String), ("Age", .scalar .Int64)]
      (by decide)⟩

theorem structGoType_eq (u : Unicode) (s : Option (List (String × XType))) (key : String) :
    structGoType u s key =
      match mapGet s key with
      | some d => d.GoType u
      | none => .error "invalid kind of type" := by
  cases s with
  | none => rfl
  | some l => exact entriesGoType_eq u l key

/-- C12 as stated fails: the descriptor has `fields_number = 2`, `field_0 =
"Name"`, `field_1 = "age"`, both `Struct["Name"]` and `Struct["age"]`
reconstruct, and `GoType` panics, because `reflect.StructOf` refuses the
lower-case name "age" without a package path. -/
theorem C12_counterexample :
    mapGet lowerAgeDesc.Extra NumField = some (.int 2) ∧
      mapGet lowerAgeDesc.Extra (Field ++ Itoa 0) = some (.str "Name") ∧
      mapGet lowerAgeDesc.Extra (Field ++ Itoa 1) = some (.str "age") ∧
      structGoType asciiTable lowerAgeDesc.Struct "Name" = .ok (.scalar .String) ∧
      structGoType asciiTable lowerAgeDesc.Struct "age" = .ok (.scalar .Int) ∧
      lowerAgeDesc.GoType asciiTable =
        .error "reflect.StructOf: field \"age\" is unexported but missing PkgPath" :=
  ⟨rfl, rfl, rfl, rfl, rfl, rfl⟩

/-- C12, amended.  Struct reconstruction follows the position metadata: when
`Extra[fields_number] = n`, `Extra[field_i] = name_i` for each `i < n`, every
`Struct[name_i]` reconstructs to `T_i`, and the names are valid identifiers,
begin with neither a lower-case ASCII letter nor an underscore, and are pairwise
distinct, `GoType` returns the struct type with exactly the fields
`(name_i: T_i)` in the order of `i`; the hypotheses read `Struct` and `Extra`
only through lookups, so neither the order of the entries nor entries named by
no `field_i` change the result. -/
theorem C12_struct_reconstruction (u : Unicode) (s : Option (List (String × XType)))
    (e : Option (List (String × Any))) (fields : List (String × GoTy))
    (hn : mapGet e NumField = some (.int fields.length))
    (hf : ∀ i p, fields.get? i = some p →
      mapGet e (Field ++ Itoa i) = some (.str p.1) ∧
        ∃ dp, mapGet s p.1 = some dp ∧ dp.GoType u = .ok p.2)
    (hvalid : ∀ p ∈ fields, isValidFieldName u p.1 = true)
    (hexp : ∀ p ∈ fields, startsUnexported p.1 = false)
    (hnodup : (fields.map Prod.fst).Nodup) :
    (XType.mk "struct" s e).GoType u = .ok (.struct fields) := by
  have hcollect := collectFrom_eq (fun i => do
      let fieldName ← assertString (mapGet e (Field ++ Itoa i))
      let fieldType ← structGoType u s fieldName
      pure (fieldName, fieldType)) fields 0 (by
    intro j x hx
    obtain ⟨h1, dp, h2, h3⟩ := hf j x hx
    simp only [Nat.zero_add, h1, assertString, structGoType_eq, h2, h3, bind, Except.bind, pure,
      Except.pure])
  simp only [bind, Except.bind, pure, Except.pure] at hcollect
  rw [XType.GoType]
  simp only [show kindMap "struct" = .Struct from by decide, hn, assertInt, Int.toNat_ofNat,
    hcollect, StructOf, structOfCheck_ok u fields 0 [] hvalid hexp hnodup (by simp), bind,
    Except.bind, pure, Except.pure]

/-- C12 at the descriptor of `TestGoTypeJson`, and at the same descriptor with
the entries of `Struct` in another order and one stray entry more. -/
theorem C12_struct_reconstruction_witness :
    nameAgeDesc.GoType asciiTable = .ok nameAgeType ∧
      nameAgeDescMore.GoType asciiTable = .ok nameAgeType :=
  ⟨rfl, C12_struct_reconstruction asciiTable _ _
    [("Name", .scalar .String), ("Age", .scalar .Int64)] rfl
    (by
      intro i p hp
      match i, hp with
      | 0, hp =>
        simp only [List.get?_cons_zero, Option.some.injEq] at hp
        subst hp
        exact ⟨rfl, _, rfl, rfl⟩
      | 1, hp =>
        simp only [List.get?_cons_succ, List.get?_cons_zero, Option.some.injEq] at hp
        subst hp
        exact ⟨rfl, _, rfl, rfl⟩
      | n + 2, hp => simp at hp)
    (by decide) (by decide) (by decide)⟩

/-! ## Function, array, map and scalar types (type.go:54-90) -/

/-- C13.  Function description: for every function type with parameter types
`P_0 .. P_{m-1}` and result types `R_0 .. R_{k-1}` and no interface type inside,
`FromGoType` returns a descriptor with `Kind` "func", `Extra[in_number] = m`,
`Extra[out_number] = k`, `Extra[variadic]` the variadic flag, `Struct["in_"+i]
= FromGoType(P_i)`, `Struct["out_"+j] = FromGoType(R_j)`, and no other key in
`Struct`. -/
theorem C13_func_description (ins outs : List GoTy) (v : Bool)
    (hi : (GoTy.func ins outs v).hasInterface = false) :
    ∃ d, FromGoType (.func ins outs v) = .ok d ∧ d.Kind = "func" ∧
      mapGet d.Extra NumIn = some (.int ins.length) ∧
      mapGet d.Extra NumOut = some (.int outs.length) ∧
      mapGet d.Extra Variadic = some (.bool v) ∧
      (∀ i p, ins.get? i = some p →
        ∃ dp, FromGoType p = .ok dp ∧ mapGet d.Struct (In ++ Itoa i) = some dp) ∧
      (∀ j p, outs.get? j = some p →
        ∃ dp, FromGoType p = .ok dp ∧ mapGet d.Struct (Out ++ Itoa j) = some dp) ∧
      (∀ key, (∀ i, i < ins.length → key ≠ In ++ Itoa i) →
        (∀ j, j < outs.length → key ≠ Out ++ Itoa j) → mapGet d.Struct key = none) := by
  obtain ⟨d, hd⟩ := FromGoType_ok_of_noInterface _ hi
  obtain ⟨s1, s2, rfl, h1, h2⟩ := FromGoType_func_inv ins outs v d hd
  obtain ⟨a1, b1⟩ := fromParams_spec In ins 0 [] s1 h1
  obtain ⟨a2, b2⟩ := fromParams_spec Out outs 0 s1 s2 h2
  refine ⟨_, hd, rfl, by simp [XType.Extra, mapGet, entriesGet],
    by simp [XType.Extra, mapGet, entriesGet, NumIn, NumOut],
    by simp [XType.Extra, mapGet, entriesGet, NumIn, NumOut, Variadic], ?_, ?_, ?_⟩
  · intro i p hp
    obtain ⟨dp, e1, e2⟩ := b1 i p hp
    refine ⟨dp, e1, ?_⟩
    simp only [XType.Struct, mapGet]
    rw [a2 _ (fun j _ => in_ne_out _ _)]
    simpa using e2
  · intro j p hp
    obtain ⟨dp, e1, e2⟩ := b2 j p hp
    exact ⟨dp, e1, by simpa [XType.Struct, mapGet] using e2⟩
  · intro key k1 k2
    simp only [XType.Struct, mapGet]
    rw [a2 key (fun j hj => by simpa using k2 j hj), a1 key (fun i hi => by simpa using k1 i hi)]
    rfl

/-- C13 at `func(string, int) (bool, struct{})`, the input of `TestFunc2`. -/
theorem C13_func_description_witness :
    func2Type.hasInterface = false ∧
    ∃ d, FromGoType func2Type = .ok d ∧ d.Kind = "func" ∧
      mapGet d.Extra NumIn = some (.int 2) ∧
      mapGet d.Extra NumOut = some (.int 2) ∧
      mapGet d.Extra Variadic = some (.bool false) ∧
      (∀ i p, [GoTy.scalar .String, GoTy.scalar .Int].get? i = some p →
        ∃ dp, FromGoType p = .ok dp ∧ mapGet d.Struct (In ++ Itoa i) = some dp) ∧
      (∀ j p, [GoTy.scalar .Bool, GoTy.struct []].get? j = some p →
        ∃ dp, FromGoType p = .ok dp ∧ mapGet d.Struct (Out ++ Itoa j) = some dp) ∧
      (∀ key, (∀ i, i < 2 → key ≠ In ++ Itoa i) →
        (∀ j, j < 2 → key ≠ Out ++ Itoa j) → mapGet d.Struct key = none) :=
  ⟨by decide, C13_func_description [.scalar .String, .scalar .Int]
    [.scalar .Bool, .struct []] false (by decide)⟩

/-- C14 as stated fails: `[2]struct { name string }` is an array of a supported
element type, `FromGoType` describes it, and `GoType` of the descriptor panics
in `reflect.StructOf` instead of returning an array type. -/
theorem C14_counterexample :
    lowerNameArray.supported = true ∧ lowerNameArray.native asciiTable = true ∧
      FromGoType lowerNameArray =
        .ok (.mk "array"
          (some [("element_type", .mk "struct" (some [("name", .mk "string" none none)])
            (some [("fields_number", .int 1), ("field_0", .str "name")]))])
          (some [("array_length", .int 2)])) ∧
      (XType.mk "array"
          (some [("element_type", .mk "struct" (some [("name", .mk "string" none none)])
            (some [("fields_number", .int 1), ("field_0", .str "name")]))])
          (some [("array_length", .int 2)])).GoType asciiTable =
        .error "reflect.StructOf: field \"name\" is unexported but missing PkgPath" :=
  ⟨by decide, by decide, rfl, rfl⟩

/-- C14, amended.  Array length preservation: for every length `n` and every
element type `E` that `FromGoType` describes, `FromGoType([n]E)` has `Kind`
"array", `Extra = {array_length: n}` and `Struct = {element_type:
FromGoType(E)}`; `GoType` of that descriptor panics when
`FromGoType(E).GoType()` does, and otherwise is the array type of length `n`
with the element type `FromGoType(E).GoType()`. -/
theorem C14_array_length_preserved (u : Unicode) (n : Nat) (E : GoTy) (dE : XType)
    (hE : FromGoType E = .ok dE) :
    FromGoType (.array n E) =
        .ok (.mk "array" (some [(ElementType, dE)]) (some [(ArrayLength, .int n)])) ∧
      (XType.mk "array" (some [(ElementType, dE)]) (some [(ArrayLength, .int n)])).GoType u =
        (dE.GoType u).bind (fun e => .ok (.array n e)) := by
  constructor
  · rw [FromGoType, hE]
    rfl
  · rw [XType.GoType]
    cases h : dE.GoType u <;>
    simp [show kindMap "array" = .Array from by decide, mapGet, entriesGet, assertInt,
      structGoType, entriesGoType, h, ArrayOf, bind, Except.bind, pure, Except.pure]

/-- C14 at `[16]int`, the input of `TestArray`: the result is `[16]int`. -/
theorem C14_array_length_preserved_witness :
    FromGoType (.scalar .Int) = .ok (.mk "int" none none) ∧
    (FromGoType (.array 16 (.scalar .Int)) =
        .ok (.mk "array" (some [(ElementType, .mk "int" none none)])
          (some [(ArrayLength, .int (16 : Nat))])) ∧
      (XType.mk "array" (some [(ElementType, .mk "int" none none)])
          (some [(ArrayLength, .int (16 : Nat))])).GoType asciiTable =
        ((XType.mk "int" none none).GoType asciiTable).bind (fun e => .ok (.array 16 e))) ∧
    ((XType.mk "int" none none).GoType asciiTable).bind (fun e => .ok (.array 16 e)) =
      .ok intArray16 :=
  ⟨rfl, C14_array_length_preserved asciiTable 16 (.scalar .Int) (.mk "int" none none) rfl, rfl⟩

/-- C15.  Map description: for every map type whose key and value types have no
interface type inside, `FromGoType` returns the descriptor with `Kind` "map",
`Struct` exactly `{key_type: FromGoType(K), value_type: FromGoType(V)}` and an
`Extra` without entries. -/
theorem C15_map_description (k v : GoTy) (hi : (GoTy.map k v).hasInterface = false) :
    ∃ dk dv, FromGoType k = .ok dk ∧ FromGoType v = .ok dv ∧
      FromGoType (.map k v) =
        .ok (.mk "map" (some [(KeyType, dk), (ValueType, dv)]) (some [])) := by
  obtain ⟨d, hd⟩ := FromGoType_ok_of_noInterface _ hi
  rw [FromGoType] at hd
  cases h1 : FromGoType k with
  | error m => simp [h1, bind, Except.bind] at hd
  | ok dk =>
    cases h2 : FromGoType v with
    | error m => simp [h1, h2, bind, Except.bind] at hd
    | ok dv =>
      refine ⟨dk, dv, rfl, rfl, ?_⟩
      rw [FromGoType, h1, h2]
      rfl

/-- C15 at `map[string]int`, the input of `TestMap`. -/
theorem C15_map_description_witness :
    mapStringInt.hasInterface = false ∧
    ∃ dk dv, FromGoType (.scalar .String) = .ok dk ∧ FromGoType (.scalar .Int) = .ok dv ∧
      FromGoType (.map (.scalar .String) (.scalar .Int)) =
        .ok (.mk "map" (some [(KeyType, dk), (ValueType, dv)]) (some [])) :=
  ⟨by decide, C15_map_description (.scalar .String) (.scalar .Int) (by decide)⟩

/-- C16.  Scalar description: for every type whose kind is not array, chan,
func, interface, map, pointer, slice or struct, `FromGoType` returns the
descriptor whose `Kind` is the name of the kind and whose `Struct` and `Extra`
are nil. -/
theorem C16_scalar_description (t : GoTy) (h : t.Kind ∉ compositeKinds) :
    FromGoType t = .ok (.mk (kindString t.Kind) none none) := by
  cases t with
  | scalar s => rfl
  | _ => simp [GoTy.Kind, compositeKinds] at h

/-- C16 at `float32`, the input of `TestFloat32`. -/
theorem C16_scalar_description_witness :
    (GoTy.scalar .Float32).Kind ∉ compositeKinds ∧
      FromGoType (.scalar .Float32) = .ok (.mk "float32" none none) :=
  ⟨by decide, C16_scalar_description (.scalar .Float32) (by decide)⟩

/-! ## The descriptor on the wire (type_test.go:219-243) -/

theorem gobToInt_gobInt (i : Int) (n : Nat) (h : gobInt i = .uint n) : gobToInt n = i := by
  simp only [gobInt, Gob.uint.injEq] at h
  subst h
  unfold gobToInt
  split_ifs with h1 h2 h2 <;> omega

theorem readString_gobString (s : String) (rest : List Gob) :
    readString (gobString s ++ rest) = some (s, rest) := by
  simp [readString, gobString]

theorem readAny_gobAny (a : Any) (rest : List Gob) :
    readAny (gobAny a ++ rest) = some (a, rest) := by
  cases a with
  | int n =>
    have h2 : gobToInt 4 = 2 := by decide
    cases hn : gobInt n with
    | bytes s => simp [gobInt] at hn
    | uint m =>
      have := gobToInt_gobInt n m hn
      simp [readAny, gobAny, readString_gobString, gobDelimited, gobInt, h2] at hn ⊢
      rw [hn]
      exact this
  | bool b =>
    have h1 : gobToInt 2 = 1 := by decide
    cases b <;> simp [readAny, gobAny, readString_gobString, gobDelimited, gobInt, gobBool, h1]
  | str s =>
    have h6 : gobToInt 12 = 6 := by decide
    simp [readAny, gobAny, readString_gobString, gobDelimited, gobInt, h6]


theorem mapSet_append {α : Type} : ∀ (m : List (String × α)) (k : String) (v : α),
    k ∉ m.map Prod.fst → mapSet m k v = m ++ [(k, v)]
  | [], _, _, _ => rfl
  | (a, w) :: rest, k, v, h => by
    simp only [List.map_cons, List.mem_cons, not_or] at h
    have ha : a ≠ k := fun e => h.1 e.symm
    simp [mapSet, ha, mapSet_append rest k v h.2]

theorem readExtraEntries_enc : ∀ (l m : List (String × Any)) (rest : List Gob),
    (∀ p ∈ l, p.1 ∉ m.map Prod.fst) → (l.map Prod.fst).Nodup →
    readExtraEntries l.length m (gobExtraEntries l ++ rest) = some (m ++ l, rest)
  | [], m, rest, _, _ => by simp [readExtraEntries, gobExtraEntries]
  | (k, a) :: l, m, rest, hm, hn => by
    simp only [List.map_cons, List.nodup_cons] at hn
    have hk : k ∉ m.map Prod.fst := hm (k, a) (List.mem_cons_self _ _)
    have ih := readExtraEntries_enc l (m ++ [(k, a)]) rest (by
      intro p hp
      simp only [List.map_append, List.map_cons, List.map_nil, List.mem_append,
        List.mem_singleton, not_or]
      refine ⟨hm p (List.mem_cons_of_mem _ hp), ?_⟩
      intro e
      exact hn.1 (e ▸ List.mem_map_of_mem Prod.fst hp)) hn.2
    simp only [List.length_cons, readExtraEntries, gobExtraEntries, List.append_assoc,
      readString_gobString, readAny_gobAny, mapSet_append m k a hk, ih]
    simp


theorem readFields_end (f next : Nat) (t : XType) (rest : List Gob) :
    readFields (f + 1) next t (.uint 0 :: rest) = some (t, rest) := by
  simp [readFields]

theorem readFields_kind (f : Nat) (k0 k : String) (s : Option (List (String × XType)))
    (e : Option (List (String × Any))) (tail : List Gob) :
    readFields (f + 1) 0 (.mk k0 s e) (.uint 1 :: (gobString k ++ tail)) =
      readFields f 1 (.mk k s e) tail := by
  simp [readFields, readString_gobString]

theorem readFields_struct (f next delta : Nat) (k : String) (l : List (String × XType))
    (e : Option (List (String × Any))) (tail : List Gob) (hd : next + delta = 1)
    (h : readStructEntries f l.length [] (gobEncodeEntries l ++ tail) = some (l, tail)) :
    readFields (f + 1) next (.mk k none e)
        (.uint (delta + 1) :: .uint l.length :: (gobEncodeEntries l ++ tail)) =
      readFields f 2 (.mk k (some l) e) tail := by
  simp [readFields, hd, h]

theorem readFields_extra (f next delta : Nat) (k : String)
    (s : Option (List (String × XType))) (l : List (String × Any)) (tail : List Gob)
    (hd : next + delta = 2) (hn : (l.map Prod.fst).Nodup) :
    readFields (f + 1) next (.mk k s none)
        (.uint (delta + 1) :: .uint l.length :: (gobExtraEntries l ++ tail)) =
      readFields f 3 (.mk k s (some l)) tail := by
  have h := readExtraEntries_enc l [] tail (by simp) hn
  simp only [List.nil_append] at h
  simp [readFields, hd, h]

theorem gobEncodeType_length_pos : ∀ d : XType, 0 < (gobEncodeType d).length
  | .mk k s e => by
    cases s <;> cases e <;> by_cases hk : k = "" <;> simp [gobEncodeType, hk]

mutual
theorem readFields_enc : ∀ (d : XType), wfType d = true → ∀ (fuel : Nat) (rest : List Gob),
    (gobEncodeType d).length ≤ fuel →
    readFields fuel 0 (.mk "" none none) (gobEncodeType d ++ rest) = some (d, rest)
  | .mk k s e, hw, fuel, rest, hf => by
    simp only [wfType, Bool.and_eq_true] at hw
    have hne := distinctKeys_nodup _ hw.2
    by_cases hk : k = ""
    · subst hk
      cases s with
      | none =>
        cases e with
        | none =>
          simp only [gobEncodeType, ↓reduceIte, List.nil_append, List.length_cons,
            List.length_nil] at hf ⊢
          obtain ⟨f, rfl⟩ : ∃ f, fuel = f + 1 := ⟨fuel - 1, by omega⟩
          exact readFields_end f 0 _ rest
        | some x =>
          simp only [gobEncodeType, ↓reduceIte, List.nil_append, List.length_cons,
            List.length_append, List.length_nil, List.cons_append, List.append_assoc]
            at hf ⊢
          obtain ⟨f, rfl⟩ : ∃ f, fuel = f + 2 := ⟨fuel - 2, by omega⟩
          rw [readFields_extra (f + 1) 0 2 "" none x _ rfl (by simpa using hne)]
          exact readFields_end f 3 _ rest
      | some l =>
        have ih : ∀ fuel tail, (gobEncodeEntries l).length ≤ fuel →
            readStructEntries fuel l.length [] (gobEncodeEntries l ++ tail) = some (l, tail) :=
          fun fuel tail h => by
            have := readStructEntries_enc l (by simpa [wfStruct] using hw.1) fuel [] tail h
              (by simp)
            simpa using this
        cases e with
        | none =>
          simp only [gobEncodeType, ↓reduceIte, List.nil_append, List.length_cons,
            List.length_append, List.length_nil, List.cons_append, List.append_assoc,
            List.append_nil] at hf ⊢
          obtain ⟨f, rfl⟩ : ∃ f, fuel = f + 2 := ⟨fuel - 2, by omega⟩
          rw [readFields_struct (f + 1) 0 1 "" l none _ rfl (ih _ _ (by omega))]
          exact readFields_end f 2 _ rest
        | some x =>
          simp only [gobEncodeType, ↓reduceIte, List.nil_append, List.length_cons,
            List.length_append, List.length_nil, List.cons_append, List.append_assoc]
            at hf ⊢
          obtain ⟨f, rfl⟩ : ∃ f, fuel = f + 3 := ⟨fuel - 3, by omega⟩
          rw [readFields_struct (f + 2) 0 1 "" l none _ rfl (ih _ _ (by omega)),
            readFields_extra (f + 1) 2 0 "" (some l) x _ rfl (by simpa using hne)]
          exact readFields_end f 3 _ rest
    · cases s with
      | none =>
        cases e with
        | none =>
          simp only [gobEncodeType, hk, ↓reduceIte, List.nil_append, List.length_cons,
            List.length_append, List.length_nil, List.cons_append, List.append_assoc,
            List.append_nil, gobString] at hf ⊢
          obtain ⟨f, rfl⟩ : ∃ f, fuel = f + 2 := ⟨fuel - 2, by omega⟩
          have := readFields_kind (f + 1) "" k none none (.uint 0 :: rest)
          simp only [gobString, List.cons_append, List.nil_append] at this
          rw [this]
          exact readFields_end f 1 _ rest
        | some x =>
          simp only [gobEncodeType, hk, ↓reduceIte, List.nil_append, List.length_cons,
            List.length_append, List.length_nil, List.cons_append, List.append_assoc,
            gobString] at hf ⊢
          obtain ⟨f, rfl⟩ : ∃ f, fuel = f + 3 := ⟨fuel - 3, by omega⟩
          have := readFields_kind (f + 2) "" k none none
            (.uint 2 :: .uint x.length :: (gobExtraEntries x ++ .uint 0 :: rest))
          simp only [gobString, List.cons_append, List.nil_append] at this
          rw [this, readFields_extra (f + 1) 1 1 k none x _ rfl (by simpa using hne)]
          exact readFields_end f 3 _ rest
      | some l =>
        have ih : ∀ fuel tail, (gobEncodeEntries l).length ≤ fuel →
            readStructEntries fuel l.length [] (gobEncodeEntries l ++ tail) = some (l, tail) :=
          fun fuel tail h => by
            have := readStructEntries_enc l (by simpa [wfStruct] using hw.1) fuel [] tail h
              (by simp)
            simpa using this
        cases e with
        | none =>
          simp only [gobEncodeType, hk, ↓reduceIte, List.nil_append, List.length_cons,
            List.length_append, List.length_nil, List.cons_append, List.append_assoc,
            List.append_nil, gobString] at hf ⊢
          obtain ⟨f, rfl⟩ : ∃ f, fuel = f + 3 := ⟨fuel - 3, by omega⟩
          have := readFields_kind (f + 2) "" k none none
            (.uint 1 :: .uint l.length :: (gobEncodeEntries l ++ .uint 0 :: rest))
          simp only [gobString, List.cons_append, List.nil_append] at this
          rw [this, readFields_struct (f + 1) 1 0 k l none _ rfl (ih _ _ (by omega))]
          exact readFields_end f 2 _ rest
        | some x =>
          simp only [gobEncodeType, hk, ↓reduceIte, List.nil_append, List.length_cons,
            List.length_append, List.length_nil, List.cons_append, List.append_assoc,
            gobString] at hf ⊢
          obtain ⟨f, rfl⟩ : ∃ f, fuel = f + 4 := ⟨fuel - 4, by omega⟩
          have := readFields_kind (f + 3) "" k none none
            (.uint 1 :: .uint l.length :: (gobEncodeEntries l ++
              .uint 1 :: .uint x.length :: (gobExtraEntries x ++ .uint 0 :: rest)))
          simp only [gobString, List.cons_append, List.nil_append] at this
          rw [this, readFields_struct (f + 2) 1 0 k l none _ rfl (ih _ _ (by omega)),
            readFields_extra (f + 1) 2 0 k (some l) x _ rfl (by simpa using hne)]
          exact readFields_end f 3 _ rest
theorem readStructEntries_enc : ∀ (l : List (String × XType)), wfEntries l = true →
    ∀ (fuel : Nat) (m : List (String × XType)) (rest : List Gob),
    (gobEncodeEntries l).length ≤ fuel → (∀ p ∈ l, p.1 ∉ m.map Prod.fst) →
    readStructEntries fuel l.length m (gobEncodeEntries l ++ rest) = some (m ++ l, rest)
  | [], _, fuel, m, rest, _, _ => by
    cases fuel <;> simp [readStructEntries, gobEncodeEntries]
  | (k, v) :: l, hw, fuel, m, rest, hf, hm => by
    simp only [wfEntries, Bool.and_eq_true, Bool.not_eq_true'] at hw
    have hkl : k ∉ l.map Prod.fst := by simpa using hw.1.1
    have hk : k ∉ m.map Prod.fst := hm (k, v) (List.mem_cons_self _ _)
    have hpos := gobEncodeType_length_pos v
    simp only [gobEncodeEntries, gobString, List.cons_append, List.nil_append,
      List.length_cons, List.length_append, List.append_assoc] at hf ⊢
    obtain ⟨f, rfl⟩ : ∃ f, fuel = f + 1 := ⟨fuel - 1, by omega⟩
    have h1 := readFields_enc v hw.1.2 f (gobEncodeEntries l ++ rest) (by omega)
    have h2 := readStructEntries_enc l hw.2 f (m ++ [(k, v)]) rest (by omega) (by
      intro p hp
      simp only [List.map_append, List.map_cons, List.map_nil, List.mem_append,
        List.mem_singleton, not_or]
      refine ⟨hm p (List.mem_cons_of_mem _ hp), ?_⟩
      intro e
      exact hkl (e ▸ List.mem_map_of_mem Prod.fst hp))
    simp only [readStructEntries, readString, ↓reduceIte, h1, mapSet_append m k v hk, h2]
    simp
end

theorem gobDecode_gobEncode (d : XType) (hw : wfType d = true) :
    gobDecodeType (gobEncodeType d) = d := by
  have h := readFields_enc d hw ((gobEncodeType d).length + 1) [] (by omega)
  simp only [List.append_nil] at h
  simp [gobDecodeType, h]

theorem mapSet_keys_mem {α : Type} : ∀ (m : List (String × α)) (k : String) (v : α) (x : String),
    x ∈ (mapSet m k v).map Prod.fst ↔ x = k ∨ x ∈ m.map Prod.fst
  | [], k, v, x => by simp [mapSet]
  | (a, w) :: rest, k, v, x => by
    by_cases h : a = k
    · subst h
      simp [mapSet]
    · simp only [mapSet, h, ↓reduceIte, List.map_cons, List.mem_cons,
        mapSet_keys_mem rest k v x]
      tauto

theorem wfEntries_mapSet : ∀ (m : List (String × XType)) (k : String) (v : XType),
    wfEntries m = true → wfType v = true → wfEntries (mapSet m k v) = true
  | [], k, v, _, hv => by simp [mapSet, wfEntries, hv]
  | (a, w) :: rest, k, v, hm, hv => by
    simp only [wfEntries, Bool.and_eq_true, Bool.not_eq_true'] at hm
    by_cases h : a = k
    · subst h
      simp only [mapSet, ↓reduceIte, wfEntries, Bool.and_eq_true, Bool.not_eq_true']
      exact ⟨⟨hm.1.1, hv⟩, hm.2⟩
    · simp only [mapSet, h, ↓reduceIte, wfEntries, Bool.and_eq_true, Bool.not_eq_true']
      refine ⟨⟨?_, hm.1.2⟩, wfEntries_mapSet rest k v hm.2 hv⟩
      have h1 : a ∉ rest.map Prod.fst := by simpa using hm.1.1
      have h2 : a ∉ (mapSet rest k v).map Prod.fst := by
        rw [mapSet_keys_mem]
        exact fun h3 => h3.elim h h1
      simpa using h2

theorem distinctKeys_mapSet {α : Type} : ∀ (m : List (String × α)) (k : String) (v : α),
    distinctKeys (m.map Prod.fst) = true → distinctKeys ((mapSet m k v).map Prod.fst) = true
  | [], k, v, _ => by simp [mapSet, distinctKeys]
  | (a, w) :: rest, k, v, hm => by
    simp only [List.map_cons, distinctKeys, Bool.and_eq_true, Bool.not_eq_true'] at hm
    by_cases h : a = k
    · subst h
      simp only [mapSet, ↓reduceIte, List.map_cons, distinctKeys, Bool.and_eq_true,
        Bool.not_eq_true']
      exact hm
    · simp only [mapSet, h, ↓reduceIte, List.map_cons, distinctKeys, Bool.and_eq_true,
        Bool.not_eq_true']
      refine ⟨?_, distinctKeys_mapSet rest k v hm.2⟩
      have h1 : a ∉ rest.map Prod.fst := by simpa using hm.1
      have h2 : a ∉ (mapSet rest k v).map Prod.fst := by
        rw [mapSet_keys_mem]
        exact fun h3 => h3.elim h h1
      simpa using h2

mutual
theorem FromGoType_wf : ∀ (t : GoTy) (d : XType), FromGoType t = .ok d → wfType d = true
  | .scalar s, d, h => by
    cases h
    rfl
  | .array n e, d, h => by
    rw [FromGoType] at h
    cases he : FromGoType e with
    | error m => simp [he, bind, Except.bind] at h
    | ok de =>
      have := FromGoType_wf e de he
      simp only [he, bind, Except.bind, pure, Except.pure, Except.ok.injEq] at h
      subst h
      simp [wfType, wfStruct, wfEntries, mapSet, distinctKeys, this]
  | .chan dir e, d, h => by
    rw [FromGoType] at h
    cases he : FromGoType e with
    | error m => simp [he, bind, Except.bind] at h
    | ok de =>
      have := FromGoType_wf e de he
      simp only [he, bind, Except.bind, pure, Except.pure, Except.ok.injEq] at h
      subst h
      simp [wfType, wfStruct, wfEntries, mapSet, distinctKeys, this]
  | .func ins outs v, d, h => by
    obtain ⟨s1, s2, rfl, h1, h2⟩ := FromGoType_func_inv ins outs v d h
    have w1 := FromGoTypeParams_wf In ins 0 [] s1 rfl h1
    have w2 := FromGoTypeParams_wf Out outs 0 s1 s2 w1 h2
    simp only [wfType, wfStruct, w2, Bool.true_and, Option.getD_some, List.map_cons,
      List.map_nil]
    decide
  | .iface ms, d, h => by
    rw [FromGoType] at h
    cases h
  | .map k e, d, h => by
    rw [FromGoType] at h
    cases hk : FromGoType k with
    | error m => simp [hk, bind, Except.bind] at h
    | ok dk =>
      cases he : FromGoType e with
      | error m => simp [hk, he, bind, Except.bind] at h
      | ok de =>
        have w1 := FromGoType_wf k dk hk
        have w2 := FromGoType_wf e de he
        simp only [hk, he, bind, Except.bind, pure, Except.pure, Except.ok.injEq] at h
        subst h
        have hne : KeyType ≠ ValueType := by decide
        simp [wfType, wfStruct, wfEntries, mapSet, distinctKeys, w1, w2, hne]
  | .ptr e, d, h => by
    rw [FromGoType] at h
    cases he : FromGoType e with
    | error m => simp [he, bind, Except.bind] at h
    | ok de =>
      have := FromGoType_wf e de he
      simp only [he, bind, Except.bind, pure, Except.pure, Except.ok.injEq] at h
      subst h
      simp [wfType, wfStruct, wfEntries, mapSet, distinctKeys, this]
  | .slice e, d, h => by
    rw [FromGoType] at h
    cases he : FromGoType e with
    | error m => simp [he, bind, Except.bind] at h
    | ok de =>
      have := FromGoType_wf e de he
      simp only [he, bind, Except.bind, pure, Except.pure, Except.ok.injEq] at h
      subst h
      simp [wfType, wfStruct, wfEntries, mapSet, distinctKeys, this]
  | .struct fs, d, h => by
    obtain ⟨s', e', rfl, hf⟩ := FromGoType_struct_inv fs d h
    have w := FromGoTypeFields_wf fs 0 [] _ s' e' rfl (by simp [distinctKeys]) hf
    simp [wfType, wfStruct, w.1, w.2]
theorem FromGoTypeParams_wf (pre : String) : ∀ (l : List GoTy) (i : Nat)
    (s s' : List (String × XType)), wfEntries s = true →
    FromGoTypeParams pre l i s = .ok s' → wfEntries s' = true
  | [], _, s, s', hs, h => by
    cases h
    exact hs
  | t :: rest, i, s, s', hs, h => by
    rw [FromGoTypeParams] at h
    cases ht : FromGoType t with
    | error m => simp [ht, bind, Except.bind] at h
    | ok d =>
      have w := FromGoType_wf t d ht
      simp only [ht, bind, Except.bind] at h
      exact FromGoTypeParams_wf pre rest (i + 1) _ s' (wfEntries_mapSet s _ d hs w) h
theorem FromGoTypeFields_wf : ∀ (l : List (String × GoTy)) (i : Nat)
    (s : List (String × XType)) (e : List (String × Any)) (s' : List (String × XType))
    (e' : List (String × Any)), wfEntries s = true →
    distinctKeys (e.map Prod.fst) = true → FromGoTypeFields l i s e = .ok (s', e') →
    wfEntries s' = true ∧ distinctKeys (e'.map Prod.fst) = true
  | [], _, s, e, s', e', hs, he, h => by
    cases h
    exact ⟨hs, he⟩
  | (name, t) :: rest, i, s, e, s', e', hs, he, h => by
    rw [FromGoTypeFields] at h
    cases ht : FromGoType t with
    | error m => simp [ht, bind, Except.bind] at h
    | ok d =>
      have w := FromGoType_wf t d ht
      simp only [ht, bind, Except.bind] at h
      exact FromGoTypeFields_wf rest (i + 1) _ _ s' e' (wfEntries_mapSet s _ d hs w)
        (distinctKeys_mapSet e _ _ he) h
end

/-! The textual form does not see whether a map is nil or empty, at any depth. -/

mutual
theorem emptyToNil_toJson : ∀ d : XType, (emptyToNil d).toJson = d.toJson
  | .mk k s e => by
    have h1 := emptyToNilStruct_toJson s
    simp only [emptyToNil, XType.toJson, h1]
    cases e with
    | none => rfl
    | some l => cases l <;> rfl
theorem emptyToNilStruct_toJson : ∀ s : Option (List (String × XType)),
    structToJson (emptyToNilStruct s) = structToJson s
  | none => rfl
  | some l => by
    have h := emptyToNilEntries_toJson l
    cases l with
    | nil => rfl
    | cons p l => simpa [emptyToNilStruct, structToJson] using h
theorem emptyToNilEntries_toJson : ∀ l : List (String × XType),
    entriesToJson (emptyToNilEntries l) = entriesToJson l
  | [] => rfl
  | (k, v) :: rest => by
    rw [emptyToNilEntries, entriesToJson, entriesToJson, emptyToNil_toJson v,
      emptyToNilEntries_toJson rest]
end

theorem emptyToNil_String (d : XType) : (emptyToNil d).String = d.String := by
  simp only [XType.String, emptyToNil_toJson]

/-- C17.  The descriptor survives the wire: for every descriptor `d` that
`FromGoType` produces on a function type, decoding the gob encoding of `d` into
a fresh `Type` yields `d` itself, so the decoded descriptor has the same
`String()`; the descriptor `doRpc` reads from the envelope of `rpc` is that
decoded descriptor, and the key it looks up is the key `d.String()` used at
registration.  The key would be the same behind a wire format that leaves
empty maps out, where the receiver holds a nil map for an empty one. -/
theorem C17_descriptor_survives_wire (reg : String → Option (Callable Val))
    (ins outs : List GoTy) (v : Bool) (d : XType) (args : List Val)
    (h : FromGoType (.func ins outs v) = .ok d) :
    gobDecodeType (gobEncodeType d) = d ∧
      (gobEnv.decType (gobEnv.encType d)).String = d.String ∧
      (readType gobEnv (rpcEnvelope gobEnv d args)).1 = gobEnv.decType (gobEnv.encType d) ∧
      reg (readType gobEnv (rpcEnvelope gobEnv d args)).1.String = reg d.String ∧
      (emptyToNil d).String = d.String := by
  have h1 := gobDecode_gobEncode d (FromGoType_wf _ d h)
  have h2 : gobEnv.decType (gobEnv.encType d) = d := h1
  have h3 : (readType gobEnv (rpcEnvelope gobEnv d args)).1 =
      gobEnv.decType (gobEnv.encType d) := by
    simp [rpcEnvelope, readType]
  exact ⟨h1, by rw [h2], h3, by rw [h3, h2], emptyToNil_String d⟩

/-- C17 at the addition of `TestRPC`, registered under the key of its type: the
lookup in `doRpc` finds it; and the items sent for `func() {}`, whose empty
`Struct` travels as a map of 0 entries. -/
theorem C17_descriptor_survives_wire_witness :
    FromGoType (.func [.scalar .Int, .scalar .Int] [.scalar .Int] false) = .ok addDesc ∧
      addRegistry addDesc.String = some addFun ∧
      (gobDecodeType (gobEncodeType addDesc) = addDesc ∧
        (gobEnv.decType (gobEnv.encType addDesc)).String = addDesc.String ∧
        (readType gobEnv (rpcEnvelope gobEnv addDesc [.int 1, .int 2])).1 =
          gobEnv.decType (gobEnv.encType addDesc) ∧
        addRegistry (readType gobEnv (rpcEnvelope gobEnv addDesc [.int 1, .int 2])).1.String =
          addRegistry addDesc.String ∧
        (emptyToNil addDesc).String = addDesc.String) ∧
      gobEncodeType funcDesc =
        [.uint 1, .uint 4, .bytes "func", .uint 1, .uint 0, .uint 1, .uint 3,
          .uint 9, .bytes "in_number", .uint 3, .bytes "int", .uint 4, .uint 2, .uint 0, .uint 0,
          .uint 10, .bytes "out_number", .uint 3, .bytes "int", .uint 4, .uint 2, .uint 0,
          .uint 0,
          .uint 8, .bytes "variadic", .uint 4, .bytes "bool", .uint 2, .uint 2, .uint 0, .uint 0,
          .uint 0] ∧
      gobDecodeType (gobEncodeType funcDesc) = funcDesc :=
  ⟨rfl, by simp [addRegistry, register],
    C17_descriptor_survives_wire addRegistry [.scalar .Int, .scalar .Int] [.scalar .Int] false
      addDesc [.int 1, .int 2] rfl,
    rfl, rfl⟩

/-! ## The textual form of a function descriptor (type_test.go:84-106) -/

/-- C18 on the code.  `TypeOf(func() {}).String()` is
`{"kind":"func","extra":{"in_number":0,"out_number":0,"variadic":false}}`
followed by a newline: "extra" has the third member `variadic`, which
type.go:69 stores, so the text is not the one of the comment in `TestFunc`,
with or without the newline; it has no "struct" member.  The text for the
function of `TestFunc2` has the member `variadic` as well. -/
theorem C18_func_text_has_variadic :
    TypeOf (some (.func [] [] false)) = .ok funcDesc ∧
      funcDesc.String =
        "\x7b\"kind\":\"func\",\"extra\":\x7b\"in_number\":0,\"out_number\":0,\"variadic\":false\x7d\x7d\n" ∧
      funcDesc.String ≠ "\x7b\"kind\":\"func\",\"extra\":\x7b\"in_number\":0,\"out_number\":0\x7d\x7d" ∧
      funcDesc.String ≠ "\x7b\"kind\":\"func\",\"extra\":\x7b\"in_number\":0,\"out_number\":0\x7d\x7d\n" ∧
      funcDesc.toJson.hasMember "struct" = false ∧
      (TypeOf (some func2Type)).map XType.String =
        .ok "\x7b\"kind\":\"func\",\"struct\":\x7b\"in_0\":\x7b\"kind\":\"string\"\x7d,\"in_1\":\x7b\"kind\":\"int\"\x7d,\"out_0\":\x7b\"kind\":\"bool\"\x7d,\"out_1\":\x7b\"kind\":\"struct\",\"extra\":\x7b\"fields_number\":0\x7d\x7d\x7d,\"extra\":\x7b\"in_number\":2,\"out_number\":2,\"variadic\":false\x7d\x7d\n" := by
  refine ⟨rfl, rfl, by decide, by decide, rfl, ?_⟩
  set_option maxRecDepth 100000 in
  rfl

theorem sort_func_extra (a b c : Json) :
    sortEntries [("in_number", a), ("out_number", b), ("variadic", c)] =
      [("in_number", a), ("out_number", b), ("variadic", c)] := by
  have h1 : keyLe "out_number" "variadic" = true := by decide
  have h2 : keyLe "in_number" "out_number" = true := by decide
  simp [sortEntries, List.insertionSort, List.orderedInsert, h1, h2]

/-- The "extra" member of the encoded object of a function descriptor: for every
function type that `FromGoType` describes, it is the object with exactly the
three members `in_number`, `out_number` and `variadic`, in this order. -/
theorem func_extra_members (ins outs : List GoTy) (v : Bool) (d : XType)
    (h : FromGoType (.func ins outs v) = .ok d) :
    (∃ ms, d.toJson = .obj ms ∧
      ∀ j, ("extra", j) ∈ ms ↔
        j = Json.obj [("in_number", .num ins.length), ("out_number", .num outs.length),
          ("variadic", .bool v)]) ∧
    (TypeOf (some (.func [] [] false))).map XType.String =
      .ok "\x7b\"kind\":\"func\",\"extra\":\x7b\"in_number\":0,\"out_number\":0,\"variadic\":false\x7d\x7d\n" ∧
    (TypeOf (some (.func [] [] false))).map (fun t => t.toJson.hasMember "struct") =
      .ok false := by
  obtain ⟨s1, s2, rfl, -, -⟩ := FromGoType_func_inv ins outs v d h
  refine ⟨⟨_, by rw [XType.toJson], ?_⟩, rfl, rfl⟩
  intro j
  have hs := sort_func_extra (.num ins.length) (.num outs.length) (.bool v)
  cases hst : structToJson (some s2) with
  | nil =>
    simp [mapMember, NumIn, NumOut, Variadic, Any.toJson, hs]
  | cons a l =>
    simp [mapMember, NumIn, NumOut, Variadic, Any.toJson, hs]

/-! ## Describe accepts unsafe.Pointer, reconstruct does not (type.go:86-90, 163-165) -/

theorem collectFrom_ok {α : Type} (body : Nat → Except String α) :
    ∀ (n i : Nat) (xs : List α), collectFrom body i n = .ok xs →
      xs.length = n ∧ ∀ j x, xs.get? j = some x → body (i + j) = .ok x
  | 0, i, xs, h => by
    cases h
    exact ⟨rfl, fun j x hx => by simp at hx⟩
  | n + 1, i, xs, h => by
    rw [collectFrom] at h
    cases hb : body i with
    | error m => simp [hb, bind, Except.bind] at h
    | ok x0 =>
      cases hr : collectFrom body (i + 1) n with
      | error m => simp [hb, hr, bind, Except.bind] at h
      | ok rest =>
        simp only [hb, hr, bind, Except.bind, pure, Except.pure, Except.ok.injEq] at h
        subst h
        obtain ⟨hl, hg⟩ := collectFrom_ok body n (i + 1) rest hr
        refine ⟨by simp [hl], ?_⟩
        intro j x hx
        cases j with
        | zero =>
          simp only [List.get?_cons_zero, Option.some.injEq] at hx
          subst hx
          simpa using hb
        | succ j =>
          have := hg j x (by simpa using hx)
          rw [← this]
          congr 1
          omega

theorem startsUnexported_blank : startsUnexported "_" = true := by decide

/-- When `reflect.StructOf` accepts the fields, their names are pairwise distinct. -/
theorem structOfCheck_nodup (u : Unicode) : ∀ (l : List (String × GoTy)) (i : Nat)
    (seen : List String), structOfCheck u i seen l = .ok () →
      (l.map Prod.fst).Nodup ∧ ∀ p ∈ l, p.1 ∉ seen
  | [], _, _, _ => ⟨List.nodup_nil, fun p hp => by cases hp⟩
  | (name, t) :: rest, i, seen, h => by
    rw [structOfCheck] at h
    split_ifs at h with h0 h1 h2 h3
    obtain ⟨ih1, ih2⟩ := structOfCheck_nodup u rest (i + 1) (name :: seen) h
    have hne : name ≠ "_" := by
      rintro rfl
      exact h2 startsUnexported_blank
    have hseen : name ∉ seen := by
      intro hm
      apply h3
      simp [hm, hne]
    refine ⟨?_, ?_⟩
    · simp only [List.map_cons, List.nodup_cons]
      refine ⟨?_, ih1⟩
      intro hm
      obtain ⟨p, hp, hpn⟩ := List.mem_map.mp hm
      exact ih2 p hp (by simp [hpn])
    · intro p hp
      rcases List.mem_cons.mp hp with rfl | hp
      · exact hseen
      · intro hm
        exact ih2 p hp (List.mem_cons_of_mem _ hm)

theorem allFields_false (p : GoTy → Bool) : ∀ fs : List (String × GoTy),
    GoTy.allFields p fs = false → ∃ q ∈ fs, GoTy.all p q.2 = false
  | [], h => by simp [GoTy.allFields] at h
  | (n, t) :: rest, h => by
    simp only [GoTy.allFields, Bool.and_eq_false_iff] at h
    rcases h with h | h
    · exact ⟨(n, t), List.mem_cons_self _ _, h⟩
    · obtain ⟨q, hq, hq2⟩ := allFields_false p rest h
      exact ⟨q, List.mem_cons_of_mem _ hq, hq2⟩

theorem func_desc_fails (u : Unicode) (ins outs : List GoTy) (variadic : Bool)
    (d : XType) (h : FromGoType (.func ins outs variadic) = .ok d) :
    d.GoType u = .error "interface conversion: interface {} is nil, not bool" := by
  obtain ⟨hk, he⟩ := FromGoType_func_extra ins outs variadic d h
  obtain ⟨k, s, e⟩ := d
  simp only [XType.Kind, XType.Extra] at hk he
  subst hk he
  rw [XType.GoType]
  rfl

/-- The struct case: a field whose descriptor does not reconstruct. -/
theorem struct_desc_fails (u : Unicode) (fs : List (String × GoTy)) (d : XType)
    (h : FromGoType (.struct fs) = .ok d) (q : String × GoTy) (hq : q ∈ fs)
    (hbad : ∀ dq, FromGoType q.2 = .ok dq → ∃ msg, dq.GoType u = .error msg) :
    ∃ msg, d.GoType u = .error msg := by
  obtain ⟨s', e', rfl, hf⟩ := FromGoType_struct_inv fs d h
  obtain ⟨ha, hb, -, hd, -⟩ := fromFields_spec fs 0 [] _ s' e' hf
  have hnum : entriesGet e' NumField = some (.int fs.length) := by
    rw [ha NumField (fun j _ => (field_key_ne_numField (0 + j)).symm)]
    simp [entriesGet]
  rw [XType.GoType]
  simp only [show kindMap "struct" = .Struct from by decide, mapGet, hnum, assertInt, bind,
    Except.bind, pure, Except.pure, Int.toNat_ofNat]
  split
  next m hc => exact ⟨m, rfl⟩
  next xs hc =>
    obtain ⟨hl, hg⟩ := collectFrom_ok _ _ _ _ hc
    have hx : ∀ j p, fs.get? j = some p →
        ∃ t, xs.get? j = some (p.1, t) ∧ structGoType u (some s') p.1 = .ok t := by
      intro j p hp
      have hj : j < xs.length := by
        rw [hl]
        exact List.get?_eq_some.mp hp |>.1
      have h1 := hg j (xs.get ⟨j, hj⟩) (List.get?_eq_get hj)
      have h2 := hb j p hp
      simp only [Nat.zero_add] at h1 h2
      simp only [h2, assertString, pure, Except.pure] at h1
      cases h3 : structGoType u (some s') p.1 with
      | error m => simp [h3] at h1
      | ok t =>
        simp only [h3, Except.ok.injEq] at h1
        exact ⟨t, by rw [List.get?_eq_get hj, ← h1], rfl⟩
    cases hs : structOfCheck u 0 [] xs with
    | error m => exact ⟨m, by simp [StructOf, hs, bind, Except.bind]⟩
    | ok v =>
      exfalso
      have hnd := (structOfCheck_nodup u xs 0 [] hs).1
      have hnames : fs.map Prod.fst = xs.map Prod.fst := by
        apply List.ext_get?
        intro j
        rw [List.get?_eq_getElem?, List.get?_eq_getElem?, List.getElem?_map, List.getElem?_map,
          ← List.get?_eq_getElem?, ← List.get?_eq_getElem?]
        cases hp : fs.get? j with
        | none =>
          have : xs.get? j = none := by
            rw [List.get?_eq_none] at hp ⊢
            omega
          rw [this]
        | some p =>
          obtain ⟨t, ht, -⟩ := hx j p hp
          rw [ht]
          rfl
      rw [← hnames] at hnd
      obtain ⟨dq, hdq, hget⟩ := hd hnd q hq
      obtain ⟨msg, hmsg⟩ := hbad dq hdq
      obtain ⟨j, hj⟩ := List.mem_iff_get?.mp hq
      obtain ⟨t, -, ht⟩ := hx j q hj
      rw [structGoType, entriesGoType_eq, hget] at ht
      simp only [hmsg] at ht
      cases ht

mutual
theorem unsafePointer_fails (u : Unicode) : ∀ (t : GoTy) (d : XType),
    t.hasUnsafePointer = true → FromGoType t = .ok d → ∃ msg, d.GoType u = .error msg
  | .scalar s, d, hp, h => by
    cases s <;> first
      | (cases h; exact ⟨_, rfl⟩)
      | (simp [GoTy.hasUnsafePointer, GoTy.all, GoTy.isUnsafePointer] at hp)
  | .array n e, d, hp, h => by
    have hp2 : e.hasUnsafePointer = true := by
      simpa [GoTy.hasUnsafePointer, GoTy.all, GoTy.isUnsafePointer] using hp
    rw [FromGoType] at h
    cases he : FromGoType e with
    | error m => simp [he, bind, Except.bind] at h
    | ok de =>
      obtain ⟨msg, hm⟩ := unsafePointer_fails u e de hp2 he
      simp only [he, bind, Except.bind, pure, Except.pure, Except.ok.injEq] at h
      subst h
      refine ⟨msg, ?_⟩
      rw [XType.GoType]
      simp [show kindMap (kindString .Array) = .Array from by decide, mapGet, entriesGet,
        mapSet, assertInt, structGoType, entriesGoType, hm, bind, Except.bind, pure,
        Except.pure]
  | .chan dir e, d, hp, h => by
    have hp2 : e.hasUnsafePointer = true := by
      simpa [GoTy.hasUnsafePointer, GoTy.all, GoTy.isUnsafePointer] using hp
    rw [FromGoType] at h
    cases he : FromGoType e with
    | error m => simp [he, bind, Except.bind] at h
    | ok de =>
      obtain ⟨msg, hm⟩ := unsafePointer_fails u e de hp2 he
      simp only [he, bind, Except.bind, pure, Except.pure, Except.ok.injEq] at h
      subst h
      refine ⟨msg, ?_⟩
      rw [XType.GoType]
      simp [show kindMap (kindString .Chan) = .Chan from by decide, mapGet, entriesGet,
        mapSet, assertInt, structGoType, entriesGoType, hm, bind, Except.bind, pure,
        Except.pure]
  | .func ins outs v, d, _, h => ⟨_, func_desc_fails u ins outs v d h⟩
  | .iface ms, d, _, h => by
    rw [FromGoType] at h
    cases h
  | .map k e, d, hp, h => by
    have hp2 : k.hasUnsafePointer = true ∨ e.hasUnsafePointer = true := by
      simpa [GoTy.hasUnsafePointer, GoTy.all, GoTy.isUnsafePointer] using hp
    rw [FromGoType] at h
    cases hk : FromGoType k with
    | error m => simp [hk, bind, Except.bind] at h
    | ok dk =>
      cases he : FromGoType e with
      | error m => simp [hk, he, bind, Except.bind] at h
      | ok de =>
        simp only [hk, he, bind, Except.bind, pure, Except.pure, Except.ok.injEq] at h
        subst h
        have hne : KeyType ≠ ValueType := by decide
        have hne2 : ValueType ≠ KeyType := by decide
        rw [XType.GoType]
        simp only [show kindMap (kindString .Map) = .Map from by decide, mapGet, entriesGet,
          mapSet, structGoType, entriesGoType, bind, Except.bind, hne, hne2, ↓reduceIte]
        cases hgk : dk.GoType u with
        | error m => exact ⟨m, rfl⟩
        | ok gk =>
          cases hge : de.GoType u with
          | error m => exact ⟨m, rfl⟩
          | ok ge =>
            exfalso
            rcases hp2 with hp2 | hp2
            · obtain ⟨msg, hm⟩ := unsafePointer_fails u k dk hp2 hk
              rw [hm] at hgk
              cases hgk
            · obtain ⟨msg, hm⟩ := unsafePointer_fails u e de hp2 he
              rw [hm] at hge
              cases hge
  | .ptr e, d, hp, h => by
    have hp2 : e.hasUnsafePointer = true := by
      simpa [GoTy.hasUnsafePointer, GoTy.all, GoTy.isUnsafePointer] using hp
    rw [FromGoType] at h
    cases he : FromGoType e with
    | error m => simp [he, bind, Except.bind] at h
    | ok de =>
      obtain ⟨msg, hm⟩ := unsafePointer_fails u e de hp2 he
      simp only [he, bind, Except.bind, pure, Except.pure, Except.ok.injEq] at h
      subst h
      refine ⟨msg, ?_⟩
      rw [XType.GoType]
      simp [show kindMap (kindString .Pointer) = .Pointer from by decide, mapGet, entriesGet,
        mapSet, structGoType, entriesGoType, hm, bind, Except.bind]
  | .slice e, d, hp, h => by
    have hp2 : e.hasUnsafePointer = true := by
      simpa [GoTy.hasUnsafePointer, GoTy.all, GoTy.isUnsafePointer] using hp
    rw [FromGoType] at h
    cases he : FromGoType e with
    | error m => simp [he, bind, Except.bind] at h
    | ok de =>
      obtain ⟨msg, hm⟩ := unsafePointer_fails u e de hp2 he
      simp only [he, bind, Except.bind, pure, Except.pure, Except.ok.injEq] at h
      subst h
      refine ⟨msg, ?_⟩
      rw [XType.GoType]
      simp [show kindMap (kindString .Slice) = .Slice from by decide, mapGet, entriesGet,
        mapSet, structGoType, entriesGoType, hm, bind, Except.bind]
  | .struct fs, d, hp, h => by
    have hp2 : GoTy.allFields (fun x => !x.isUnsafePointer) fs = false := by
      simpa [GoTy.hasUnsafePointer, all_struct, GoTy.isUnsafePointer] using hp
    obtain ⟨q, hq, hq2⟩ := allFields_false _ fs hp2
    exact struct_desc_fails u fs d h q hq
      (unsafePointer_fails_fields u fs q hq (by simp [GoTy.hasUnsafePointer, hq2]))
theorem unsafePointer_fails_fields (u : Unicode) : ∀ (fs : List (String × GoTy))
    (q : String × GoTy), q ∈ fs → q.2.hasUnsafePointer = true →
    ∀ dq, FromGoType q.2 = .ok dq → ∃ msg, dq.GoType u = .error msg
  | [], q, hq, _ => by cases hq
  | (n, t) :: rest, q, hq, hp => by
    by_cases hqe : q = (n, t)
    · subst hqe
      exact fun dq hdq => unsafePointer_fails u t dq hp hdq
    · have hq2 : q ∈ rest := by
        rcases List.mem_cons.mp hq with h | h
        · exact absurd h hqe
        · exact h
      exact unsafePointer_fails_fields u rest q hq2 hp
end

/-- C19.  Describe accepts a kind that reconstruct rejects: `FromGoType` of
`unsafe.Pointer` is the descriptor `{Kind: "unsafe.Pointer", Struct: nil,
Extra: nil}`, `GoType` on it panics with "Unknown type unsafe.Pointer", and
`GoType` panics on the descriptor of every type that is `unsafe.Pointer` or has
it among its element, key, value, parameter, result or field types. -/
theorem C19_unsafe_pointer_described_not_reconstructed (u : Unicode) (t : GoTy) (d : XType)
    (hp : t.hasUnsafePointer = true) (h : FromGoType t = .ok d) :
    FromGoType (.scalar .UnsafePointer) = .ok (.mk "unsafe.Pointer" none none) ∧
      (XType.mk "unsafe.Pointer" none none).GoType u = .error "Unknown type unsafe.Pointer" ∧
      ∃ msg, d.GoType u = .error msg :=
  ⟨rfl, rfl, unsafePointer_fails u t d hp h⟩

/-- C19 at `[2]unsafe.Pointer`: the panic is the one of the element type. -/
theorem C19_unsafe_pointer_described_not_reconstructed_witness :
    pointerArray.hasUnsafePointer = true ∧
      FromGoType pointerArray =
        .ok (.mk "array" (some [("element_type", .mk "unsafe.Pointer" none none)])
          (some [("array_length", .int 2)])) ∧
      (FromGoType (.scalar .UnsafePointer) = .ok (.mk "unsafe.Pointer" none none) ∧
        (XType.mk "unsafe.Pointer" none none).GoType asciiTable =
          .error "Unknown type unsafe.Pointer" ∧
        ∃ msg, (XType.mk "array" (some [("element_type", .mk "unsafe.Pointer" none none)])
          (some [("array_length", .int 2)])).GoType asciiTable = .error msg) ∧
      (XType.mk "array" (some [("element_type", .mk "unsafe.Pointer" none none)])
        (some [("array_length", .int 2)])).GoType asciiTable =
          .error "Unknown type unsafe.Pointer" :=
  ⟨by decide, rfl,
    C19_unsafe_pointer_described_not_reconstructed asciiTable pointerArray _ (by decide) rfl,
    rfl⟩

/-! ## A callable without results (type_test.go:257-260) -/

/-- When `reflect.Value.Call` returns results, they are results of the body. -/
theorem Call_ok_body {V P : Type} (env : Env V P) (c : Callable V) (args : List (GoTy × V))
    (r : List V) (h : Call env (some c) args = .ok r) : ∃ a, c.body a = .ok r := by
  simp only [Call] at h
  split_ifs at h with h1 h2 h3 h4
  · cases hs : sliceElem ((c.ins.getLast?).getD (.slice (.scalar .Int))) with
    | error m => simp [hs, bind, Except.bind] at h
    | ok e =>
      simp only [hs, bind, Except.bind] at h
      split_ifs at h with h5
      exact ⟨_, h⟩
  · exact ⟨_, h⟩

/-- With a registered callable without results `doRpc` panics on every envelope. -/
theorem doRpcRun_no_result {V P : Type} (env : Env V P) (reg : String → Option (Callable V))
    (c : Callable V) (b : List P) (hreg : reg (readType env b).1.String = some c)
    (hout : c.outs = []) : ∃ msg, doRpcRun env reg b = .error msg := by
  simp only [doRpcRun, hreg, Option.map_some', bind, Except.bind]
  cases hd : decodeArgs env (some c.goType) 0 (readInt env (readType env b).2).1.toNat
      (readInt env (readType env b).2).2 with
  | error m => exact ⟨m, rfl⟩
  | ok args =>
    cases hc : Call env (some c) args with
    | error m => exact ⟨m, by simp only [hc]⟩
    | ok r =>
      obtain ⟨a, ha⟩ := Call_ok_body env c args r hc
      have hl := c.body_length a r ha
      rw [hout] at hl
      have hr : r = [] := List.length_eq_zero.mp hl
      subst hr
      exact ⟨_, by simp only [hc]; rfl⟩

/-- C20 as stated fails on a variadic callable without results: `func(xs ...int)
{}` is registered, its body never panics, `doRpc` decodes the one argument, and
`reflect.Value.Call` panics on it, so the callable is not invoked and the panic
is not the one of reading `r[0]`. -/
theorem C20_counterexample :
    logRegistry (readType valEnv [.desc logDesc, .any (.int 1), .val (.list [.int 1])]).1.String =
        some logFun ∧
      logFun.outs = [] ∧ (∀ a, logFun.body a = .ok []) ∧
      decodeArgs valEnv (some logFun.goType) 0 1 [.val (.list [.int 1])] =
        .ok [(.slice (.scalar .Int), .list [.int 1])] ∧
      Call valEnv (some logFun) [(.slice (.scalar .Int), .list [.int 1])] =
        .error "reflect: cannot use argument as element type in Call" ∧
      (doRpc valEnv logRegistry [.desc logDesc, .any (.int 1), .val (.list [.int 1])]).1 =
        .error "reflect: cannot use argument as element type in Call" ∧
      (doRpc valEnv logRegistry [.desc logDesc, .any (.int 1), .val (.list [.int 1])]).1 ≠
        .error "runtime error: index out of range [0] with length 0" := by
  have hreg : logRegistry logDesc.String = some logFun := by
    simp [logRegistry, register]
  have hrun : (doRpc valEnv logRegistry
      [.desc logDesc, .any (.int 1), .val (.list [.int 1])]).1 =
        .error "reflect: cannot use argument as element type in Call" := by
    simp only [doRpc, doRpcRun, readType, valEnv, hreg]
    rfl
  refine ⟨hreg, rfl, fun _ => rfl, rfl, rfl, hrun, ?_⟩
  rw [hrun]
  intro h
  have h2 := congrArg String.length (Except.error.inj h)
  revert h2
  decide

/-- C20, amended.  A callable without results cannot be dispatched: for every
registered callable that declares no return value, `doRpc` panics on every
envelope and returns no payload; when the callable is not variadic, the
envelope carries its parameter count and one payload per parameter, and the
callable returns on the decoded arguments, `doRpc` decodes the arguments,
invokes the callable on them, gets the empty result list, and panics when it
reads its first element. -/
theorem C20_no_result_dispatch_fails {V P : Type} (env : Env V P)
    (reg : String → Option (Callable V)) (c : Callable V) (b : List P)
    (hreg : reg (readType env b).1.String = some c) (hout : c.outs = []) :
    (∃ msg, (doRpc env reg b).1 = .error msg) ∧
      (c.variadic = false → ∀ pd pn ps, b = pd :: pn :: ps →
        env.decInt pn = c.ins.length → ps.length = c.ins.length →
        (∃ r, c.body (List.zipWith env.decVal c.ins ps) = .ok r) →
        decodeArgs env (some c.goType) 0 c.ins.length ps =
          .ok (c.ins.zip (List.zipWith env.decVal c.ins ps)) ∧
        Call env (some c) (c.ins.zip (List.zipWith env.decVal c.ins ps)) =
          c.body (List.zipWith env.decVal c.ins ps) ∧
        c.body (List.zipWith env.decVal c.ins ps) = .ok [] ∧
        (doRpc env reg b).1 =
          .error "runtime error: index out of range [0] with length 0") := by
  refine ⟨doRpcRun_no_result env reg c b hreg hout, ?_⟩
  rintro hvar pd pn ps rfl hn hlen ⟨r, hr⟩
  have hl := c.body_length _ r hr
  rw [hout] at hl
  have hnil : r = [] := List.length_eq_zero.mp hl
  subst hnil
  have hdec := decodeArgs_all env c.outs c.variadic c.ins [] ps hlen
  simp only [List.nil_append, List.length_nil] at hdec
  have hz : (List.zipWith env.decVal c.ins ps).length = c.ins.length := by
    simp [hlen]
  refine ⟨hdec, Call_plain env c _ hvar hz, hr, ?_⟩
  show doRpcRun env reg (pd :: pn :: ps) = _
  rw [doRpcRun_registered env reg c pd pn ps hreg hvar hn hlen, hr]
  rfl

/-- C20 at `func(a int) {}` with the argument 5. -/
theorem C20_no_result_dispatch_fails_witness :
    noResultRegistry (readType valEnv [.desc noResultDesc, .any (.int 1), .val (.int 5)]).1.String =
        some noResultFun ∧
      noResultFun.outs = [] ∧
      (doRpc valEnv noResultRegistry [.desc noResultDesc, .any (.int 1), .val (.int 5)]).1 =
        .error "runtime error: index out of range [0] with length 0" ∧
      ((∃ msg, (doRpc valEnv noResultRegistry
          [.desc noResultDesc, .any (.int 1), .val (.int 5)]).1 = .error msg) ∧
        (noResultFun.variadic = false → ∀ pd pn ps,
          [Msg.desc noResultDesc, .any (.int 1), .val (.int 5)] = pd :: pn :: ps →
          valEnv.decInt pn = noResultFun.ins.length → ps.length = noResultFun.ins.length →
          (∃ r, noResultFun.body (List.zipWith valEnv.decVal noResultFun.ins ps) = .ok r) →
          decodeArgs valEnv (some noResultFun.goType) 0 noResultFun.ins.length ps =
            .ok (noResultFun.ins.zip (List.zipWith valEnv.decVal noResultFun.ins ps)) ∧
          Call valEnv (some noResultFun)
              (noResultFun.ins.zip (List.zipWith valEnv.decVal noResultFun.ins ps)) =
            noResultFun.body (List.zipWith valEnv.decVal noResultFun.ins ps) ∧
          noResultFun.body (List.zipWith valEnv.decVal noResultFun.ins ps) = .ok [] ∧
          (doRpc valEnv noResultRegistry [.desc noResultDesc, .any (.int 1), .val (.int 5)]).1 =
            .error "runtime error: index out of range [0] with length 0")) :=
  have h : noResultRegistry
      (readType valEnv [.desc noResultDesc, .any (.int 1), .val (.int 5)]).1.String =
        some noResultFun := by
    simp [noResultRegistry, register, readType, valEnv]
  have ht := C20_no_result_dispatch_fails valEnv noResultRegistry noResultFun _ h rfl
  ⟨h, rfl, (ht.2 rfl _ _ _ rfl rfl rfl ⟨[], rfl⟩).2.2.2, ht⟩

end Reflectx
